import Mathlib

/-!
Standings and statistics engine of f2-tabela.

A shallow embedding of `src/js/statistics.js` (class `StatisticsController`):
`calculateRacePoints`, `calculateDriverStats`, `generateStandings` and
`analyzeRace`, followed by theorems about them.

Conventions of the embedding.

* JavaScript numbers that occur as positions, points and counters are integers;
  they are modelled by `Int` and `Nat`, exact for magnitudes below `2 ^ 53`.
* A field of a result object is a `JsVal`: absent (`undefined`), a number or a
  string.  `truthy` and `parseInt` follow ECMAScript on these values.
* A JavaScript object used as a mapping is the list of its entries in
  `Object.entries` order; property lookup takes the first entry with the key.
  The result mapping of a race is also read under driver ids it has no entry
  for: there `lookupResult` gives what a plain object inherits from
  `Object.prototype`.  The result store itself is read at its own keys: race
  ids are taken not to name a property the store inherits.
* A flag of a result (`sprintFL`, `featureFL`) is the truthiness of the
  property; a missing flag is `false`.
* A `TypeError` raised by reading a property of `undefined` is the error case
  of `Except JsError`.
-/

namespace F2Tabela

/-! ## JavaScript values of result fields -/

/-- A value stored in a position field of a result object. -/
inductive JsVal where
  | absent : JsVal
  | num (n : Int) : JsVal
  | str (s : String) : JsVal
deriving DecidableEq, Repr

/-- The only exception the embedded code can raise. -/
inductive JsError where
  | typeError : JsError
deriving DecidableEq, Repr

instance instDecidableEqExcept {ε α : Type} [DecidableEq ε] [DecidableEq α] :
    DecidableEq (Except ε α)
  | .ok a, .ok b => if h : a = b then isTrue (by rw [h]) else isFalse (by intro e; cases e; exact h rfl)
  | .error a, .error b =>
    if h : a = b then isTrue (by rw [h]) else isFalse (by intro e; cases e; exact h rfl)
  | .ok _, .error _ => isFalse (by intro e; cases e)
  | .error _, .ok _ => isFalse (by intro e; cases e)

/-- ECMAScript `ToBoolean`: `undefined`, `0` and the empty string are falsy. -/
def truthy : JsVal → Bool
  | .absent => false
  | .num n => n != 0
  | .str s => s.data != []

/-- White space and line terminators skipped by `parseInt` (`StrWhiteSpaceChar`). -/
def isStrWhiteSpaceChar (c : Char) : Bool :=
  let n := c.toNat
  n == 0x09 || n == 0x0A || n == 0x0B || n == 0x0C || n == 0x0D || n == 0x20 ||
  n == 0xA0 || n == 0x1680 || (0x2000 ≤ n && n ≤ 0x200A) || n == 0x2028 ||
  n == 0x2029 || n == 0x202F || n == 0x205F || n == 0x3000 || n == 0xFEFF

/-- Value of a character as a digit, for radices up to 36. -/
def digitValue (c : Char) : Option Nat :=
  let n := c.toNat
  if 48 ≤ n ∧ n ≤ 57 then some (n - 48)
  else if 97 ≤ n ∧ n ≤ 122 then some (n - 87)
  else if 65 ≤ n ∧ n ≤ 90 then some (n - 55)
  else none

/-- Longest run of radix digits at the head of the input, as a number;
`none` when the input does not start with a digit. -/
def parseDigits (radix : Nat) : List Char → Option Nat → Option Nat
  | [], acc => acc
  | c :: cs, acc =>
    match digitValue c with
    | some d =>
      if d < radix then parseDigits radix cs (some (acc.getD 0 * radix + d)) else acc
    | none => acc

/-- Drop leading white space. -/
def skipWhiteSpace : List Char → List Char
  | [] => []
  | c :: cs => if isStrWhiteSpaceChar c then skipWhiteSpace cs else c :: cs

/-- The text after the optional sign, with the radix it is read in: a leading
`0x` or `0X` selects radix 16. -/
def radixAndDigits : List Char → Nat × List Char
  | '0' :: 'x' :: cs => (16, cs)
  | '0' :: 'X' :: cs => (16, cs)
  | cs => (10, cs)

/-- The call `parseInt(string)` without a radix argument; `none` is `NaN`. -/
def parseIntString (s : String) : Option Int :=
  let cs := skipWhiteSpace s.data
  let signed : Bool × List Char :=
    match cs with
    | '-' :: rest => (true, rest)
    | '+' :: rest => (false, rest)
    | rest => (false, rest)
  let rd := radixAndDigits signed.2
  match parseDigits rd.1 rd.2 none with
  | none => none
  | some n => some (if signed.1 then -(n : Int) else (n : Int))

/-- The call `parseInt(v)`: the argument is converted to a string first, so
`undefined` gives `NaN` and an integer gives itself. -/
def parseInt : JsVal → Option Int
  | .absent => none
  | .num n => some n
  | .str s => parseIntString s

/-! ## Data model -/

/-- A result object of one driver in one race. -/
structure RaceResult where
  qualifying : JsVal
  sprint : JsVal
  feature : JsVal
  sprintFL : Bool
  featureFL : Bool
deriving DecidableEq, Repr

/-- A points system object; a missing property is `none`. -/
structure PointsSystem where
  feature : Option (List Int)
  sprint : Option (List Int)
  pole : Option Int
  fastestLap : Option Int
deriving DecidableEq, Repr

/-- The expression `pointsSystem.pole || 0`. -/
def poleBonus (pointsSystem : Option PointsSystem) : Except JsError Int :=
  match pointsSystem with
  | none => .error .typeError
  | some ps => .ok (ps.pole.getD 0)

/-- The expression `pointsSystem.fastestLap || 0`. -/
def fastestLapBonus (pointsSystem : Option PointsSystem) : Except JsError Int :=
  match pointsSystem with
  | none => .error .typeError
  | some ps => .ok (ps.fastestLap.getD 0)

/-- The statement `if (result.qualifying === 1) points += pointsSystem.pole || 0`. -/
def addPole (result : RaceResult) (pointsSystem : Option PointsSystem) (points : Int) :
    Except JsError Int :=
  if result.qualifying = JsVal.num 1 then
    match poleBonus pointsSystem with
    | .error e => .error e
    | .ok b => .ok (points + b)
  else .ok points

/-- The block that adds the points of a finishing position, for the segment
whose array is selected by `arr`:
`if (pos && !isNaN(parseInt(pos))) { p = parseInt(pos);
   if (p > 0 && p <= pointsSystem.arr.length) points += pointsSystem.arr[p - 1] }`. -/
def addPositionPoints (pos : JsVal) (arr : PointsSystem → Option (List Int))
    (pointsSystem : Option PointsSystem) (points : Int) : Except JsError Int :=
  if truthy pos then
    match parseInt pos with
    | none => .ok points
    | some p =>
      if 0 < p then
        match pointsSystem with
        | none => .error .typeError
        | some ps =>
          match arr ps with
          | none => .error .typeError
          | some a =>
            if p ≤ (a.length : Int) then .ok (points + a.getD (p - 1).toNat 0)
            else .ok points
      else .ok points
  else .ok points

/-- The comparison `parseInt(pos) <= 10`, false for `NaN`. -/
def parseIntLe10 (pos : JsVal) : Bool :=
  match parseInt pos with
  | none => false
  | some p => decide (p ≤ 10)

/-- The statement
`if (flag && pos && parseInt(pos) <= 10) points += pointsSystem.fastestLap || 0`. -/
def addFastestLap (flag : Bool) (pos : JsVal) (pointsSystem : Option PointsSystem)
    (points : Int) : Except JsError Int :=
  if flag && truthy pos && parseIntLe10 pos then
    match fastestLapBonus pointsSystem with
    | .error e => .error e
    | .ok b => .ok (points + b)
  else .ok points

/-- The method `calculateRacePoints(result, pointsSystem)`. -/
def calculateRacePoints (result : RaceResult) (pointsSystem : Option PointsSystem) :
    Except JsError Int :=
  addPole result pointsSystem 0 >>= fun p1 =>
  addPositionPoints result.sprint PointsSystem.sprint pointsSystem p1 >>= fun p2 =>
  addFastestLap result.sprintFL result.sprint pointsSystem p2 >>= fun p3 =>
  addPositionPoints result.feature PointsSystem.feature pointsSystem p3 >>= fun p4 =>
  addFastestLap result.featureFL result.feature pointsSystem p4

/-- The default points system of `getDefaultPointsSystem` in `src/js/app.js`. -/
def defaultPointsSystem : PointsSystem :=
  { feature := some [25, 18, 15, 12, 10, 8, 6, 4, 2, 1]
    sprint := some [15, 12, 10, 8, 6, 4, 2, 1]
    pole := some 2
    fastestLap := some 1 }

/-! ## Driver statistics -/

/-- A driver of a championship. -/
structure Driver where
  id : String
  name : String
deriving DecidableEq, Repr

/-- A race with its own points system (`undefined` when the property is missing). -/
structure Race where
  id : String
  name : String
  pointsSystem : Option PointsSystem
deriving DecidableEq, Repr

/-- The current championship; only its driver list is read by the engine. -/
structure Championship where
  name : String
  drivers : Option (List Driver)
deriving DecidableEq, Repr

/-- The application state read by `StatisticsController`: `results` maps a race
id to the mapping from driver id to result, each as its entry list. -/
structure State where
  currentChampionship : Option Championship
  races : List Race
  results : List (String × List (String × RaceResult))
deriving Repr

/-- The value of `stats.averagePosition`: the number `0` it is initialised
with, or the string produced by `toFixed(1)`, kept as its sign and its value
in tenths (`fixed false 25` is the string `2.5`). -/
inductive AvgPos where
  | zero : AvgPos
  | fixed (neg : Bool) (tenths : Nat) : AvgPos
deriving DecidableEq, Repr

/-- An element of `stats.raceResults`. -/
structure RaceSummary where
  race : String
  points : Int
  qualifying : JsVal
  sprint : JsVal
  feature : JsVal
  fastestLap : Bool
deriving DecidableEq, Repr

/-- The object returned by `calculateDriverStats`. -/
structure DriverStats where
  totalPoints : Int
  wins : Nat
  podiums : Nat
  poles : Nat
  fastestLaps : Nat
  dnfs : Nat
  averagePosition : AvgPos
  bestFinish : Option Int
  worstFinish : Option Int
  raceResults : List RaceSummary
deriving DecidableEq, Repr

/-- The local variables of `calculateDriverStats` while it walks the races. -/
structure StatsAcc where
  stats : DriverStats
  totalPositions : Int
  finishedRaces : Nat
deriving DecidableEq, Repr

/-- The initial `stats`, `totalPositions` and `finishedRaces`. -/
def initialAcc : StatsAcc :=
  { stats :=
      { totalPoints := 0, wins := 0, podiums := 0, poles := 0, fastestLaps := 0, dnfs := 0,
        averagePosition := AvgPos.zero, bestFinish := none, worstFinish := none,
        raceResults := [] }
    totalPositions := 0
    finishedRaces := 0 }

/-- The names of the properties a plain object inherits from
`Object.prototype`: its methods and the accessor `__proto__`.  Read from the
result mapping of a race, each gives a truthy value (a built-in function, or
the prototype object for `__proto__`) that has none of the properties of a
result. -/
def inheritedKeys : List String :=
  ["constructor", "__defineGetter__", "__defineSetter__", "hasOwnProperty",
   "__lookupGetter__", "__lookupSetter__", "isPrototypeOf", "propertyIsEnumerable",
   "toString", "valueOf", "toLocaleString", "__proto__"]

/-- A value read under an inherited name, as the loop body sees it: every
position field reads `undefined` and no flag is set. -/
def inheritedValue : RaceResult :=
  { qualifying := JsVal.absent, sprint := JsVal.absent, feature := JsVal.absent,
    sprintFL := false, featureFL := false }

/-- The expression `results[raceId]?.[driverId]`.  The mapping of the race is
a plain object: its own entry under `driverId` is read if there is one, else
the property it inherits under that name, else `undefined`.  The store
`results` is read at its own keys. -/
def lookupResult (results : List (String × List (String × RaceResult)))
    (raceId driverId : String) : Option RaceResult :=
  match results.lookup raceId with
  | none => none
  | some m =>
    match m.lookup driverId with
    | some raceResult => some raceResult
    | none => if inheritedKeys.contains driverId then some inheritedValue else none

/-- The test `['DNF', 'DSQ', 'DNS'].includes(v)`. -/
def isStatusToken (v : JsVal) : Bool :=
  v == JsVal.str "DNF" || v == JsVal.str "DSQ" || v == JsVal.str "DNS"

/-- The block "Feature race statistics" of the loop body. -/
def featureStats (feature : JsVal) (acc : StatsAcc) : StatsAcc :=
  if truthy feature then
    match parseInt feature with
    | some position =>
      { stats :=
          { acc.stats with
            wins := if position = 1 then acc.stats.wins + 1 else acc.stats.wins
            podiums := if position ≤ 3 then acc.stats.podiums + 1 else acc.stats.podiums
            bestFinish :=
              match acc.stats.bestFinish with
              | none => some position
              | some b => if position < b then some position else some b
            worstFinish :=
              match acc.stats.worstFinish with
              | none => some position
              | some w => if w < position then some position else some w }
        totalPositions := acc.totalPositions + position
        finishedRaces := acc.finishedRaces + 1 }
    | none =>
      if isStatusToken feature then
        { acc with stats := { acc.stats with dnfs := acc.stats.dnfs + 1 } }
      else acc
  else acc

/-- The loop body for a race in which the driver has the result `raceResult`
worth `racePoints` points. -/
def recordRace (race : Race) (raceResult : RaceResult) (racePoints : Int)
    (acc : StatsAcc) : StatsAcc :=
  let acc1 : StatsAcc :=
    { acc with stats := { acc.stats with totalPoints := acc.stats.totalPoints + racePoints } }
  let acc2 := featureStats raceResult.feature acc1
  let s2 := acc2.stats
  { acc2 with
    stats :=
      { s2 with
        poles := if raceResult.qualifying = JsVal.num 1 then s2.poles + 1 else s2.poles
        fastestLaps :=
          if raceResult.featureFL || raceResult.sprintFL then s2.fastestLaps + 1
          else s2.fastestLaps
        raceResults :=
          s2.raceResults ++
            [{ race := race.name
               points := racePoints
               qualifying := raceResult.qualifying
               sprint := raceResult.sprint
               feature := raceResult.feature
               fastestLap := raceResult.featureFL || raceResult.sprintFL }] } }

/-- The callback of `races.forEach` in `calculateDriverStats`. -/
def raceStep (results : List (String × List (String × RaceResult))) (driverId : String)
    (acc : StatsAcc) (race : Race) : Except JsError StatsAcc :=
  match lookupResult results race.id driverId with
  | none => .ok acc
  | some raceResult =>
    match calculateRacePoints raceResult race.pointsSystem with
    | .error e => .error e
    | .ok racePoints => .ok (recordRace race raceResult racePoints acc)

/-- The loop `races.forEach(...)`, stopped by the first exception. -/
def forEachRace (results : List (String × List (String × RaceResult))) (driverId : String) :
    List Race → StatsAcc → Except JsError StatsAcc
  | [], acc => .ok acc
  | race :: rest, acc =>
    match raceStep results driverId acc race with
    | .error e => .error e
    | .ok acc1 => forEachRace results driverId rest acc1

/-- Auxiliary loop of `floorLog2`, bounded by `fuel`. -/
def floorLog2Aux : Nat → Nat → Nat
  | 0, _ => 0
  | fuel + 1, n => if 2 ≤ n then floorLog2Aux fuel (n / 2) + 1 else 0

/-- The position of the leading binary digit of `n` (`0` for `n ≤ 1`). -/
def floorLog2 (n : Nat) : Nat := floorLog2Aux n n

/-- The fraction `p / (q * 2 ^ e)` as numerator and denominator. -/
def scaledFraction (p q : Nat) (e : Int) : Nat × Nat :=
  if 0 ≤ e then (p, q * 2 ^ e.toNat) else (p * 2 ^ (-e).toNat, q)

/-- The exponent `e` of the double nearest to `p / q`: the one for which
`2 ^ 52 ≤ p / (q * 2 ^ e) < 2 ^ 53`. -/
def doubleExponent (p q : Nat) : Int :=
  let e0 : Int := (floorLog2 p : Int) - (floorLog2 q : Int) - 52
  if (scaledFraction p q e0).1 < 2 ^ 52 * (scaledFraction p q e0).2 then e0 - 1 else e0

/-- The integer nearest to `n / d`, the even one on a tie. -/
def roundHalfEven (n d : Nat) : Nat :=
  if 2 * (n % d) < d then n / d
  else if d < 2 * (n % d) then n / d + 1
  else if (n / d) % 2 = 0 then n / d else n / d + 1

/-- Significand `m` and exponent `e` of the double nearest to `p / q`
(round to nearest, ties to even, 53-bit significand): the double is `m * 2 ^ e`.
For `p, q > 0` in the normal range. -/
def divToDouble (p q : Nat) : Nat × Int :=
  let e := doubleExponent p q
  (roundHalfEven (scaledFraction p q e).1 (scaledFraction p q e).2, e)

/-- The integer `n` for which `n / 10` is closest to the double `m * 2 ^ e`,
the larger one on a tie, as `Number.prototype.toFixed` chooses it. -/
def nearestTenths (m : Nat) (e : Int) : Nat :=
  if 0 ≤ e then 10 * m * 2 ^ e.toNat
  else (20 * m + 2 ^ (-e).toNat) / 2 ^ ((-e).toNat + 1)

/-- The expression `(totalPositions / finishedRaces).toFixed(1)` for
`finishedRaces > 0`: the quotient is a double, `toFixed` rounds its exact value. -/
def toFixed1 (totalPositions : Int) (finishedRaces : Nat) : AvgPos :=
  if totalPositions = 0 then AvgPos.fixed false 0
  else
    let d := divToDouble totalPositions.natAbs finishedRaces
    AvgPos.fixed (decide (totalPositions < 0)) (nearestTenths d.1 d.2)

/-- The statement after the loop:
`if (finishedRaces > 0) stats.averagePosition = (totalPositions / finishedRaces).toFixed(1)`. -/
def finishStats (acc : StatsAcc) : DriverStats :=
  if 0 < acc.finishedRaces then
    { acc.stats with averagePosition := toFixed1 acc.totalPositions acc.finishedRaces }
  else acc.stats

/-- The method `calculateDriverStats(driverId)`. -/
def calculateDriverStats (st : State) (driverId : String) : Except JsError DriverStats :=
  match forEachRace st.results driverId st.races initialAcc with
  | .error e => .error e
  | .ok acc => .ok (finishStats acc)

/-! ## Standings -/

/-- An element of the array built by `generateStandings`: the spread driver
fields, the spread stats fields, and `position`. -/
structure StandingsEntry where
  driver : Driver
  stats : DriverStats
  position : Nat
deriving DecidableEq, Repr

/-- Ten times `parseFloat(averagePosition)`: the field is the number `0` or a
string with one decimal, so this is an integer. -/
def parseFloatTenths : AvgPos → Int
  | .zero => 0
  | .fixed neg tenths => if neg then -(tenths : Int) else (tenths : Int)

/-- The comparator passed to `standings.sort`.  The first three levels return
the difference the source returns; the last level returns ten times the
difference of the parsed averages, which has the same sign. -/
def compareStandings (a b : StandingsEntry) : Int :=
  if b.stats.totalPoints ≠ a.stats.totalPoints then b.stats.totalPoints - a.stats.totalPoints
  else if b.stats.wins ≠ a.stats.wins then (b.stats.wins : Int) - (a.stats.wins : Int)
  else if b.stats.podiums ≠ a.stats.podiums then
    (b.stats.podiums : Int) - (a.stats.podiums : Int)
  else parseFloatTenths a.stats.averagePosition - parseFloatTenths b.stats.averagePosition

/-- The call `array.sort(compare)`: `a` is placed before `b` when
`compare(a, b) <= 0`; the sort is stable, as ECMAScript requires. -/
def sortWith {α : Type} (compare : α → α → Int) (l : List α) : List α :=
  l.insertionSort (fun a b => compare a b ≤ 0)

/-- The call `drivers.map(driver => ({...driver, ...stats, position: 0}))`,
stopped by the first exception of `calculateDriverStats`. -/
def mapDrivers (st : State) : List Driver → Except JsError (List StandingsEntry)
  | [] => .ok []
  | driver :: rest =>
    match calculateDriverStats st driver.id with
    | .error e => .error e
    | .ok stats =>
      match mapDrivers st rest with
      | .error e => .error e
      | .ok entries => .ok ({ driver := driver, stats := stats, position := 0 } :: entries)

/-- The loop `standings.forEach((driver, index) => driver.position = index + 1)`,
from the index `index` on. -/
def setPositionsFrom (index : Nat) : List StandingsEntry → List StandingsEntry
  | [] => []
  | entry :: rest => { entry with position := index + 1 } :: setPositionsFrom (index + 1) rest

/-- The method `generateStandings()`. -/
def generateStandings (st : State) : Except JsError (List StandingsEntry) :=
  match st.currentChampionship with
  | none => .ok []
  | some championship =>
    match championship.drivers with
    | none => .ok []
    | some drivers =>
      match mapDrivers st drivers with
      | .error e => .error e
      | .ok standings => .ok (setPositionsFrom 0 (sortWith compareStandings standings))

/-! ## Race analysis -/

/-- The value of `bestRecovery` and of `biggestLoser`. -/
structure Mover where
  driver : Option Driver
  positions : Int
deriving DecidableEq, Repr

/-- The object returned by `analyzeRace`. -/
structure RaceAnalysis where
  winner : Option Driver
  polePosition : Option Driver
  fastestLap : Option Driver
  bestRecovery : Mover
  biggestLoser : Mover
  dnfs : List Driver
  perfectWeekend : Option Driver
deriving DecidableEq, Repr

/-- The initial `analysis` object. -/
def initialAnalysis : RaceAnalysis :=
  { winner := none, polePosition := none, fastestLap := none
    bestRecovery := { driver := none, positions := 0 }
    biggestLoser := { driver := none, positions := 0 }
    dnfs := [], perfectWeekend := none }

/-- The expression `this.state.currentChampionship?.drivers.find(d => d.id === driverId)`:
without a championship it is `undefined`; with a championship that has no
driver list, calling `find` raises. -/
def findDriver (st : State) (driverId : String) : Except JsError (Option Driver) :=
  match st.currentChampionship with
  | none => .ok none
  | some championship =>
    match championship.drivers with
    | none => .error .typeError
    | some drivers => .ok (drivers.find? (fun d => d.id == driverId))

/-- The block "Position changes" of the loop body. -/
def positionChanges (driver : Driver) (result : RaceResult) (analysis : RaceAnalysis) :
    RaceAnalysis :=
  match parseInt result.qualifying, parseInt result.feature with
  | some qualiPos, some featurePos =>
    let positionChange := qualiPos - featurePos
    let a1 : RaceAnalysis :=
      if analysis.bestRecovery.positions < positionChange then
        { analysis with bestRecovery := { driver := some driver, positions := positionChange } }
      else analysis
    if positionChange < a1.biggestLoser.positions then
      { a1 with biggestLoser := { driver := some driver, positions := (positionChange.natAbs : Int) } }
    else a1
  | _, _ => analysis

/-- The loop body of `analyzeRace` for an entry whose driver is known. -/
def analyzeEntry (driver : Driver) (result : RaceResult) (analysis : RaceAnalysis) :
    RaceAnalysis :=
  let a1 : RaceAnalysis :=
    if result.feature = JsVal.num 1 then { analysis with winner := some driver } else analysis
  let a2 : RaceAnalysis :=
    if result.qualifying = JsVal.num 1 then { a1 with polePosition := some driver } else a1
  let a3 : RaceAnalysis :=
    if result.featureFL then { a2 with fastestLap := some driver } else a2
  let a4 := positionChanges driver result a3
  if isStatusToken result.feature then { a4 with dnfs := a4.dnfs ++ [driver] } else a4

/-- The loop `Object.entries(results).forEach(...)`: an entry whose driver is
not found is skipped. -/
def forEachEntry (st : State) : List (String × RaceResult) → RaceAnalysis →
    Except JsError RaceAnalysis
  | [], analysis => .ok analysis
  | (driverId, result) :: rest, analysis =>
    match findDriver st driverId with
    | .error e => .error e
    | .ok none => forEachEntry st rest analysis
    | .ok (some driver) => forEachEntry st rest (analyzeEntry driver result analysis)

/-- The statement "Perfect weekend" after the loop. -/
def perfectWeekendStep (analysis : RaceAnalysis) : RaceAnalysis :=
  match analysis.polePosition, analysis.winner, analysis.fastestLap with
  | some pole, some winner, some fastest =>
    if pole.id = winner.id ∧ winner.id = fastest.id then
      { analysis with perfectWeekend := some winner }
    else analysis
  | _, _, _ => analysis

/-- The method `analyzeRace(raceId)`; `none` is the returned `null`. -/
def analyzeRace (st : State) (raceId : String) : Except JsError (Option RaceAnalysis) :=
  match st.races.find? (fun r => r.id == raceId), st.results.lookup raceId with
  | some _, some results =>
    match forEachEntry st results initialAnalysis with
    | .error e => .error e
    | .ok analysis => .ok (some (perfectWeekendStep analysis))
  | _, _ => .ok none

/-! ## Vocabulary of the specification -/

/-- The position a field holds when it is numeric in the sense the code tests
(`pos && !isNaN(parseInt(pos))`): the field is truthy and `parseInt` reads a
number from it. -/
def numericPosition (v : JsVal) : Option Int :=
  if truthy v then parseInt v else none

/-- Pole component of the specification: the bonus when the qualifying
position is `1`, else `0`. -/
def specPoleComponent (result : RaceResult) (bonus : Int) : Int :=
  if result.qualifying = JsVal.num 1 then bonus else 0

/-- Position component of the specification: `arr[p - 1]` when the position
`p` is numeric with `1 ≤ p ≤ arr.length`, else `0`. -/
def specPositionComponent (pos : JsVal) (arr : List Int) : Int :=
  match numericPosition pos with
  | some p => if 1 ≤ p ∧ p ≤ (arr.length : Int) then arr.getD (p - 1).toNat 0 else 0
  | none => 0

/-- Fastest-lap component of the specification: the bonus when the flag is
set and the position is numeric and at most `10`, else `0`. -/
def specFastestLapComponent (flag : Bool) (pos : JsVal) (bonus : Int) : Int :=
  match numericPosition pos with
  | some p => if flag = true ∧ p ≤ 10 then bonus else 0
  | none => 0

/-- The races in which the driver has a result, in race order, each with
that result. -/
def racesWithResult (st : State) (driverId : String) : List (Race × RaceResult) :=
  st.races.filterMap fun race =>
    (lookupResult st.results race.id driverId).map fun raceResult => (race, raceResult)

/-- The number a call of `calculateRacePoints` returned (`0` stands for a
call that raised). -/
def returnedPoints (r : Except JsError Int) : Int :=
  match r with
  | .ok v => v
  | .error _ => 0

/-- The races in which the driver has a result, each with the result and the
points `calculateRacePoints` returns for it; an exception when a call raises. -/
def raceRecords (results : List (String × List (String × RaceResult))) (driverId : String) :
    List Race → Except JsError (List (Race × RaceResult × Int))
  | [] => .ok []
  | race :: rest =>
    match lookupResult results race.id driverId with
    | none => raceRecords results driverId rest
    | some raceResult =>
      match calculateRacePoints raceResult race.pointsSystem with
      | .error e => .error e
      | .ok racePoints =>
        match raceRecords results driverId rest with
        | .error e => .error e
        | .ok records => .ok ((race, raceResult, racePoints) :: records)

/-- The loop body applied to a list of records in turn. -/
def recordAll (records : List (Race × RaceResult × Int)) (acc : StatsAcc) : StatsAcc :=
  records.foldl (fun a t => recordRace t.1 t.2.1 t.2.2 a) acc

/-- Whether a call returned rather than raised. -/
def returned {α : Type} (r : Except JsError α) : Bool :=
  match r with
  | .ok _ => true
  | .error _ => false

/-- Every race has a points system with both arrays: no call of
`calculateRacePoints` on this state can raise. -/
def pointsSystemsComplete (st : State) : Bool :=
  st.races.all fun race =>
    match race.pointsSystem with
    | none => false
    | some ps => ps.sprint.isSome && ps.feature.isSome

/-- The feature positions of the driver's results that are numeric, in race
order. -/
def numericFeatureFinishes (st : State) (driverId : String) : List Int :=
  (racesWithResult st driverId).filterMap fun p => numericPosition p.2.feature

/-- The driver list of the current championship, empty when there is none. -/
def championshipDrivers (st : State) : List Driver :=
  match st.currentChampionship with
  | none => []
  | some championship => championship.drivers.getD []

/-- The four-level cascade between an earlier entry `a` and a later entry `b`. -/
def cascade (a b : DriverStats) : Prop :=
  a.totalPoints > b.totalPoints ∨
  (a.totalPoints = b.totalPoints ∧ a.wins > b.wins) ∨
  (a.totalPoints = b.totalPoints ∧ a.wins = b.wins ∧ a.podiums > b.podiums) ∨
  (a.totalPoints = b.totalPoints ∧ a.wins = b.wins ∧ a.podiums = b.podiums ∧
    parseFloatTenths a.averagePosition ≤ parseFloatTenths b.averagePosition)

/-! ## Sample data -/

/-- A result with no sprint entry and no fastest lap. -/
def plainResult (qualifying feature : JsVal) : RaceResult :=
  { qualifying := qualifying, sprint := JsVal.absent, feature := feature,
    sprintFL := false, featureFL := false }

/-- A championship of three drivers over two races with the default points. -/
def sampleState : State :=
  { currentChampionship :=
      some { name := "F2 2024"
             drivers := some [{ id := "d1", name := "Ana" }, { id := "d2", name := "Bo" },
                              { id := "d3", name := "Cy" }] }
    races :=
      [{ id := "r1", name := "Australia (Melbourne)", pointsSystem := some defaultPointsSystem },
       { id := "r2", name := "Monaco (Monaco)", pointsSystem := some defaultPointsSystem }]
    results :=
      [("r1",
        [("d1", { qualifying := JsVal.num 2, sprint := JsVal.num 2, feature := JsVal.num 3,
                  sprintFL := false, featureFL := false }),
         ("d2", { qualifying := JsVal.num 1, sprint := JsVal.num 1, feature := JsVal.num 1,
                  sprintFL := true, featureFL := true }),
         ("d3", plainResult (JsVal.num 3) (JsVal.str "DNF"))]),
       ("r2",
        [("d1", { qualifying := JsVal.num 1, sprint := JsVal.num 4, feature := JsVal.num 2,
                  sprintFL := false, featureFL := true }),
         ("d2", plainResult (JsVal.num 3) (JsVal.num 1))])] }

/-- Two drivers who score nothing in one race: `x` finishes eleventh, `y`
retires. -/
def tieState : State :=
  { currentChampionship :=
      some { name := "Tie"
             drivers := some [{ id := "x", name := "Xavi" }, { id := "y", name := "Yuri" }] }
    races := [{ id := "r1", name := "Monza", pointsSystem := some defaultPointsSystem }]
    results :=
      [("r1", [("x", plainResult (JsVal.num 5) (JsVal.num 11)),
               ("y", plainResult (JsVal.num 6) (JsVal.str "DNF"))])] }

/-- As `tieState`, but `y` takes pole before retiring. -/
def poleState : State :=
  { currentChampionship :=
      some { name := "Pole"
             drivers := some [{ id := "x", name := "Xavi" }, { id := "y", name := "Yuri" }] }
    races := [{ id := "r1", name := "Monza", pointsSystem := some defaultPointsSystem }]
    results :=
      [("r1", [("x", plainResult (JsVal.num 2) (JsVal.num 11)),
               ("y", plainResult (JsVal.num 1) (JsVal.str "DNF"))])] }

/-- The entry of a driver who scored nothing and retired from the only race. -/
def retiredEntry (driver : Driver) (qualifying : JsVal) (points : Int) (poles position : Nat) :
    StandingsEntry :=
  { driver := driver
    stats :=
      { totalPoints := points, wins := 0, podiums := 0, poles := poles, fastestLaps := 0,
        dnfs := 1, averagePosition := AvgPos.zero, bestFinish := none, worstFinish := none,
        raceResults :=
          [{ race := "Monza", points := points, qualifying := qualifying,
             sprint := JsVal.absent, feature := JsVal.str "DNF", fastestLap := false }] }
    position := position }

/-- The entry of a driver who finished the only race eleventh, without points. -/
def eleventhEntry (driver : Driver) (qualifying : JsVal) (position : Nat) : StandingsEntry :=
  { driver := driver
    stats :=
      { totalPoints := 0, wins := 0, podiums := 0, poles := 0, fastestLaps := 0,
        dnfs := 0, averagePosition := AvgPos.fixed false 110, bestFinish := some 11,
        worstFinish := some 11,
        raceResults :=
          [{ race := "Monza", points := 0, qualifying := qualifying,
             sprint := JsVal.absent, feature := JsVal.num 11, fastestLap := false }] }
    position := position }

/-- The standings of `tieState`. -/
def tieStandings : List StandingsEntry :=
  [retiredEntry { id := "y", name := "Yuri" } (JsVal.num 6) 0 0 1,
   eleventhEntry { id := "x", name := "Xavi" } (JsVal.num 5) 2]

/-- The standings of `poleState`. -/
def poleStandings : List StandingsEntry :=
  [retiredEntry { id := "y", name := "Yuri" } (JsVal.num 1) 2 1 1,
   eleventhEntry { id := "x", name := "Xavi" } (JsVal.num 2) 2]

/-- The championship has no driver list, so that looking a driver up raises. -/
def driverListMissing (st : State) : Bool :=
  match st.currentChampionship with
  | none => false
  | some championship => championship.drivers.isNone

/-- The entries of a result mapping whose driver id is found in the
championship's driver list, in iteration order, each with the driver found. -/
def knownEntries (st : State) (results : List (String × RaceResult)) :
    List (Driver × RaceResult) :=
  results.filterMap fun p =>
    ((championshipDrivers st).find? fun d => d.id == p.1).map fun d => (d, p.2)

/-- The loop body of `analyzeRace` applied to a list of known entries in turn. -/
def analyzeKnown (entries : List (Driver × RaceResult)) (analysis : RaceAnalysis) :
    RaceAnalysis :=
  entries.foldl (fun a p => analyzeEntry p.1 p.2 a) analysis

/-- The drivers whose qualifying and feature positions both parse as numbers,
in iteration order, each with `delta = qualifying - feature`. -/
def positionDeltas (entries : List (Driver × RaceResult)) : List (Driver × Int) :=
  entries.filterMap fun p =>
    match parseInt p.2.qualifying, parseInt p.2.feature with
    | some qualiPos, some featurePos => some (p.1, qualiPos - featurePos)
    | _, _ => none

/-- The update of `bestRecovery` by one driver with its delta. -/
def stepBestRecovery (current : Mover) (p : Driver × Int) : Mover :=
  if current.positions < p.2 then { driver := some p.1, positions := p.2 } else current

/-- A state with the drivers Ana and Bo and one race holding `results`. -/
def raceState (results : List (String × RaceResult)) : State :=
  { currentChampionship :=
      some { name := "Duel"
             drivers := some [{ id := "d1", name := "Ana" }, { id := "d2", name := "Bo" }] }
    races := [{ id := "r1", name := "Spa", pointsSystem := some defaultPointsSystem }]
    results := [("r1", results)] }

/-- A result with the given qualifying and feature positions and feature
fastest-lap flag. -/
def featureResult (qualifying feature : Int) (featureFL : Bool) : RaceResult :=
  { qualifying := JsVal.num qualifying, sprint := JsVal.absent, feature := JsVal.num feature,
    sprintFL := false, featureFL := featureFL }

/-- The entry `drivers.map` builds for a driver, with the stats
`calculateDriverStats` returns for the driver's id (the initial stats stand
for a call that raised). -/
def entryOf (st : State) (driver : Driver) : StandingsEntry :=
  { driver := driver
    stats :=
      match calculateDriverStats st driver.id with
      | .ok stats => stats
      | .error _ => initialAcc.stats
    position := 0 }

/-- The fastest-lap condition of the specification for one segment: the flag
is set and the finishing position is numeric and at most `10`. -/
def fastestLapAwarded (flag : Bool) (pos : JsVal) : Bool :=
  flag &&
    match numericPosition pos with
    | some p => decide (p ≤ 10)
    | none => false

/-- The position is numeric and at least `1`, so that the points array of its
segment is read. -/
def positivePosition (pos : JsVal) : Bool :=
  match numericPosition pos with
  | some p => decide (0 < p)
  | none => false

/-- The result makes `calculateRacePoints` read a property of the points
system: it holds pole, a position that is numeric and at least `1`, or a
fastest lap that meets the bonus condition. -/
def readsPointsSystem (result : RaceResult) : Bool :=
  decide (result.qualifying = JsVal.num 1) || positivePosition result.sprint ||
    fastestLapAwarded result.sprintFL result.sprint || positivePosition result.feature ||
    fastestLapAwarded result.featureFL result.feature

/-- The quotient `sum / count` rounded to one decimal place, in tenths, a half
going up: the reading of "rounded to one decimal" on the exact quotient. -/
def specRoundedTenths (sum count : Nat) : Nat :=
  (20 * sum + count) / (2 * count)

/-- The race ids of a season of twenty races. -/
def seasonRaceIds : List String :=
  ["r01", "r02", "r03", "r04", "r05", "r06", "r07", "r08", "r09", "r10",
   "r11", "r12", "r13", "r14", "r15", "r16", "r17", "r18", "r19", "r20"]

/-- Ana's feature finishes over the season: sum `29` in `20` races. -/
def seasonFinishes : List Int :=
  [2, 2, 2, 1, 1, 1, 1, 1, 1, 1, 1, 1, 1, 1, 2, 2, 2, 2, 2, 2]

/-- Bo's feature finishes: he enters the first four races only, sum `5`. -/
def seasonRivalFinishes : List (Option Int) :=
  [some 1, some 1, some 1, some 2] ++ List.replicate 16 none

/-- A season of twenty races for Ana (`d1`) and Bo (`d2`). -/
def seasonState : State :=
  { currentChampionship :=
      some { name := "Season"
             drivers := some [{ id := "d1", name := "Ana" }, { id := "d2", name := "Bo" }] }
    races :=
      seasonRaceIds.map fun id =>
        { id := id, name := id, pointsSystem := some defaultPointsSystem }
    results :=
      (seasonRaceIds.zip (seasonFinishes.zip seasonRivalFinishes)).map fun t =>
        (t.1,
          ("d1", plainResult JsVal.absent (JsVal.num t.2.1)) ::
            match t.2.2 with
            | some p => [("d2", plainResult JsVal.absent (JsVal.num p))]
            | none => []) }

/-- The result is a feature win: the feature position is numeric and equal to `1`. -/
def isWin (r : RaceResult) : Bool :=
  decide (numericPosition r.feature = some 1)

/-- The result is a feature podium: the feature position is numeric and at
most `3`. -/
def isPodium (r : RaceResult) : Bool :=
  match numericPosition r.feature with
  | some p => decide (p ≤ 3)
  | none => false

/-- The feature position of the result is one of the status tokens. -/
def isRetirement (r : RaceResult) : Bool :=
  isStatusToken r.feature

/-- At least one of the two fastest-lap flags of the result is set. -/
def hasFastestLap (r : RaceResult) : Bool :=
  r.featureFL || r.sprintFL

/-- The pair `best`, `worst` holds the minimum and the maximum of the list of
finishes, and both are `null` for the empty list. -/
def FinishBounds (best worst : Option Int) (finishes : List Int) : Prop :=
  (finishes = [] → best = none ∧ worst = none) ∧
  (finishes ≠ [] →
    ∃ b w, best = some b ∧ worst = some w ∧ b ∈ finishes ∧ w ∈ finishes ∧
      ∀ p ∈ finishes, b ≤ p ∧ p ≤ w)

/-- Two drivers who both retire from the only race: all four sort keys are
equal. -/
def equalState : State :=
  { currentChampionship :=
      some { name := "Equal"
             drivers := some [{ id := "x", name := "Xavi" }, { id := "y", name := "Yuri" }] }
    races := [{ id := "r1", name := "Monza", pointsSystem := some defaultPointsSystem }]
    results :=
      [("r1", [("y", plainResult (JsVal.num 6) (JsVal.str "DNF")),
               ("x", plainResult (JsVal.num 5) (JsVal.str "DNS"))])] }

/-- A result with the given qualifying position that ends in a status token. -/
def retiredResult (qualifying : Int) (token : String) : RaceResult :=
  { qualifying := JsVal.num qualifying, sprint := JsVal.absent, feature := JsVal.str token,
    sprintFL := false, featureFL := false }

/-- A state whose championship has no driver list, with one race and one
result. -/
def noDriverListState : State :=
  { currentChampionship := some { name := "Empty", drivers := none }
    races := [{ id := "r1", name := "Spa", pointsSystem := some defaultPointsSystem }]
    results := [("r1", [("d1", featureResult 1 1 true)])] }

/-! ## CSV export -/

/-- The string of an integer number: its decimal digits, with a minus sign
when it is negative. -/
def numberToString (n : Int) : String :=
  if n < 0 then "-" ++ toString n.natAbs else toString n.natAbs

/-- The string of `averagePosition`: `0` for the number zero, else the text
`toFixed(1)` produced. -/
def avgPosToString : AvgPos → String
  | .zero => "0"
  | .fixed neg tenths =>
    (if neg then "-" else "") ++ toString (tenths / 10) ++ "." ++ toString (tenths % 10)

/-- The call `array.join(separator)` on an array of strings. -/
def joinWith (separator : String) : List String → String
  | [] => ""
  | [x] => x
  | x :: y :: rest => x ++ separator ++ joinWith separator (y :: rest)

/-- The array `headers` of `exportStandings`. -/
def csvHeaders : List String :=
  ["Position", "Driver", "Points", "Wins", "Podiums", "Poles", "Fastest Laps", "DNFs",
   "Average Position"]

/-- The row of one standings entry, each field converted to a string as
`join` does. -/
def csvRow (e : StandingsEntry) : List String :=
  [numberToString e.position, e.driver.name, numberToString e.stats.totalPoints,
   numberToString e.stats.wins, numberToString e.stats.podiums, numberToString e.stats.poles,
   numberToString e.stats.fastestLaps, numberToString e.stats.dnfs,
   avgPosToString e.stats.averagePosition]

/-- The value of `csvContent`:
`[headers, ...rows].map(row => row.join(',')).join('\n')`. -/
def csvContent (standings : List StandingsEntry) : String :=
  joinWith "\n" ((csvHeaders :: standings.map csvRow).map (joinWith ","))

/-- The text `exportStandings()` builds for the download; the download itself
is not part of the embedding. -/
def exportStandings (st : State) : Except JsError String :=
  match generateStandings st with
  | .error e => .error e
  | .ok standings => .ok (csvContent standings)

/-- The number of line breaks in a text. -/
def lineBreaks (s : String) : Nat :=
  s.data.count '\n'

/-- The pieces of a list of characters between the occurrences of `c`. -/
def splitAt (c : Char) : List Char → List (List Char)
  | [] => [[]]
  | x :: rest =>
    if x = c then [] :: splitAt c rest
    else
      match splitAt c rest with
      | [] => [[x]]
      | piece :: pieces => (x :: piece) :: pieces

/-- The lines of a text: its pieces between line breaks. -/
def textLines (s : String) : List String :=
  (splitAt '\n' s.data).map String.mk

/-- The number of lines of a text. -/
def lineCount (s : String) : Nat :=
  (textLines s).length

/-- The fixed header line of the export. -/
def csvHeaderLine : String :=
  "Position,Driver,Points,Wins,Podiums,Poles,Fastest Laps,DNFs,Average Position"

/-- A championship of one driver whose name holds a line break. -/
def brokenNameState : State :=
  { currentChampionship :=
      some { name := "Broken", drivers := some [{ id := "d1", name := "Ana\nMaria" }] }
    races := [{ id := "r1", name := "Spa", pointsSystem := some defaultPointsSystem }]
    results := [("r1", [("d1", featureResult 1 1 true)])] }

/-- The expression `results[raceId]?.[driverId]` reads nothing: the store has
no mapping for the race and the race id names no inherited property, or the
mapping of the race has no entry for the driver and the driver id names no
inherited property. -/
def readsNothing (results : List (String × List (String × RaceResult)))
    (raceId driverId : String) : Bool :=
  match results.lookup raceId with
  | none => !inheritedKeys.contains raceId
  | some m => (m.lookup driverId).isNone && !inheritedKeys.contains driverId

/-- A points system with three scoring feature places, two scoring sprint
places and no bonus. -/
def shortPointsSystem : PointsSystem :=
  { feature := some [15, 10, 5]
    sprint := some [10, 5]
    pole := some 0
    fastestLap := some 0 }

/-- A result with the given sprint and feature positions, no qualifying
position and no fastest lap. -/
def sprintFeatureResult (sprint feature : JsVal) : RaceResult :=
  { qualifying := JsVal.absent, sprint := sprint, feature := feature,
    sprintFL := false, featureFL := false }

/-- Bo and Ana tie on 40 points and two wins after four races; Ana has three
podiums and Bo two.  Bo comes first in the driver list. -/
def podiumTieState : State :=
  { currentChampionship :=
      some { name := "Podiums"
             drivers := some [{ id := "b", name := "Bo" }, { id := "a", name := "Ana" }] }
    races :=
      [{ id := "r1", name := "Imola", pointsSystem := some shortPointsSystem },
       { id := "r2", name := "Monza", pointsSystem := some shortPointsSystem },
       { id := "r3", name := "Spa", pointsSystem := some shortPointsSystem },
       { id := "r4", name := "Zandvoort", pointsSystem := some shortPointsSystem }]
    results :=
      [("r1", [("a", sprintFeatureResult JsVal.absent (JsVal.num 1)),
               ("b", sprintFeatureResult (JsVal.num 1) (JsVal.num 4))]),
       ("r2", [("a", sprintFeatureResult JsVal.absent (JsVal.num 1)),
               ("b", sprintFeatureResult JsVal.absent (JsVal.num 5))]),
       ("r3", [("a", sprintFeatureResult JsVal.absent (JsVal.num 2)),
               ("b", sprintFeatureResult JsVal.absent (JsVal.num 1))]),
       ("r4", [("a", sprintFeatureResult JsVal.absent (JsVal.num 5)),
               ("b", sprintFeatureResult JsVal.absent (JsVal.num 1))])] }

/-! ## Points of one race -/

theorem addPositionPoints_eq (pos : JsVal) (arr : PointsSystem → Option (List Int))
    (ps : PointsSystem) (a : List Int) (h : arr ps = some a) (points : Int) :
    addPositionPoints pos arr (some ps) points = .ok (points + specPositionComponent pos a) := by
  unfold addPositionPoints specPositionComponent numericPosition
  cases ht : truthy pos with
  | false => simp
  | true =>
    cases hp : parseInt pos with
    | none => simp
    | some p =>
      simp only [if_true, h]
      by_cases h0 : 0 < p
      · have h1 : 1 ≤ p := h0
        by_cases hl : p ≤ (a.length : Int)
        · simp [h0, h1, hl]
        · simp [h0, hl]
      · have h1 : ¬ 1 ≤ p := fun h1 => h0 h1
        simp [h0, h1]

theorem addFastestLap_eq (flag : Bool) (pos : JsVal) (ps : PointsSystem) (points : Int) :
    addFastestLap flag pos (some ps) points =
      .ok (points + specFastestLapComponent flag pos (ps.fastestLap.getD 0)) := by
  unfold addFastestLap specFastestLapComponent numericPosition parseIntLe10 fastestLapBonus
  cases flag <;> cases ht : truthy pos <;> cases hp : parseInt pos <;> simp
  rename_i p
  by_cases h : p ≤ 10 <;> simp [h]

theorem addPole_eq (result : RaceResult) (ps : PointsSystem) (points : Int) :
    addPole result (some ps) points =
      .ok (points + specPoleComponent result (ps.pole.getD 0)) := by
  unfold addPole specPoleComponent poleBonus
  by_cases h : result.qualifying = JsVal.num 1 <;> simp [h]

/-- With both arrays present, `calculateRacePoints` returns the sum of the
five components. -/
theorem calculateRacePoints_complete (result : RaceResult) (ps : PointsSystem)
    (sprint feature : List Int) (hs : ps.sprint = some sprint) (hf : ps.feature = some feature) :
    calculateRacePoints result (some ps) =
      .ok (specPoleComponent result (ps.pole.getD 0)
        + specPositionComponent result.sprint sprint
        + specFastestLapComponent result.sprintFL result.sprint (ps.fastestLap.getD 0)
        + specPositionComponent result.feature feature
        + specFastestLapComponent result.featureFL result.feature (ps.fastestLap.getD 0)) := by
  unfold calculateRacePoints
  rw [addPole_eq]
  simp only [bind, Except.bind]
  rw [addPositionPoints_eq _ _ _ sprint hs]
  simp only []
  rw [addFastestLap_eq]
  simp only []
  rw [addPositionPoints_eq _ _ _ feature hf]
  simp only []
  rw [addFastestLap_eq, Int.zero_add]

/-- C1: for every result and every points system (feature array, sprint array,
pole bonus, fastest-lap bonus), `calculateRacePoints` returns exactly the sum
of the pole component, the sprint position and fastest-lap components and the
feature position and fastest-lap components; with feature `[25, 18, 15, ...]`,
sprint `[15, 12, 10, ...]`, pole `2`, fastest lap `1` and the result
qualifying `1`, feature `1`, feature fastest lap set, the value is `28`. -/
theorem calculateRacePoints_five_components :
    (∀ (result : RaceResult) (feature sprint : List Int) (pole fastestLap : Option Int),
      calculateRacePoints result
          (some { feature := some feature, sprint := some sprint, pole := pole,
                  fastestLap := fastestLap }) =
        .ok (specPoleComponent result (pole.getD 0)
          + specPositionComponent result.sprint sprint
          + specFastestLapComponent result.sprintFL result.sprint (fastestLap.getD 0)
          + specPositionComponent result.feature feature
          + specFastestLapComponent result.featureFL result.feature (fastestLap.getD 0))) ∧
    (∀ featureTail sprintTail : List Int,
      calculateRacePoints
          { qualifying := JsVal.num 1, sprint := JsVal.absent, feature := JsVal.num 1,
            sprintFL := false, featureFL := true }
          (some { feature := some (25 :: 18 :: 15 :: featureTail),
                  sprint := some (15 :: 12 :: 10 :: sprintTail),
                  pole := some 2, fastestLap := some 1 }) = .ok 28) := by
  refine ⟨fun result feature sprint pole fastestLap => ?_, fun featureTail sprintTail => ?_⟩
  · exact calculateRacePoints_complete result _ sprint feature rfl rfl
  · rw [calculateRacePoints_complete _ _ _ _ rfl rfl]
    have hlen : (0 : Int) ≤ (featureTail.length : Int) + 1 + 1 := by omega
    simp [specPoleComponent, specPositionComponent, specFastestLapComponent, numericPosition,
      truthy, parseInt, hlen]

/-! ## Statistics of one driver -/

theorem forEachRace_eq_recordAll (results : List (String × List (String × RaceResult)))
    (driverId : String) (races : List Race) (acc : StatsAcc) :
    forEachRace results driverId races acc =
      match raceRecords results driverId races with
      | .error e => .error e
      | .ok records => .ok (recordAll records acc) := by
  induction races generalizing acc with
  | nil => rfl
  | cons race rest ih =>
    simp only [forEachRace, raceStep, raceRecords]
    cases hl : lookupResult results race.id driverId with
    | none => simpa using ih acc
    | some raceResult =>
      cases hc : calculateRacePoints raceResult race.pointsSystem with
      | error e => simp only [hc]
      | ok racePoints =>
        simp only [hc, ih]
        cases raceRecords results driverId rest with
        | error e => rfl
        | ok records => rfl

theorem calculateDriverStats_eq (st : State) (driverId : String) :
    calculateDriverStats st driverId =
      match raceRecords st.results driverId st.races with
      | .error e => .error e
      | .ok records => .ok (finishStats (recordAll records initialAcc)) := by
  unfold calculateDriverStats
  rw [forEachRace_eq_recordAll]
  cases raceRecords st.results driverId st.races <;> rfl

theorem raceRecords_ok_iff (results : List (String × List (String × RaceResult)))
    (driverId : String) (races : List Race) :
    (∃ records, raceRecords results driverId races = .ok records) ↔
      ∀ race ∈ races, ∀ raceResult, lookupResult results race.id driverId = some raceResult →
        ∃ v, calculateRacePoints raceResult race.pointsSystem = .ok v := by
  induction races with
  | nil => simp [raceRecords]
  | cons race rest ih =>
    simp only [raceRecords, List.mem_cons, forall_eq_or_imp]
    cases hl : lookupResult results race.id driverId with
    | none => simpa using ih
    | some raceResult =>
      cases hc : calculateRacePoints raceResult race.pointsSystem with
      | error e => simp [hc]
      | ok racePoints =>
        simp only [Option.some.injEq, forall_eq', hc, Except.ok.injEq, exists_eq', true_and]
        rw [← ih]
        cases raceRecords results driverId rest <;> simp

theorem raceRecords_points (results : List (String × List (String × RaceResult)))
    (driverId : String) (races : List Race) (records : List (Race × RaceResult × Int))
    (h : raceRecords results driverId races = .ok records) :
    records.map (fun t => t.2.2) =
      (races.filterMap fun race =>
        (lookupResult results race.id driverId).map fun raceResult => (race, raceResult)).map
        fun p => returnedPoints (calculateRacePoints p.2 p.1.pointsSystem) := by
  induction races generalizing records with
  | nil => simp [raceRecords] at h; simp [← h]
  | cons race rest ih =>
    simp only [raceRecords] at h
    cases hl : lookupResult results race.id driverId with
    | none =>
      rw [hl] at h
      simpa [List.filterMap_cons, hl] using ih records h
    | some raceResult =>
      simp only [hl] at h
      cases hc : calculateRacePoints raceResult race.pointsSystem with
      | error e => simp [hc] at h
      | ok racePoints =>
        simp only [hc] at h
        cases hr : raceRecords results driverId rest with
        | error e => simp [hr] at h
        | ok recs =>
          simp only [hr, Except.ok.injEq] at h
          subst h
          simp [List.filterMap_cons, hl, hc, returnedPoints, ih recs hr]

theorem recordRace_totalPoints (race : Race) (raceResult : RaceResult) (racePoints : Int)
    (acc : StatsAcc) :
    (recordRace race raceResult racePoints acc).stats.totalPoints =
      acc.stats.totalPoints + racePoints := by
  unfold recordRace featureStats
  simp only []
  split
  · split
    · rfl
    · split <;> rfl
  · rfl

theorem recordAll_totalPoints (records : List (Race × RaceResult × Int)) (acc : StatsAcc) :
    (recordAll records acc).stats.totalPoints =
      acc.stats.totalPoints + (records.map fun t => t.2.2).sum := by
  induction records generalizing acc with
  | nil => simp [recordAll]
  | cons t rest ih =>
    have := ih (recordRace t.1 t.2.1 t.2.2 acc)
    simp only [recordAll, List.foldl_cons, List.map_cons, List.sum_cons] at this ⊢
    rw [this, recordRace_totalPoints]
    omega

theorem finishStats_totalPoints (acc : StatsAcc) :
    (finishStats acc).totalPoints = acc.stats.totalPoints := by
  unfold finishStats
  split <;> rfl

/-- C2: the `totalPoints` returned by `calculateDriverStats` is exactly the sum,
over the races in which the driver has a result, of the value of
`calculateRacePoints(result, race.pointsSystem)`; and `calculateDriverStats`
returns whenever each of these calls returns. -/
theorem calculateDriverStats_totalPoints (st : State) (driverId : String) :
    (∀ stats, calculateDriverStats st driverId = .ok stats →
      stats.totalPoints =
        ((racesWithResult st driverId).map fun p =>
          returnedPoints (calculateRacePoints p.2 p.1.pointsSystem)).sum) ∧
    ((∀ p ∈ racesWithResult st driverId,
        returned (calculateRacePoints p.2 p.1.pointsSystem) = true) →
      ∃ stats, calculateDriverStats st driverId = .ok stats) := by
  rw [calculateDriverStats_eq]
  constructor
  · intro stats h
    cases hr : raceRecords st.results driverId st.races with
    | error e => simp [hr] at h
    | ok records =>
      simp only [hr, Except.ok.injEq] at h
      subst h
      rw [finishStats_totalPoints, recordAll_totalPoints, racesWithResult,
        ← raceRecords_points _ _ _ _ hr]
      simp [initialAcc]
  · intro h
    have hok : ∃ records, raceRecords st.results driverId st.races = .ok records := by
      rw [raceRecords_ok_iff]
      intro race hrace raceResult hl
      have hp := h (race, raceResult) (by
        simp only [racesWithResult, List.mem_filterMap]
        exact ⟨race, hrace, by simp [hl]⟩)
      cases hc : calculateRacePoints raceResult race.pointsSystem with
      | error e => simp [hc, returned] at hp
      | ok v => exact ⟨v, rfl⟩
    obtain ⟨records, hr⟩ := hok
    exact ⟨finishStats (recordAll records initialAcc), by simp [hr]⟩

/-! ## Returning without an exception -/

theorem calculateRacePoints_returns (result : RaceResult) (ps : PointsSystem)
    (h : (ps.sprint.isSome && ps.feature.isSome) = true) :
    ∃ v, calculateRacePoints result (some ps) = .ok v := by
  cases hs : ps.sprint with
  | none => simp [hs] at h
  | some sprint =>
    cases hf : ps.feature with
    | none => simp [hf] at h
    | some feature => exact ⟨_, calculateRacePoints_complete result ps sprint feature hs hf⟩

theorem raceRecords_returns (st : State) (h : pointsSystemsComplete st = true)
    (driverId : String) : ∃ records, raceRecords st.results driverId st.races = .ok records := by
  rw [raceRecords_ok_iff]
  intro race hrace raceResult _
  have hr := List.all_eq_true.mp h race hrace
  cases hps : race.pointsSystem with
  | none => simp [hps] at hr
  | some ps =>
    rw [hps] at hr
    exact calculateRacePoints_returns raceResult ps hr

theorem calculateDriverStats_returns (st : State) (h : pointsSystemsComplete st = true)
    (driverId : String) : ∃ stats, calculateDriverStats st driverId = .ok stats := by
  obtain ⟨records, hr⟩ := raceRecords_returns st h driverId
  exact ⟨finishStats (recordAll records initialAcc), by rw [calculateDriverStats_eq, hr]⟩

theorem mapDrivers_returns (st : State) (h : pointsSystemsComplete st = true)
    (drivers : List Driver) : ∃ entries, mapDrivers st drivers = .ok entries := by
  induction drivers with
  | nil => exact ⟨[], rfl⟩
  | cons driver rest ih =>
    obtain ⟨stats, hs⟩ := calculateDriverStats_returns st h driver.id
    obtain ⟨entries, he⟩ := ih
    exact ⟨{ driver := driver, stats := stats, position := 0 } :: entries, by
      simp [mapDrivers, hs, he]⟩

theorem generateStandings_returns (st : State) (h : pointsSystemsComplete st = true) :
    ∃ standings, generateStandings st = .ok standings := by
  unfold generateStandings
  cases hc : st.currentChampionship with
  | none => exact ⟨[], rfl⟩
  | some championship =>
    cases hd : championship.drivers with
    | none => exact ⟨[], by simp only [hd]⟩
    | some drivers =>
      obtain ⟨entries, he⟩ := mapDrivers_returns st h drivers
      exact ⟨setPositionsFrom 0 (sortWith compareStandings entries), by simp only [hd, he]⟩

/-! ## Standings: positions -/

theorem mapDrivers_length (st : State) (drivers : List Driver) (entries : List StandingsEntry)
    (h : mapDrivers st drivers = .ok entries) : entries.length = drivers.length := by
  induction drivers generalizing entries with
  | nil => simp [mapDrivers] at h; simp [← h]
  | cons driver rest ih =>
    simp only [mapDrivers] at h
    cases hs : calculateDriverStats st driver.id with
    | error e => simp [hs] at h
    | ok stats =>
      simp only [hs] at h
      cases hm : mapDrivers st rest with
      | error e => simp [hm] at h
      | ok es =>
        simp only [hm, Except.ok.injEq] at h
        subst h
        simp [ih es hm]

theorem setPositionsFrom_length (index : Nat) (l : List StandingsEntry) :
    (setPositionsFrom index l).length = l.length := by
  induction l generalizing index with
  | nil => rfl
  | cons e rest ih => simp [setPositionsFrom, ih]

theorem setPositionsFrom_positions (index : Nat) (l : List StandingsEntry) :
    (setPositionsFrom index l).map (fun e => e.position) = List.range' (index + 1) l.length := by
  induction l generalizing index with
  | nil => rfl
  | cons e rest ih => simp [setPositionsFrom, ih, List.range'_succ]

theorem setPositionsFrom_stats (index : Nat) (l : List StandingsEntry) :
    (setPositionsFrom index l).map (fun e => e.stats) = l.map (fun e => e.stats) := by
  induction l generalizing index with
  | nil => rfl
  | cons e rest ih => simp [setPositionsFrom, ih]

theorem setPositionsFrom_driver (index : Nat) (l : List StandingsEntry) :
    (setPositionsFrom index l).map (fun e => e.driver) = l.map (fun e => e.driver) := by
  induction l generalizing index with
  | nil => rfl
  | cons e rest ih => simp [setPositionsFrom, ih]

theorem sortWith_length {α : Type} (compare : α → α → Int) (l : List α) :
    (sortWith compare l).length = l.length :=
  List.length_insertionSort _ l

/-- The shape of a returned standings list: the sorted entries, renumbered. -/
theorem generateStandings_shape (st : State) (standings : List StandingsEntry)
    (h : generateStandings st = .ok standings) :
    ∃ entries, mapDrivers st (championshipDrivers st) = .ok entries ∧
      standings = setPositionsFrom 0 (sortWith compareStandings entries) := by
  unfold generateStandings at h
  unfold championshipDrivers
  cases hc : st.currentChampionship with
  | none =>
    simp only [hc, Except.ok.injEq] at h
    exact ⟨[], rfl, by rw [← h]; rfl⟩
  | some championship =>
    simp only [hc] at h
    cases hd : championship.drivers with
    | none =>
      simp only [hd, Except.ok.injEq] at h
      exact ⟨[], by simp [hd, mapDrivers], by rw [← h]; rfl⟩
    | some drivers =>
      simp only [hd] at h
      cases hm : mapDrivers st drivers with
      | error e => simp [hm] at h
      | ok entries =>
        simp only [hm, Except.ok.injEq] at h
        exact ⟨entries, by simpa [hd] using hm, h.symm⟩

/-- C10: for a championship with `N` drivers, the `position` fields of the list
returned by `generateStandings` are exactly `1, 2, ..., N` in list order; and
the list is returned whenever every race has a complete points system. -/
theorem generateStandings_positions (st : State) :
    (∀ standings, generateStandings st = .ok standings →
      standings.map (fun e => e.position) = List.range' 1 (championshipDrivers st).length) ∧
    (pointsSystemsComplete st = true → ∃ standings, generateStandings st = .ok standings) := by
  refine ⟨fun standings h => ?_, generateStandings_returns st⟩
  obtain ⟨entries, hm, rfl⟩ := generateStandings_shape st standings h
  rw [setPositionsFrom_positions, sortWith_length, mapDrivers_length st _ _ hm]

/-! ## Standings: order -/

theorem compareStandings_le_iff (a b : StandingsEntry) :
    compareStandings a b ≤ 0 ↔ cascade a.stats b.stats := by
  unfold compareStandings cascade
  split_ifs <;> omega

theorem compareStandings_total (a b : StandingsEntry) :
    compareStandings a b ≤ 0 ∨ compareStandings b a ≤ 0 := by
  unfold compareStandings
  split_ifs <;> omega

theorem compareStandings_trans (a b c : StandingsEntry) (hab : compareStandings a b ≤ 0)
    (hbc : compareStandings b c ≤ 0) : compareStandings a c ≤ 0 := by
  unfold compareStandings at *
  split_ifs at * <;> omega

theorem sortWith_compareStandings_pairwise (l : List StandingsEntry) :
    (sortWith compareStandings l).Pairwise (fun a b => cascade a.stats b.stats) := by
  have h : (sortWith compareStandings l).Pairwise (fun a b => compareStandings a b ≤ 0) :=
    @List.sorted_insertionSort StandingsEntry (fun a b => compareStandings a b ≤ 0) _
      ⟨compareStandings_total⟩ ⟨compareStandings_trans⟩ l
  exact h.imp fun {a b} hab => (compareStandings_le_iff a b).mp hab

theorem mem_setPositionsFrom (index : Nat) (l : List StandingsEntry) (e : StandingsEntry)
    (h : e ∈ setPositionsFrom index l) :
    index < e.position ∧ ∃ e0 ∈ l, e.stats = e0.stats ∧ e.driver = e0.driver := by
  induction l generalizing index with
  | nil => simp [setPositionsFrom] at h
  | cons x rest ih =>
    simp only [setPositionsFrom, List.mem_cons] at h
    rcases h with rfl | h
    · exact ⟨Nat.lt_succ_self index, x, List.mem_cons_self _ _, rfl, rfl⟩
    · obtain ⟨hlt, e0, he0, hs, hd⟩ := ih (index + 1) h
      exact ⟨by omega, e0, List.mem_cons_of_mem _ he0, hs, hd⟩

theorem setPositionsFrom_pairwise (R : DriverStats → DriverStats → Prop) (index : Nat)
    (l : List StandingsEntry) (h : l.Pairwise (fun a b => R a.stats b.stats)) :
    (setPositionsFrom index l).Pairwise
      (fun a b => R a.stats b.stats ∧ a.position < b.position) := by
  induction l generalizing index with
  | nil => exact List.Pairwise.nil
  | cons x rest ih =>
    rw [List.pairwise_cons] at h
    simp only [setPositionsFrom]
    rw [List.pairwise_cons]
    refine ⟨fun e he => ?_, ih (index + 1) h.2⟩
    obtain ⟨hlt, e0, he0, hs, _⟩ := mem_setPositionsFrom (index + 1) rest e he
    refine ⟨?_, by simpa using hlt⟩
    rw [hs]
    exact h.1 e0 he0

/-- In a returned standings list every earlier entry stands in the cascade
to every later entry and has the smaller position. -/
theorem generateStandings_pairwise (st : State) (standings : List StandingsEntry)
    (h : generateStandings st = .ok standings) :
    standings.Pairwise (fun a b => cascade a.stats b.stats ∧ a.position < b.position) := by
  obtain ⟨entries, _, rfl⟩ := generateStandings_shape st standings h
  exact setPositionsFrom_pairwise cascade 0 _ (sortWith_compareStandings_pairwise entries)

/-- Of two different entries of a returned standings list, one is earlier:
it stands in the cascade to the other and has the smaller position. -/
theorem generateStandings_compare (st : State) (standings : List StandingsEntry)
    (h : generateStandings st = .ok standings) (a b : StandingsEntry)
    (ha : a ∈ standings) (hb : b ∈ standings) (hab : a ≠ b) :
    (cascade a.stats b.stats ∧ a.position < b.position) ∨
      (cascade b.stats a.stats ∧ b.position < a.position) := by
  have hp := generateStandings_pairwise st standings h
  have hs : standings.Pairwise (fun a b =>
      (cascade a.stats b.stats ∧ a.position < b.position) ∨
        (cascade b.stats a.stats ∧ b.position < a.position)) :=
    hp.imp fun {a b} hab => Or.inl hab
  exact hs.forall (fun x y hxy => hxy.symm) ha hb hab

/-! ## Average position -/

theorem raceRecords_pairs (results : List (String × List (String × RaceResult)))
    (driverId : String) (races : List Race) (records : List (Race × RaceResult × Int))
    (h : raceRecords results driverId races = .ok records) :
    records.map (fun t => (t.1, t.2.1)) =
      races.filterMap fun race =>
        (lookupResult results race.id driverId).map fun raceResult => (race, raceResult) := by
  induction races generalizing records with
  | nil => simp [raceRecords] at h; simp [← h]
  | cons race rest ih =>
    simp only [raceRecords] at h
    cases hl : lookupResult results race.id driverId with
    | none =>
      rw [hl] at h
      simpa [List.filterMap_cons, hl] using ih records h
    | some raceResult =>
      simp only [hl] at h
      cases hc : calculateRacePoints raceResult race.pointsSystem with
      | error e => simp [hc] at h
      | ok racePoints =>
        simp only [hc] at h
        cases hr : raceRecords results driverId rest with
        | error e => simp [hr] at h
        | ok recs =>
          simp only [hr, Except.ok.injEq] at h
          subst h
          simp [List.filterMap_cons, hl, ih recs hr]

theorem raceRecords_numericFinishes (st : State) (driverId : String)
    (records : List (Race × RaceResult × Int))
    (h : raceRecords st.results driverId st.races = .ok records) :
    records.filterMap (fun t => numericPosition t.2.1.feature) =
      numericFeatureFinishes st driverId := by
  unfold numericFeatureFinishes racesWithResult
  rw [← raceRecords_pairs _ _ _ _ h, List.filterMap_map]
  rfl

theorem featureStats_counts (feature : JsVal) (acc : StatsAcc) :
    (featureStats feature acc).totalPositions =
        acc.totalPositions + (numericPosition feature).getD 0 ∧
    (featureStats feature acc).finishedRaces =
        acc.finishedRaces + (if (numericPosition feature).isSome then 1 else 0) ∧
    (featureStats feature acc).stats.averagePosition = acc.stats.averagePosition := by
  unfold featureStats numericPosition
  cases ht : truthy feature with
  | false => simp
  | true =>
    cases hp : parseInt feature with
    | none =>
      simp only [if_true]
      split <;> simp
    | some position => simp

theorem recordRace_counts (race : Race) (raceResult : RaceResult) (racePoints : Int)
    (acc : StatsAcc) :
    (recordRace race raceResult racePoints acc).totalPositions =
        acc.totalPositions + (numericPosition raceResult.feature).getD 0 ∧
    (recordRace race raceResult racePoints acc).finishedRaces =
        acc.finishedRaces + (if (numericPosition raceResult.feature).isSome then 1 else 0) ∧
    (recordRace race raceResult racePoints acc).stats.averagePosition =
        acc.stats.averagePosition := by
  have h := featureStats_counts raceResult.feature
    { acc with stats := { acc.stats with totalPoints := acc.stats.totalPoints + racePoints } }
  exact h

theorem recordAll_counts (records : List (Race × RaceResult × Int)) (acc : StatsAcc) :
    (recordAll records acc).totalPositions =
        acc.totalPositions + (records.filterMap fun t => numericPosition t.2.1.feature).sum ∧
    (recordAll records acc).finishedRaces =
        acc.finishedRaces + (records.filterMap fun t => numericPosition t.2.1.feature).length ∧
    (recordAll records acc).stats.averagePosition = acc.stats.averagePosition := by
  induction records generalizing acc with
  | nil => simp [recordAll]
  | cons t rest ih =>
    obtain ⟨h1, h2, h3⟩ := ih (recordRace t.1 t.2.1 t.2.2 acc)
    obtain ⟨g1, g2, g3⟩ := recordRace_counts t.1 t.2.1 t.2.2 acc
    simp only [recordAll, List.foldl_cons] at h1 h2 h3 ⊢
    rw [h1, h2, h3, g1, g2, g3]
    cases hn : numericPosition t.2.1.feature with
    | none => simp [List.filterMap_cons, hn]
    | some p => simp [List.filterMap_cons, hn]; omega

/-- The `averagePosition` of returned stats: the number `0` without a numeric
feature finish, else `toFixed(1)` of the sum of the finishes over their count. -/
theorem calculateDriverStats_averagePosition (st : State) (driverId : String)
    (stats : DriverStats) (h : calculateDriverStats st driverId = .ok stats) :
    stats.averagePosition =
      if numericFeatureFinishes st driverId = [] then AvgPos.zero
      else toFixed1 (numericFeatureFinishes st driverId).sum
        (numericFeatureFinishes st driverId).length := by
  rw [calculateDriverStats_eq] at h
  cases hr : raceRecords st.results driverId st.races with
  | error e => simp [hr] at h
  | ok records =>
    simp only [hr, Except.ok.injEq] at h
    subst h
    obtain ⟨h1, h2, h3⟩ := recordAll_counts records initialAcc
    rw [raceRecords_numericFinishes st driverId records hr] at h1 h2
    unfold finishStats
    rw [h1, h2]
    simp only [initialAcc, Nat.zero_add, Int.zero_add] at h3 ⊢
    by_cases hn : numericFeatureFinishes st driverId = []
    · simp [hn, h3]
    · have hpos : 0 < (numericFeatureFinishes st driverId).length :=
        List.length_pos.mpr hn
      simp [hn, hpos]

theorem floorLog2Aux_bounds (fuel n : Nat) (h1 : 1 ≤ n) (hf : n ≤ fuel) :
    2 ^ floorLog2Aux fuel n ≤ n ∧ n < 2 ^ (floorLog2Aux fuel n + 1) := by
  induction fuel generalizing n with
  | zero => omega
  | succ fuel ih =>
    unfold floorLog2Aux
    by_cases h2 : 2 ≤ n
    · simp only [h2, if_true]
      obtain ⟨hlo, hhi⟩ := ih (n / 2) (by omega) (by omega)
      rw [pow_succ, pow_succ 2 (floorLog2Aux fuel (n / 2) + 1)]
      omega
    · simp only [h2, if_false]
      omega

theorem floorLog2_bounds (n : Nat) (h1 : 1 ≤ n) :
    2 ^ floorLog2 n ≤ n ∧ n < 2 ^ (floorLog2 n + 1) :=
  floorLog2Aux_bounds n n h1 (Nat.le_refl n)

theorem doubleExponent_le (p q : Nat) :
    doubleExponent p q ≤ (floorLog2 p : Int) - (floorLog2 q : Int) - 52 := by
  unfold doubleExponent
  simp only []
  split <;> omega

theorem le_roundHalfEven (n d : Nat) : n / d ≤ roundHalfEven n d := by
  unfold roundHalfEven
  split_ifs <;> omega

/-- The double nearest to a quotient `p / q ≥ 1` is at least `1`. -/
theorem divToDouble_ge_one (p q : Nat) (hq : 1 ≤ q) (hpq : q ≤ p) :
    (0 ≤ (divToDouble p q).2 → 1 ≤ (divToDouble p q).1) ∧
    ((divToDouble p q).2 < 0 → 2 ^ (-(divToDouble p q).2).toNat ≤ (divToDouble p q).1) := by
  have he := doubleExponent_le p q
  unfold divToDouble
  simp only []
  generalize doubleExponent p q = e at he
  constructor
  · intro h0
    refine le_trans ?_ (le_roundHalfEven _ _)
    simp only [scaledFraction, h0, if_true]
    obtain ⟨hp, _⟩ := floorLog2_bounds p (by omega)
    obtain ⟨_, hq2⟩ := floorLog2_bounds q hq
    have hexp : floorLog2 q + 1 + e.toNat ≤ floorLog2 p := by omega
    have h1 : q * 2 ^ e.toNat ≤ 2 ^ (floorLog2 q + 1) * 2 ^ e.toNat :=
      Nat.mul_le_mul_right _ (Nat.le_of_lt hq2)
    have h2 : 2 ^ (floorLog2 q + 1) * 2 ^ e.toNat ≤ 2 ^ floorLog2 p := by
      rw [← pow_add]
      exact Nat.pow_le_pow_right (by omega) hexp
    have h3 : q * 2 ^ e.toNat ≤ p := le_trans h1 (le_trans h2 hp)
    have hpos : 0 < q * 2 ^ e.toNat := Nat.mul_pos (by omega) (by positivity)
    exact (Nat.le_div_iff_mul_le hpos).mpr (by simpa using h3)
  · intro h0
    refine le_trans ?_ (le_roundHalfEven _ _)
    have hneg : ¬ (0 ≤ e) := by omega
    simp only [scaledFraction, hneg, if_false]
    exact (Nat.le_div_iff_mul_le (by omega)).mpr (by
      rw [Nat.mul_comm]
      exact Nat.mul_le_mul_right _ hpq)

theorem nearestTenths_ge_ten (m : Nat) (e : Int) (h0 : 0 ≤ e → 1 ≤ m)
    (h1 : e < 0 → 2 ^ (-e).toNat ≤ m) : 10 ≤ nearestTenths m e := by
  unfold nearestTenths
  by_cases he : 0 ≤ e
  · simp only [he, if_true]
    have hm := h0 he
    have hp : 1 ≤ 2 ^ e.toNat := Nat.one_le_two_pow
    calc 10 = 10 * 1 * 1 := by norm_num
      _ ≤ 10 * m * 2 ^ e.toNat := Nat.mul_le_mul (Nat.mul_le_mul_left 10 hm) hp
  · simp only [he, if_false]
    have hm := h1 (by omega)
    rw [Nat.le_div_iff_mul_le (by positivity), pow_succ]
    omega

/-- An average of positive finishing positions is shown as at least `1.0`. -/
theorem toFixed1_ge_ten (totalPositions : Int) (finishedRaces : Nat)
    (hf : 0 < finishedRaces) (hle : (finishedRaces : Int) ≤ totalPositions) :
    10 ≤ parseFloatTenths (toFixed1 totalPositions finishedRaces) := by
  unfold toFixed1
  have hne : totalPositions ≠ 0 := by omega
  have hnn : ¬ totalPositions < 0 := by omega
  simp only [hne, if_false, hnn, decide_False, parseFloatTenths]
  have hpq : finishedRaces ≤ totalPositions.natAbs := by omega
  obtain ⟨g0, g1⟩ := divToDouble_ge_one totalPositions.natAbs finishedRaces hf hpq
  have := nearestTenths_ge_ten _ _ g0 g1
  simp only [Bool.false_eq_true, if_false]
  exact_mod_cast this

theorem sum_ge_length_of_pos (l : List Int) (h : ∀ p ∈ l, 0 < p) : (l.length : Int) ≤ l.sum := by
  induction l with
  | nil => simp
  | cons x rest ih =>
    have hx := h x (List.mem_cons_self _ _)
    have := ih fun p hp => h p (List.mem_cons_of_mem _ hp)
    simp only [List.length_cons, List.sum_cons]
    push_cast
    omega

/-! ## Standings: entries -/

theorem mapDrivers_mem (st : State) (drivers : List Driver) (entries : List StandingsEntry)
    (h : mapDrivers st drivers = .ok entries) (e : StandingsEntry) (he : e ∈ entries) :
    e.driver ∈ drivers ∧ calculateDriverStats st e.driver.id = .ok e.stats := by
  induction drivers generalizing entries with
  | nil =>
    simp only [mapDrivers, Except.ok.injEq] at h
    subst h
    simp at he
  | cons driver rest ih =>
    simp only [mapDrivers] at h
    cases hs : calculateDriverStats st driver.id with
    | error err => simp [hs] at h
    | ok stats =>
      simp only [hs] at h
      cases hm : mapDrivers st rest with
      | error err => simp [hm] at h
      | ok es =>
        simp only [hm, Except.ok.injEq] at h
        subst h
        rcases List.mem_cons.mp he with rfl | he
        · exact ⟨List.mem_cons_self _ _, hs⟩
        · obtain ⟨h1, h2⟩ := ih es hm he
          exact ⟨List.mem_cons_of_mem _ h1, h2⟩

/-- Every entry of a returned standings list carries a championship driver
and the stats `calculateDriverStats` returns for that driver. -/
theorem generateStandings_mem (st : State) (standings : List StandingsEntry)
    (h : generateStandings st = .ok standings) (e : StandingsEntry) (he : e ∈ standings) :
    e.driver ∈ championshipDrivers st ∧ calculateDriverStats st e.driver.id = .ok e.stats := by
  obtain ⟨entries, hm, rfl⟩ := generateStandings_shape st standings h
  obtain ⟨_, e0, he0, hs, hd⟩ := mem_setPositionsFrom 0 _ e he
  have he1 : e0 ∈ entries := (List.mem_insertionSort _).mp he0
  obtain ⟨h1, h2⟩ := mapDrivers_mem st _ entries hm e0 he1
  rw [hs, hd]
  exact ⟨h1, h2⟩

theorem calculateDriverStats_returns_of_calls (st : State) (driverId : String)
    (h : ∀ p ∈ racesWithResult st driverId,
      returned (calculateRacePoints p.2 p.1.pointsSystem) = true) :
    ∃ stats, calculateDriverStats st driverId = .ok stats := by
  have hok : ∃ records, raceRecords st.results driverId st.races = .ok records := by
    rw [raceRecords_ok_iff]
    intro race hrace raceResult hl
    have hp := h (race, raceResult) (by
      simp only [racesWithResult, List.mem_filterMap]
      exact ⟨race, hrace, by simp [hl]⟩)
    cases hc : calculateRacePoints raceResult race.pointsSystem with
    | error e => simp [hc, returned] at hp
    | ok v => exact ⟨v, rfl⟩
  obtain ⟨records, hr⟩ := hok
  exact ⟨finishStats (recordAll records initialAcc), by rw [calculateDriverStats_eq, hr]⟩

/-- C3 (as the code behaves): for a driver without a numeric feature finish,
`calculateDriverStats` returns `averagePosition` equal to the number `0` it is
initialised with; the call returns whenever each `calculateRacePoints` call
returns. -/
theorem averagePosition_zero_of_no_finish (st : State) (driverId : String)
    (h : numericFeatureFinishes st driverId = [])
    (hret : ∀ p ∈ racesWithResult st driverId,
      returned (calculateRacePoints p.2 p.1.pointsSystem) = true) :
    ∃ stats, calculateDriverStats st driverId = .ok stats ∧
      stats.averagePosition = AvgPos.zero := by
  obtain ⟨stats, hs⟩ := calculateDriverStats_returns_of_calls st driverId hret
  refine ⟨stats, hs, ?_⟩
  rw [calculateDriverStats_averagePosition st driverId stats hs]
  simp [h]

/-- C4 (as the code behaves): between two entries tied on `totalPoints`, wins
and podiums, where one driver has no numeric feature finish and the other has
at least one, all of them positive positions, the driver without a numeric
finish has the smaller position: it appears before the other. -/
theorem no_finish_before_on_tie (st : State) :
    (∀ standings, generateStandings st = .ok standings →
      ∀ a ∈ standings, ∀ b ∈ standings,
        a.stats.totalPoints = b.stats.totalPoints → a.stats.wins = b.stats.wins →
        a.stats.podiums = b.stats.podiums →
        numericFeatureFinishes st a.driver.id = [] →
        numericFeatureFinishes st b.driver.id ≠ [] →
        (∀ p ∈ numericFeatureFinishes st b.driver.id, 0 < p) →
        a.position < b.position) ∧
    (pointsSystemsComplete st = true → ∃ standings, generateStandings st = .ok standings) := by
  refine ⟨fun standings h a ha b hb htp hw hp hna hnb hpos => ?_, generateStandings_returns st⟩
  have hsa := (generateStandings_mem st standings h a ha).2
  have hsb := (generateStandings_mem st standings h b hb).2
  have hza : parseFloatTenths a.stats.averagePosition = 0 := by
    rw [calculateDriverStats_averagePosition st _ _ hsa]
    simp [hna, parseFloatTenths]
  have hzb : 10 ≤ parseFloatTenths b.stats.averagePosition := by
    rw [calculateDriverStats_averagePosition st _ _ hsb]
    simp only [hnb, if_false]
    exact toFixed1_ge_ten _ _ (List.length_pos.mpr hnb) (sum_ge_length_of_pos _ hpos)
  have hne : a ≠ b := by
    intro hab
    rw [hab] at hza
    omega
  rcases generateStandings_compare st standings h a b ha hb hne with hc | hc
  · exact hc.2
  · exfalso
    have := hc.1
    unfold cascade at this
    omega

/-- C5 (as the code behaves): an entry whose driver has no numeric feature
finish carries `averagePosition` `0` and is ranked by `totalPoints` like any
other: it has a larger position than every entry with more `totalPoints` and a
smaller position than every entry with fewer. -/
theorem no_finish_ranked_by_points (st : State) :
    (∀ standings, generateStandings st = .ok standings →
      ∀ a ∈ standings, numericFeatureFinishes st a.driver.id = [] →
        a.stats.averagePosition = AvgPos.zero ∧
        ∀ b ∈ standings,
          (a.stats.totalPoints < b.stats.totalPoints → b.position < a.position) ∧
          (b.stats.totalPoints < a.stats.totalPoints → a.position < b.position)) ∧
    (pointsSystemsComplete st = true → ∃ standings, generateStandings st = .ok standings) := by
  refine ⟨fun standings h a ha hna => ⟨?_, fun b hb => ⟨fun hlt => ?_, fun hlt => ?_⟩⟩,
    generateStandings_returns st⟩
  · have hsa := (generateStandings_mem st standings h a ha).2
    rw [calculateDriverStats_averagePosition st _ _ hsa]
    simp [hna]
  · have hne : a ≠ b := by
      intro hab
      rw [hab] at hlt
      omega
    rcases generateStandings_compare st standings h a b ha hb hne with hc | hc
    · exfalso
      have := hc.1
      unfold cascade at this
      omega
    · exact hc.2
  · have hne : a ≠ b := by
      intro hab
      rw [hab] at hlt
      omega
    rcases generateStandings_compare st standings h a b ha hb hne with hc | hc
    · exact hc.2
    · exfalso
      have := hc.1
      unfold cascade at this
      omega

/-! ## Race analysis -/

theorem findDriver_ok (st : State) (driverId : String) (found : Option Driver)
    (h : findDriver st driverId = .ok found) :
    found = (championshipDrivers st).find? fun d => d.id == driverId := by
  unfold findDriver at h
  unfold championshipDrivers
  cases hc : st.currentChampionship with
  | none =>
    simp only [hc, Except.ok.injEq] at h
    simp [← h]
  | some championship =>
    simp only [hc] at h
    cases hd : championship.drivers with
    | none => simp [hd] at h
    | some drivers =>
      simp only [hd, Except.ok.injEq] at h
      simp [← h, hd]

theorem findDriver_returns (st : State) (hm : driverListMissing st = false)
    (driverId : String) :
    findDriver st driverId = .ok ((championshipDrivers st).find? fun d => d.id == driverId) := by
  unfold findDriver championshipDrivers
  unfold driverListMissing at hm
  cases hc : st.currentChampionship with
  | none => simp
  | some championship =>
    simp only [hc] at hm
    cases hd : championship.drivers with
    | none => simp [hd] at hm
    | some drivers => simp [hd]

theorem forEachEntry_ok (st : State) (results : List (String × RaceResult))
    (analysis result : RaceAnalysis) (h : forEachEntry st results analysis = .ok result) :
    result = analyzeKnown (knownEntries st results) analysis := by
  induction results generalizing analysis with
  | nil =>
    simp only [forEachEntry, Except.ok.injEq] at h
    simp [← h, knownEntries, analyzeKnown]
  | cons p rest ih =>
    obtain ⟨driverId, raceResult⟩ := p
    simp only [forEachEntry] at h
    cases hf : findDriver st driverId with
    | error e => simp [hf] at h
    | ok found =>
      have hfound := findDriver_ok st driverId found hf
      cases found with
      | none =>
        simp only [hf] at h
        rw [ih analysis h]
        simp [knownEntries, List.filterMap_cons, ← hfound]
      | some driver =>
        simp only [hf] at h
        rw [ih _ h]
        simp [knownEntries, List.filterMap_cons, ← hfound, analyzeKnown]

theorem forEachEntry_returns (st : State) (hm : driverListMissing st = false)
    (results : List (String × RaceResult)) (analysis : RaceAnalysis) :
    ∃ result, forEachEntry st results analysis = .ok result := by
  induction results generalizing analysis with
  | nil => exact ⟨analysis, rfl⟩
  | cons p rest ih =>
    obtain ⟨driverId, raceResult⟩ := p
    simp only [forEachEntry, findDriver_returns st hm]
    cases (championshipDrivers st).find? fun d => d.id == driverId with
    | none => exact ih analysis
    | some driver => exact ih _

/-- The shape of a returned analysis: the loop body run over the known
entries of the race's result mapping, then the perfect-weekend statement. -/
theorem analyzeRace_shape (st : State) (raceId : String) (analysis : RaceAnalysis)
    (h : analyzeRace st raceId = .ok (some analysis)) :
    ∃ results, st.results.lookup raceId = some results ∧
      analysis =
        perfectWeekendStep (analyzeKnown (knownEntries st results) initialAnalysis) := by
  unfold analyzeRace at h
  cases hr : st.races.find? (fun r => r.id == raceId) with
  | none => simp [hr] at h
  | some race =>
    cases hl : st.results.lookup raceId with
    | none => simp [hr, hl] at h
    | some results =>
      simp only [hr, hl] at h
      cases hf : forEachEntry st results initialAnalysis with
      | error e => simp [hf] at h
      | ok result =>
        simp only [hf, Except.ok.injEq, Option.some.injEq] at h
        exact ⟨results, rfl, by rw [← h, forEachEntry_ok st results _ _ hf]⟩

/-- An analysis is returned for a race that exists and has a result mapping,
when the championship's driver list can be read. -/
theorem analyzeRace_returns (st : State) (raceId : String) (race : Race)
    (results : List (String × RaceResult))
    (hr : st.races.find? (fun r => r.id == raceId) = some race)
    (hl : st.results.lookup raceId = some results) (hm : driverListMissing st = false) :
    ∃ analysis, analyzeRace st raceId = .ok (some analysis) := by
  obtain ⟨result, hf⟩ := forEachEntry_returns st hm results initialAnalysis
  exact ⟨perfectWeekendStep result, by simp only [analyzeRace, hr, hl, hf]⟩

theorem perfectWeekendStep_fields (analysis : RaceAnalysis) :
    (perfectWeekendStep analysis).fastestLap = analysis.fastestLap ∧
    (perfectWeekendStep analysis).bestRecovery = analysis.bestRecovery ∧
    (perfectWeekendStep analysis).biggestLoser = analysis.biggestLoser := by
  unfold perfectWeekendStep
  split
  · split <;> exact ⟨rfl, rfl, rfl⟩
  · exact ⟨rfl, rfl, rfl⟩

theorem positionChanges_fastestLap (driver : Driver) (result : RaceResult)
    (analysis : RaceAnalysis) :
    (positionChanges driver result analysis).fastestLap = analysis.fastestLap := by
  unfold positionChanges
  split
  · simp only []
    split <;> split <;> rfl
  · rfl

theorem analyzeEntry_fastestLap (driver : Driver) (result : RaceResult)
    (analysis : RaceAnalysis) :
    (analyzeEntry driver result analysis).fastestLap =
      if result.featureFL then some driver else analysis.fastestLap := by
  unfold analyzeEntry
  simp only []
  by_cases h1 : result.feature = JsVal.num 1 <;>
    by_cases h2 : result.qualifying = JsVal.num 1 <;>
    cases h3 : result.featureFL <;>
    cases h4 : isStatusToken result.feature <;>
    simp [h1, h2, positionChanges_fastestLap]

theorem analyzeKnown_fastestLap (entries : List (Driver × RaceResult))
    (analysis : RaceAnalysis) :
    (analyzeKnown entries analysis).fastestLap =
      match (entries.filter fun p => p.2.featureFL).getLast? with
      | some p => some p.1
      | none => analysis.fastestLap := by
  induction entries generalizing analysis with
  | nil => rfl
  | cons p rest ih =>
    have hstep := ih (analyzeEntry p.1 p.2 analysis)
    simp only [analyzeKnown, List.foldl_cons] at hstep ⊢
    rw [hstep, analyzeEntry_fastestLap]
    cases hp : p.2.featureFL with
    | false => simp [List.filter_cons, hp]
    | true =>
      simp only [List.filter_cons, hp, if_true]
      cases hrest : List.filter (fun p => p.2.featureFL) rest with
      | nil => simp
      | cons q more =>
        have hne : (q :: more).getLast? = some ((q :: more).getLast (by simp)) :=
          List.getLast?_eq_getLast _ _
        rw [List.getLast?_cons_cons, hne]

theorem positionChanges_bestRecovery (driver : Driver) (result : RaceResult)
    (analysis : RaceAnalysis) :
    (positionChanges driver result analysis).bestRecovery =
      match parseInt result.qualifying, parseInt result.feature with
      | some qualiPos, some featurePos =>
        stepBestRecovery analysis.bestRecovery (driver, qualiPos - featurePos)
      | _, _ => analysis.bestRecovery := by
  unfold positionChanges stepBestRecovery
  split
  · simp only []
    split <;> split <;> rfl
  · rfl

theorem analyzeEntry_bestRecovery (driver : Driver) (result : RaceResult)
    (analysis : RaceAnalysis) :
    (analyzeEntry driver result analysis).bestRecovery =
      match parseInt result.qualifying, parseInt result.feature with
      | some qualiPos, some featurePos =>
        stepBestRecovery analysis.bestRecovery (driver, qualiPos - featurePos)
      | _, _ => analysis.bestRecovery := by
  unfold analyzeEntry
  simp only []
  by_cases h1 : result.feature = JsVal.num 1 <;>
    by_cases h2 : result.qualifying = JsVal.num 1 <;>
    cases h3 : result.featureFL <;>
    cases h4 : isStatusToken result.feature <;>
    simp [h1, h2, positionChanges_bestRecovery]

theorem analyzeKnown_bestRecovery (entries : List (Driver × RaceResult))
    (analysis : RaceAnalysis) :
    (analyzeKnown entries analysis).bestRecovery =
      (positionDeltas entries).foldl stepBestRecovery analysis.bestRecovery := by
  induction entries generalizing analysis with
  | nil => rfl
  | cons p rest ih =>
    have hstep := ih (analyzeEntry p.1 p.2 analysis)
    simp only [analyzeKnown, List.foldl_cons] at hstep ⊢
    rw [hstep, analyzeEntry_bestRecovery]
    simp only [positionDeltas, List.filterMap_cons]
    cases parseInt p.2.qualifying <;> cases parseInt p.2.feature <;> rfl

/-- Folding `stepBestRecovery` keeps the current holder when no delta exceeds
its value, and otherwise ends with the first delta of maximal value. -/
theorem foldl_stepBestRecovery (deltas : List (Driver × Int)) (current : Mover) :
    ((∀ p ∈ deltas, p.2 ≤ current.positions) →
      deltas.foldl stepBestRecovery current = current) ∧
    ((∃ p ∈ deltas, current.positions < p.2) →
      ∃ pre d delta post, deltas = pre ++ (d, delta) :: post ∧
        deltas.foldl stepBestRecovery current = { driver := some d, positions := delta } ∧
        current.positions < delta ∧ (∀ p ∈ pre, p.2 < delta) ∧ (∀ p ∈ post, p.2 ≤ delta)) := by
  induction deltas generalizing current with
  | nil => simp
  | cons x rest ih =>
    obtain ⟨d0, delta0⟩ := x
    simp only [List.foldl_cons]
    by_cases hlt : current.positions < delta0
    · have hstep : stepBestRecovery current (d0, delta0) =
          { driver := some d0, positions := delta0 } := by simp [stepBestRecovery, hlt]
      rw [hstep]
      obtain ⟨ih1, ih2⟩ := ih { driver := some d0, positions := delta0 }
      constructor
      · intro hall
        have := hall (d0, delta0) (List.mem_cons_self _ _)
        simp only at this
        omega
      · intro _
        by_cases hmore : ∃ p ∈ rest, delta0 < p.2
        · obtain ⟨pre, d, delta, post, hdec, hres, hgt, hpre, hpost⟩ := ih2 hmore
          refine ⟨(d0, delta0) :: pre, d, delta, post, by simp [hdec], hres, ?_, ?_, hpost⟩
          · simp only at hgt
            omega
          · intro p hp
            rcases List.mem_cons.mp hp with rfl | hp
            · exact hgt
            · exact hpre p hp
        · have hall : ∀ p ∈ rest, p.2 ≤ delta0 := by
            intro p hp
            by_contra hcon
            exact hmore ⟨p, hp, by omega⟩
          exact ⟨[], d0, delta0, rest, rfl, ih1 hall, hlt, by simp, hall⟩
    · have hstep : stepBestRecovery current (d0, delta0) = current := by
        simp [stepBestRecovery, hlt]
      rw [hstep]
      obtain ⟨ih1, ih2⟩ := ih current
      constructor
      · intro hall
        exact ih1 fun p hp => hall p (List.mem_cons_of_mem _ hp)
      · rintro ⟨p, hp, hgt⟩
        have hprest : p ∈ rest := by
          rcases List.mem_cons.mp hp with rfl | hp
          · exact absurd hgt hlt
          · exact hp
        obtain ⟨pre, d, delta, post, hdec, hres, hcur, hpre, hpost⟩ := ih2 ⟨p, hprest, hgt⟩
        refine ⟨(d0, delta0) :: pre, d, delta, post, by simp [hdec], hres, hcur, ?_, hpost⟩
        intro q hq
        rcases List.mem_cons.mp hq with rfl | hq
        · simp only
          omega
        · exact hpre q hq

/-- C7 (as the code behaves): `bestRecovery` is taken over the entries whose
driver is in the championship's driver list and whose qualifying and feature
positions are numeric; it is the driver with the maximum positive
`delta = qualifying - feature`, with that delta as `positions`, and among
drivers with equal maximum delta the one visited first in the mapping's
iteration order; without a positive delta it has no driver and `positions`
`0`.  A single known driver with qualifying `3` and feature `1` gives
`(driver, 2)`. -/
theorem bestRecovery_first_maximum (st : State) (raceId : String) :
    (∀ analysis, analyzeRace st raceId = .ok (some analysis) →
      ∃ results, st.results.lookup raceId = some results ∧
        ((∀ p ∈ positionDeltas (knownEntries st results), p.2 ≤ 0) →
          analysis.bestRecovery = { driver := none, positions := 0 }) ∧
        ((∃ p ∈ positionDeltas (knownEntries st results), 0 < p.2) →
          ∃ pre d delta post,
            positionDeltas (knownEntries st results) = pre ++ (d, delta) :: post ∧
            analysis.bestRecovery = { driver := some d, positions := delta } ∧
            0 < delta ∧ (∀ p ∈ pre, p.2 < delta) ∧ (∀ p ∈ post, p.2 ≤ delta))) ∧
    (∀ race results, st.races.find? (fun r => r.id == raceId) = some race →
      st.results.lookup raceId = some results → driverListMissing st = false →
      ∃ analysis, analyzeRace st raceId = .ok (some analysis)) ∧
    (∀ race (x : Driver) (result : RaceResult),
      st.races.find? (fun r => r.id == raceId) = some race →
      st.results.lookup raceId = some [(x.id, result)] →
      driverListMissing st = false →
      (championshipDrivers st).find? (fun d => d.id == x.id) = some x →
      result.qualifying = JsVal.num 3 → result.feature = JsVal.num 1 →
      ∃ analysis, analyzeRace st raceId = .ok (some analysis) ∧
        analysis.bestRecovery = { driver := some x, positions := 2 }) := by
  refine ⟨fun analysis h => ?_, fun race results hr hl hm => analyzeRace_returns st raceId race
    results hr hl hm, fun race x result hr hl hm hx hq hf => ?_⟩
  · obtain ⟨results, hl, rfl⟩ := analyzeRace_shape st raceId analysis h
    refine ⟨results, hl, ?_⟩
    rw [(perfectWeekendStep_fields _).2.1, analyzeKnown_bestRecovery]
    exact foldl_stepBestRecovery (positionDeltas (knownEntries st results))
      initialAnalysis.bestRecovery
  · obtain ⟨analysis, h⟩ := analyzeRace_returns st raceId race _ hr hl hm
    refine ⟨analysis, h, ?_⟩
    obtain ⟨results, hl2, rfl⟩ := analyzeRace_shape st raceId analysis h
    rw [hl] at hl2
    cases hl2
    rw [(perfectWeekendStep_fields _).2.1, analyzeKnown_bestRecovery]
    simp [knownEntries, hx, positionDeltas, hq, hf, parseInt, stepBestRecovery, initialAnalysis]

/-- C8 (as the code behaves): the `fastestLap` driver is the flagged driver
visited last in the mapping's iteration order, among the entries whose driver
is in the championship's driver list; when exactly one such driver is flagged
it is that driver, and when none is flagged it is absent. -/
theorem fastestLap_last_flagged (st : State) (raceId : String) :
    (∀ analysis, analyzeRace st raceId = .ok (some analysis) →
      ∃ results, st.results.lookup raceId = some results ∧
        analysis.fastestLap =
          (((knownEntries st results).filter fun p => p.2.featureFL).getLast?).map
            (fun p => p.1) ∧
        (∀ p, ((knownEntries st results).filter fun p => p.2.featureFL) = [p] →
          analysis.fastestLap = some p.1) ∧
        (((knownEntries st results).filter fun p => p.2.featureFL) = [] →
          analysis.fastestLap = none)) ∧
    (∀ race results, st.races.find? (fun r => r.id == raceId) = some race →
      st.results.lookup raceId = some results → driverListMissing st = false →
      ∃ analysis, analyzeRace st raceId = .ok (some analysis)) := by
  refine ⟨fun analysis h => ?_, fun race results hr hl hm => analyzeRace_returns st raceId race
    results hr hl hm⟩
  obtain ⟨results, hl, rfl⟩ := analyzeRace_shape st raceId analysis h
  have hfl : (perfectWeekendStep (analyzeKnown (knownEntries st results)
      initialAnalysis)).fastestLap =
      (((knownEntries st results).filter fun p => p.2.featureFL).getLast?).map
        (fun p => p.1) := by
    rw [(perfectWeekendStep_fields _).1, analyzeKnown_fastestLap]
    cases ((knownEntries st results).filter fun p => p.2.featureFL).getLast? <;> rfl
  refine ⟨results, hl, hfl, fun p hp => ?_, fun hnone => ?_⟩
  · rw [hfl, hp]
    rfl
  · rw [hfl, hnone]
    rfl

/-! ## The theorems at sample data -/

/-- Ana scores `27` and `29` points in the two races of the sample
championship, and her total is their sum. -/
theorem calculateDriverStats_totalPoints_witness :
    ∃ stats, calculateDriverStats sampleState "d1" = .ok stats ∧ stats.totalPoints = 27 + 29 := by
  obtain ⟨stats, h⟩ := (calculateDriverStats_totalPoints sampleState "d1").2 (by decide)
  refine ⟨stats, h, ?_⟩
  rw [(calculateDriverStats_totalPoints sampleState "d1").1 stats h]
  decide

/-- C3 as stated fails: Yuri has no numeric feature finish, and the returned
`averagePosition` is the number `0`. -/
theorem averagePosition_zero_counterexample :
    numericFeatureFinishes tieState "y" = [] ∧
    Except.map DriverStats.averagePosition (calculateDriverStats tieState "y") =
      .ok AvgPos.zero := by
  decide

/-- Cy retires from the only race entered and gets `averagePosition` `0`. -/
theorem averagePosition_zero_of_no_finish_witness :
    ∃ stats, calculateDriverStats sampleState "d3" = .ok stats ∧
      stats.averagePosition = AvgPos.zero :=
  averagePosition_zero_of_no_finish sampleState "d3" (by decide) (by decide)

/-- C4 as stated fails: Xavi and Yuri are tied on points, wins and podiums,
Yuri has no numeric feature finish and Xavi has one, and Yuri is ranked first. -/
theorem no_finish_after_counterexample :
    generateStandings tieState = .ok tieStandings ∧
    tieStandings.map (fun e =>
        (e.driver.id, e.stats.totalPoints, e.stats.wins, e.stats.podiums, e.position)) =
      [("y", 0, 0, 0, 1), ("x", 0, 0, 0, 2)] ∧
    numericFeatureFinishes tieState "y" = [] ∧
    numericFeatureFinishes tieState "x" = [11] := by
  decide

/-- In the tie of Xavi and Yuri the theorem places Yuri first. -/
theorem no_finish_before_on_tie_witness :
    (retiredEntry { id := "y", name := "Yuri" } (JsVal.num 6) 0 0 1).position <
      (eleventhEntry { id := "x", name := "Xavi" } (JsVal.num 5) 2).position :=
  (no_finish_before_on_tie tieState).1 tieStandings (by decide)
    (retiredEntry { id := "y", name := "Yuri" } (JsVal.num 6) 0 0 1) (by decide)
    (eleventhEntry { id := "x", name := "Xavi" } (JsVal.num 5) 2) (by decide)
    (by decide) (by decide) (by decide) (by decide) (by decide) (by decide)

/-- C5 as stated fails: Yuri has no numeric feature finish, Xavi has one, and
Yuri, with two points for pole, is ranked above Xavi. -/
theorem no_finish_worse_counterexample :
    generateStandings poleState = .ok poleStandings ∧
    poleStandings.map (fun e => (e.driver.id, e.stats.totalPoints, e.position)) =
      [("y", 2, 1), ("x", 0, 2)] ∧
    numericFeatureFinishes poleState "y" = [] ∧
    numericFeatureFinishes poleState "x" = [11] := by
  decide

/-- With pole and a retirement Yuri carries `averagePosition` `0` and is
ranked by points against every entry. -/
theorem no_finish_ranked_by_points_witness :
    (retiredEntry { id := "y", name := "Yuri" } (JsVal.num 1) 2 1 1).stats.averagePosition =
        AvgPos.zero ∧
      ∀ b ∈ poleStandings,
        ((retiredEntry { id := "y", name := "Yuri" } (JsVal.num 1) 2 1 1).stats.totalPoints <
            b.stats.totalPoints →
          b.position < (retiredEntry { id := "y", name := "Yuri" } (JsVal.num 1) 2 1 1).position) ∧
        (b.stats.totalPoints <
            (retiredEntry { id := "y", name := "Yuri" } (JsVal.num 1) 2 1 1).stats.totalPoints →
          (retiredEntry { id := "y", name := "Yuri" } (JsVal.num 1) 2 1 1).position < b.position) :=
  (no_finish_ranked_by_points poleState).1 poleStandings (by decide)
    (retiredEntry { id := "y", name := "Yuri" } (JsVal.num 1) 2 1 1) (by decide) (by decide)

/-- C6 fails on the code: Ana drops from first to third (delta `-2`), Bo gains a
place from third to second (delta `1`), and the reported `biggestLoser` is Bo
with `positions` `1`, because the stored magnitude `2` of Ana's loss is
compared with Bo's signed delta. -/
theorem biggestLoser_overwritten :
    Except.map (Option.map RaceAnalysis.biggestLoser)
      (analyzeRace
        (raceState [("d1", featureResult 1 3 false), ("d2", featureResult 3 2 false)]) "r1") =
      .ok (some { driver := some { id := "d2", name := "Bo" }, positions := 1 }) := by
  decide

/-- C7 as stated fails: Bo and Ana both gain two places, Bo is visited first,
and the reported `bestRecovery` is Bo although Ana has the smaller id. -/
theorem bestRecovery_counterexample :
    Except.map (Option.map RaceAnalysis.bestRecovery)
      (analyzeRace
        (raceState [("d2", featureResult 3 1 false), ("d1", featureResult 3 1 false)]) "r1") =
      .ok (some { driver := some { id := "d2", name := "Bo" }, positions := 2 }) := by
  decide

/-- Ana alone, from third on the grid to the win, is the best recovery with
two places. -/
theorem bestRecovery_first_maximum_witness :
    ∃ analysis, analyzeRace (raceState [("d1", featureResult 3 1 false)]) "r1" =
        .ok (some analysis) ∧
      analysis.bestRecovery = { driver := some { id := "d1", name := "Ana" }, positions := 2 } :=
  (bestRecovery_first_maximum (raceState [("d1", featureResult 3 1 false)]) "r1").2.2
    { id := "r1", name := "Spa", pointsSystem := some defaultPointsSystem }
    { id := "d1", name := "Ana" } (featureResult 3 1 false)
    (by decide) (by decide) (by decide) (by decide) (by decide) (by decide)

/-- C8 as stated fails: Ana and Bo are both flagged, and the reported
`fastestLap` driver is Bo, visited last, although Ana has the smaller id. -/
theorem fastestLap_counterexample :
    Except.map (Option.map RaceAnalysis.fastestLap)
      (analyzeRace
        (raceState [("d1", featureResult 1 1 true), ("d2", featureResult 2 2 true)]) "r1") =
      .ok (some (some { id := "d2", name := "Bo" })) := by
  decide

/-- With Ana and Bo both flagged an analysis is returned. -/
theorem fastestLap_last_flagged_witness :
    ∃ analysis,
      analyzeRace
        (raceState [("d1", featureResult 1 1 true), ("d2", featureResult 2 2 true)]) "r1" =
        .ok (some analysis) :=
  (fastestLap_last_flagged
      (raceState [("d1", featureResult 1 1 true), ("d2", featureResult 2 2 true)]) "r1").2
    { id := "r1", name := "Spa", pointsSystem := some defaultPointsSystem }
    [("d1", featureResult 1 1 true), ("d2", featureResult 2 2 true)]
    (by decide) (by decide) (by decide)

/-- The standings of the sample championship carry the positions `1, 2, 3`. -/
theorem generateStandings_positions_witness :
    ∃ standings, generateStandings sampleState = .ok standings ∧
      standings.map (fun e => e.position) = [1, 2, 3] := by
  obtain ⟨standings, h⟩ := (generateStandings_positions sampleState).2 (by decide)
  exact ⟨standings, h, (generateStandings_positions sampleState).1 standings h⟩

/-! ## Standings: stability -/

theorem mapDrivers_eq_map (st : State) (drivers : List Driver) (entries : List StandingsEntry)
    (h : mapDrivers st drivers = .ok entries) : entries = drivers.map (entryOf st) := by
  induction drivers generalizing entries with
  | nil =>
    simp only [mapDrivers, Except.ok.injEq] at h
    simp [← h]
  | cons driver rest ih =>
    simp only [mapDrivers] at h
    cases hs : calculateDriverStats st driver.id with
    | error err => simp [hs] at h
    | ok stats =>
      simp only [hs] at h
      cases hm : mapDrivers st rest with
      | error err => simp [hm] at h
      | ok es =>
        simp only [hm, Except.ok.injEq] at h
        subst h
        simp [entryOf, hs, ← ih es hm]

theorem setPositionsFrom_sublist (c l : List StandingsEntry) (h : List.Sublist c l) (index : Nat) :
    ∃ c', List.Sublist c' (setPositionsFrom index l) ∧
      List.Forall₂ (fun a b => b.driver = a.driver ∧ b.stats = a.stats) c c' := by
  induction h generalizing index with
  | slnil => exact ⟨[], List.Sublist.slnil, List.Forall₂.nil⟩
  | cons a _ ih =>
    obtain ⟨c', hsub, hrel⟩ := ih (index + 1)
    exact ⟨c', List.Sublist.cons _ hsub, hrel⟩
  | cons₂ a _ ih =>
    obtain ⟨c', hsub, hrel⟩ := ih (index + 1)
    exact ⟨{ a with position := index + 1 } :: c', List.Sublist.cons₂ _ hsub,
      List.Forall₂.cons ⟨rfl, rfl⟩ hrel⟩

/-- Two drivers whose entries compare as equal keep their input order in a
returned standings list. -/
theorem generateStandings_keeps_order (st : State) (standings : List StandingsEntry)
    (h : generateStandings st = .ok standings) (d1 d2 : Driver)
    (hsub : List.Sublist [d1, d2] (championshipDrivers st))
    (hle : compareStandings (entryOf st d1) (entryOf st d2) ≤ 0) :
    ∃ p1 p2,
      List.Sublist
        [{ entryOf st d1 with position := p1 }, { entryOf st d2 with position := p2 }]
        standings ∧ p1 < p2 := by
  have hpair := generateStandings_pairwise st standings h
  obtain ⟨entries, hm, rfl⟩ := generateStandings_shape st standings h
  have hmap := mapDrivers_eq_map st _ entries hm
  have h1 : List.Sublist [entryOf st d1, entryOf st d2] entries := by
    rw [hmap]
    exact hsub.map (entryOf st)
  have h2 : List.Sublist [entryOf st d1, entryOf st d2] (sortWith compareStandings entries) :=
    List.pair_sublist_insertionSort hle h1
  obtain ⟨c', hc', hrel⟩ := setPositionsFrom_sublist _ _ h2 0
  cases hrel with
  | cons ha hrest =>
    cases hrest with
    | cons hb hnil =>
      cases hnil
      rename_i a' b'
      have hlt : a'.position < b'.position := by
        have := hpair.sublist hc'
        rw [List.pairwise_pair] at this
        exact this.2
      refine ⟨a'.position, b'.position, ?_, hlt⟩
      have ea : ({ entryOf st d1 with position := a'.position } : StandingsEntry) = a' := by
        cases a'
        simp only [StandingsEntry.mk.injEq] at ha ⊢
        exact ⟨ha.1.symm, ha.2.symm, trivial⟩
      have eb : ({ entryOf st d2 with position := b'.position } : StandingsEntry) = b' := by
        cases b'
        simp only [StandingsEntry.mk.injEq] at hb ⊢
        exact ⟨hb.1.symm, hb.2.symm, trivial⟩
      rw [ea, eb]
      exact hc'

/-- C11: two drivers whose `totalPoints`, wins, podiums and `averagePosition`
are all equal keep, in the list returned by `generateStandings`, the relative
order they have in the championship's driver list, and the earlier one gets
the smaller position.  The list is returned whenever every race has a
complete points system. -/
theorem generateStandings_stable (st : State) :
    (∀ standings, generateStandings st = .ok standings →
      ∀ (d1 d2 : Driver) (s1 s2 : DriverStats),
        List.Sublist [d1, d2] (championshipDrivers st) →
        calculateDriverStats st d1.id = .ok s1 → calculateDriverStats st d2.id = .ok s2 →
        s1.totalPoints = s2.totalPoints → s1.wins = s2.wins → s1.podiums = s2.podiums →
        s1.averagePosition = s2.averagePosition →
        ∃ p1 p2,
          List.Sublist
            [{ driver := d1, stats := s1, position := p1 },
             { driver := d2, stats := s2, position := p2 }] standings ∧ p1 < p2) ∧
    (pointsSystemsComplete st = true → ∃ standings, generateStandings st = .ok standings) := by
  refine ⟨fun standings h d1 d2 s1 s2 hsub hs1 hs2 htp hw hp ha => ?_,
    generateStandings_returns st⟩
  have e1 : entryOf st d1 = { driver := d1, stats := s1, position := 0 } := by
    simp [entryOf, hs1]
  have e2 : entryOf st d2 = { driver := d2, stats := s2, position := 0 } := by
    simp [entryOf, hs2]
  have hle : compareStandings (entryOf st d1) (entryOf st d2) ≤ 0 := by
    rw [e1, e2]
    simp [compareStandings, htp, hw, hp, ha]
  obtain ⟨p1, p2, hsub2, hlt⟩ := generateStandings_keeps_order st standings h d1 d2 hsub hle
  rw [e1, e2] at hsub2
  exact ⟨p1, p2, hsub2, hlt⟩

/-! ## Fastest-lap bonus -/

theorem specFastestLapComponent_eq (flag : Bool) (pos : JsVal) (bonus : Int) :
    specFastestLapComponent flag pos bonus =
      if fastestLapAwarded flag pos = true then bonus else 0 := by
  unfold specFastestLapComponent fastestLapAwarded
  cases flag <;> cases numericPosition pos <;> simp

theorem specFastestLapComponent_unflagged (pos : JsVal) (bonus : Int) :
    specFastestLapComponent false pos bonus = 0 := by
  rw [specFastestLapComponent_eq]
  simp [fastestLapAwarded]

/-- C12: `calculateRacePoints` awards the fastest-lap bonus of a segment if and
only if the segment's flag is set and its finishing position is numeric and at
most `10`: the points are those of the same result without flags, plus the
bonus for each segment that meets the condition.  The condition fails for an
absent position, for the status tokens and for a position above `10`; it holds
for a flagged position at most `10` that lies beyond the end of the points
array, where the position itself scores nothing. -/
theorem fastestLap_bonus_iff :
    (∀ (result : RaceResult) (feature sprint : List Int) (pole fastestLap : Option Int),
      ∃ base,
        calculateRacePoints { result with sprintFL := false, featureFL := false }
            (some { feature := some feature, sprint := some sprint, pole := pole,
                    fastestLap := fastestLap }) = .ok base ∧
        calculateRacePoints result
            (some { feature := some feature, sprint := some sprint, pole := pole,
                    fastestLap := fastestLap }) =
          .ok (base
            + (if fastestLapAwarded result.sprintFL result.sprint = true then
                fastestLap.getD 0 else 0)
            + (if fastestLapAwarded result.featureFL result.feature = true then
                fastestLap.getD 0 else 0))) ∧
    (∀ flag, fastestLapAwarded flag JsVal.absent = false ∧
      fastestLapAwarded flag (JsVal.str "DNF") = false ∧
      fastestLapAwarded flag (JsVal.str "DSQ") = false ∧
      fastestLapAwarded flag (JsVal.str "DNS") = false) ∧
    (∀ flag pos p, numericPosition pos = some p → 10 < p →
      fastestLapAwarded flag pos = false) ∧
    (∀ pos p (arr : List Int), numericPosition pos = some p → p ≤ 10 →
      (arr.length : Int) < p →
      fastestLapAwarded true pos = true ∧ specPositionComponent pos arr = 0) := by
  refine ⟨fun result feature sprint pole fastestLap => ?_, fun flag => ?_,
    fun flag pos p hp hlt => ?_, fun pos p arr hp hle hlen => ?_⟩
  · refine ⟨_, calculateRacePoints_complete _ _ sprint feature rfl rfl, ?_⟩
    rw [calculateRacePoints_complete result _ sprint feature rfl rfl]
    have hf : ∀ pos, fastestLapAwarded false pos = false := fun _ => rfl
    simp only [specFastestLapComponent_eq, hf, specPoleComponent, Bool.false_eq_true, if_false]
    apply congrArg Except.ok
    split_ifs <;> omega
  · cases flag <;> decide
  · have hn : ¬ p ≤ 10 := by omega
    cases flag <;> simp [fastestLapAwarded, hp, hn]
  · have hn : ¬ p ≤ (arr.length : Int) := by omega
    simp [fastestLapAwarded, specPositionComponent, hp, hle, hn]

/-! ## Sign of the points -/

theorem getD_nonneg (arr : List Int) (h : ∀ x ∈ arr, 0 ≤ x) (i : Nat) : 0 ≤ arr.getD i 0 := by
  induction arr generalizing i with
  | nil => simp
  | cons x rest ih =>
    cases i with
    | zero => simpa using h x (List.mem_cons_self _ _)
    | succ i => simpa using ih (fun y hy => h y (List.mem_cons_of_mem _ hy)) i

theorem specPositionComponent_nonneg (pos : JsVal) (arr : List Int) (h : ∀ x ∈ arr, 0 ≤ x) :
    0 ≤ specPositionComponent pos arr := by
  unfold specPositionComponent
  split
  · split
    · exact getD_nonneg arr h _
    · exact Int.le_refl 0
  · exact Int.le_refl 0

theorem specFastestLapComponent_nonneg (flag : Bool) (pos : JsVal) (bonus : Int)
    (h : 0 ≤ bonus) : 0 ≤ specFastestLapComponent flag pos bonus := by
  rw [specFastestLapComponent_eq]
  split <;> omega

theorem specPoleComponent_nonneg (result : RaceResult) (bonus : Int) (h : 0 ≤ bonus) :
    0 ≤ specPoleComponent result bonus := by
  unfold specPoleComponent
  split <;> omega

/-- C13 (as the code behaves): for a points system whose array entries and
bonuses are not negative, the value returned by `calculateRacePoints` is not
negative. -/
theorem calculateRacePoints_nonneg (result : RaceResult) (feature sprint : List Int)
    (pole fastestLap : Option Int) (hf : ∀ x ∈ feature, 0 ≤ x) (hs : ∀ x ∈ sprint, 0 ≤ x)
    (hp : 0 ≤ pole.getD 0) (hl : 0 ≤ fastestLap.getD 0) :
    ∃ v, calculateRacePoints result
        (some { feature := some feature, sprint := some sprint, pole := pole,
                fastestLap := fastestLap }) = .ok v ∧ 0 ≤ v := by
  refine ⟨_, calculateRacePoints_complete result _ sprint feature rfl rfl, ?_⟩
  have h1 := specPoleComponent_nonneg result _ hp
  have h2 := specPositionComponent_nonneg result.sprint sprint hs
  have h3 := specFastestLapComponent_nonneg result.sprintFL result.sprint _ hl
  have h4 := specPositionComponent_nonneg result.feature feature hf
  have h5 := specFastestLapComponent_nonneg result.featureFL result.feature _ hl
  simp only at h1 h3 h5 ⊢
  omega

/-- C13 as stated fails: with a feature table that deducts a point for fourth
place, a driver finishing fourth gets `-1`. -/
theorem calculateRacePoints_negative_counterexample :
    calculateRacePoints (plainResult (JsVal.num 7) (JsVal.num 4))
        (some { feature := some [3, 1, 0, -1], sprint := some [], pole := some 0,
                fastestLap := some 0 }) = .ok (-1) := by
  decide

/-- With the default points system no result scores below zero. -/
theorem calculateRacePoints_nonneg_witness :
    ∃ v, calculateRacePoints (plainResult (JsVal.num 7) (JsVal.num 4))
        (some { feature := some [25, 18, 15, 12, 10, 8, 6, 4, 2, 1],
                sprint := some [15, 12, 10, 8, 6, 4, 2, 1], pole := some 2,
                fastestLap := some 1 }) = .ok v ∧ 0 ≤ v :=
  calculateRacePoints_nonneg (plainResult (JsVal.num 7) (JsVal.num 4))
    [25, 18, 15, 12, 10, 8, 6, 4, 2, 1] [15, 12, 10, 8, 6, 4, 2, 1] (some 2) (some 1)
    (by decide) (by decide) (by decide) (by decide)

/-! ## Missing points systems -/

theorem addPole_none (result : RaceResult) (points : Int) :
    addPole result none points =
      if result.qualifying = JsVal.num 1 then .error JsError.typeError else .ok points := by
  unfold addPole poleBonus
  split <;> rfl

theorem addPositionPoints_missing (pos : JsVal) (arr : PointsSystem → Option (List Int))
    (pointsSystem : Option PointsSystem)
    (h : ∀ ps, pointsSystem = some ps → arr ps = none) (points : Int) :
    addPositionPoints pos arr pointsSystem points =
      if positivePosition pos = true then .error JsError.typeError else .ok points := by
  unfold addPositionPoints positivePosition numericPosition
  cases ht : truthy pos with
  | false => simp
  | true =>
    cases hp : parseInt pos with
    | none => simp
    | some p =>
      by_cases h0 : 0 < p
      · cases hps : pointsSystem with
        | none => simp [h0]
        | some ps => simp [h0, h ps hps]
      · simp [h0]

theorem addFastestLap_none (flag : Bool) (pos : JsVal) (points : Int) :
    addFastestLap flag pos none points =
      if fastestLapAwarded flag pos = true then .error JsError.typeError else .ok points := by
  unfold addFastestLap fastestLapAwarded numericPosition parseIntLe10 fastestLapBonus
  cases flag <;> cases ht : truthy pos <;> cases hp : parseInt pos <;> simp

/-- Without a points system the call raises exactly when the result makes it
read one, and returns `0` otherwise. -/
theorem calculateRacePoints_none (result : RaceResult) :
    calculateRacePoints result none =
      if readsPointsSystem result = true then .error JsError.typeError else .ok 0 := by
  unfold calculateRacePoints readsPointsSystem
  rw [addPole_none]
  by_cases hq : result.qualifying = JsVal.num 1
  · simp [hq, bind, Except.bind]
  · simp only [hq, if_false, bind, Except.bind]
    rw [addPositionPoints_missing _ _ none (fun ps h => by cases h)]
    cases h1 : positivePosition result.sprint
    · simp only [Bool.false_eq_true, if_false]
      rw [addFastestLap_none]
      cases h2 : fastestLapAwarded result.sprintFL result.sprint
      · simp only [Bool.false_eq_true, if_false]
        rw [addPositionPoints_missing _ _ none (fun ps h => by cases h)]
        cases h3 : positivePosition result.feature
        · simp only [Bool.false_eq_true, if_false]
          rw [addFastestLap_none]
          simp
        · simp
      · simp
    · simp

/-- A numeric position of at least `1` in a segment whose array is missing
makes the call raise. -/
theorem calculateRacePoints_missing_array (result : RaceResult) (ps : PointsSystem)
    (h : (ps.sprint = none ∧ positivePosition result.sprint = true) ∨
      (ps.feature = none ∧ positivePosition result.feature = true)) :
    calculateRacePoints result (some ps) = .error JsError.typeError := by
  unfold calculateRacePoints
  rw [addPole_eq]
  simp only [bind, Except.bind]
  cases hs : ps.sprint with
  | none =>
    rw [addPositionPoints_missing _ _ (some ps) (fun ps' h' => by cases h'; exact hs)]
    cases h1 : positivePosition result.sprint with
    | true => simp
    | false =>
      simp only [Bool.false_eq_true, if_false]
      rw [addFastestLap_eq]
      simp only []
      have hf : ps.feature = none ∧ positivePosition result.feature = true := by
        rcases h with h | h
        · rw [h1] at h
          exact absurd h.2 (by simp)
        · exact h
      rw [addPositionPoints_missing _ _ (some ps) (fun ps' h' => by cases h'; exact hf.1)]
      simp [hf.2]
  | some sprint =>
    have hf : ps.feature = none ∧ positivePosition result.feature = true := by
      rcases h with h | h
      · rw [hs] at h
        exact absurd h.1 (by simp)
      · exact h
    rw [addPositionPoints_eq _ _ _ sprint hs]
    simp only []
    rw [addFastestLap_eq]
    simp only []
    rw [addPositionPoints_missing _ _ (some ps) (fun ps' h' => by cases h'; exact hf.1)]
    simp [hf.2]

/-- C14 (as the code behaves): `calculateRacePoints` raises no error for a points
system that is present and has its sprint and feature arrays: it returns a
number, where a missing pole or fastest-lap bonus, a position that is not
numeric and an array shorter than the finishing position contribute zero.
Without a points system it raises as soon as the result makes it read one,
and with a missing array it raises for a numeric position of at least `1` in
that segment. -/
theorem calculateRacePoints_raises_only_when_missing :
    (∀ (result : RaceResult) (feature sprint : List Int) (pole fastestLap : Option Int),
      ∃ v, calculateRacePoints result
        (some { feature := some feature, sprint := some sprint, pole := pole,
                fastestLap := fastestLap }) = .ok v) ∧
    (∀ (result : RaceResult) (feature sprint : List Int),
      calculateRacePoints result
          (some { feature := some feature, sprint := some sprint, pole := none,
                  fastestLap := none }) =
        .ok (specPositionComponent result.sprint sprint +
          specPositionComponent result.feature feature)) ∧
    (∀ pos (arr : List Int), numericPosition pos = none → specPositionComponent pos arr = 0) ∧
    (∀ pos p (arr : List Int), numericPosition pos = some p → (arr.length : Int) < p →
      specPositionComponent pos arr = 0) ∧
    (∀ result, calculateRacePoints result none =
      if readsPointsSystem result = true then .error JsError.typeError else .ok 0) ∧
    (∀ result ps,
      (ps.sprint = none ∧ positivePosition result.sprint = true) ∨
        (ps.feature = none ∧ positivePosition result.feature = true) →
      calculateRacePoints result (some ps) = .error JsError.typeError) := by
  refine ⟨fun result feature sprint pole fastestLap =>
      ⟨_, calculateRacePoints_complete result _ sprint feature rfl rfl⟩,
    fun result feature sprint => ?_, fun pos arr hn => ?_, fun pos p arr hp hlen => ?_,
    calculateRacePoints_none, calculateRacePoints_missing_array⟩
  · rw [calculateRacePoints_complete result _ sprint feature rfl rfl]
    apply congrArg Except.ok
    simp only [specPoleComponent, specFastestLapComponent_eq, Option.getD_none]
    split_ifs <;> omega
  · simp [specPositionComponent, hn]
  · have hgt : ¬ p ≤ (arr.length : Int) := by omega
    simp [specPositionComponent, hp, hgt]

/-- C14 as stated fails: for the pole sitter and winner of a race without a
points system, and for a driver second in the sprint under a points system
without a sprint array, the call raises a `TypeError`. -/
theorem calculateRacePoints_raises_counterexample :
    calculateRacePoints (plainResult (JsVal.num 1) (JsVal.num 1)) none =
        .error JsError.typeError ∧
    calculateRacePoints
        { qualifying := JsVal.num 3, sprint := JsVal.num 2, feature := JsVal.num 5,
          sprintFL := false, featureFL := false }
        (some { feature := some [25, 18, 15, 12, 10, 8, 6, 4, 2, 1], sprint := none,
                pole := some 2, fastestLap := some 1 }) = .error JsError.typeError := by
  decide

/-- A driver second in the sprint makes the call raise when the sprint array
is missing. -/
theorem calculateRacePoints_raises_only_when_missing_witness :
    calculateRacePoints
        { qualifying := JsVal.num 3, sprint := JsVal.num 2, feature := JsVal.num 5,
          sprintFL := false, featureFL := false }
        (some { feature := some [25, 18, 15], sprint := none, pole := some 2,
                fastestLap := some 1 }) = .error JsError.typeError :=
  calculateRacePoints_raises_only_when_missing.2.2.2.2.2
    { qualifying := JsVal.num 3, sprint := JsVal.num 2, feature := JsVal.num 5,
      sprintFL := false, featureFL := false }
    { feature := some [25, 18, 15], sprint := none, pole := some 2, fastestLap := some 1 }
    (Or.inl ⟨rfl, by decide⟩)

/-! ## Accuracy of the displayed average -/

theorem roundHalfEven_bounds (n d : Nat) (hd : 0 < d) :
    2 * (roundHalfEven n d * d) ≤ 2 * n + d ∧ 2 * n ≤ 2 * (roundHalfEven n d * d) + d := by
  have hdm : d * (n / d) + n % d = n := Nat.div_add_mod n d
  have hlt : n % d < d := Nat.mod_lt n hd
  have hc : n / d * d = d * (n / d) := Nat.mul_comm _ _
  have hs : (n / d + 1) * d = d * (n / d) + d := by rw [Nat.add_mul, hc, Nat.one_mul]
  unfold roundHalfEven
  split_ifs
  · rw [hc]; omega
  · rw [hs]; omega
  · rw [hc]; omega
  · rw [hs]; omega

/-- The exponent chosen for the double makes the scaled fraction at least
`2 ^ 52`. -/
theorem doubleExponent_normalised (p q : Nat) (hp : 0 < p) (hq : 0 < q) :
    2 ^ 52 * (scaledFraction p q (doubleExponent p q)).2 ≤
      (scaledFraction p q (doubleExponent p q)).1 := by
  obtain ⟨hplo, _⟩ := floorLog2_bounds p hp
  obtain ⟨_, hqhi⟩ := floorLog2_bounds q hq
  unfold doubleExponent
  simp only []
  split
  · rename_i hcond
    generalize hlp : floorLog2 p = lp at *
    generalize hlq : floorLog2 q = lq at *
    by_cases h1 : (0 : Int) ≤ (lp : Int) - (lq : Int) - 52 - 1
    · -- the exponent stays non-negative
      simp only [scaledFraction, h1, if_true]
      have hexp : 52 + (lq + 1 + ((lp : Int) - (lq : Int) - 52 - 1).toNat) = lp := by omega
      calc 2 ^ 52 * (q * 2 ^ ((lp : Int) - (lq : Int) - 52 - 1).toNat)
          ≤ 2 ^ 52 * (2 ^ (lq + 1) * 2 ^ ((lp : Int) - (lq : Int) - 52 - 1).toNat) :=
            Nat.mul_le_mul_left _ (Nat.mul_le_mul_right _ (Nat.le_of_lt hqhi))
        _ = 2 ^ lp := by rw [← pow_add, ← pow_add, hexp]
        _ ≤ p := hplo
    · simp only [scaledFraction, h1, if_false]
      have hexp : lp + (-((lp : Int) - (lq : Int) - 52 - 1)).toNat = 52 + (lq + 1) := by omega
      calc 2 ^ 52 * q ≤ 2 ^ 52 * 2 ^ (lq + 1) := Nat.mul_le_mul_left _ (Nat.le_of_lt hqhi)
        _ = 2 ^ lp * 2 ^ (-((lp : Int) - (lq : Int) - 52 - 1)).toNat := by
            rw [← pow_add, ← pow_add, hexp]
        _ ≤ p * 2 ^ (-((lp : Int) - (lq : Int) - 52 - 1)).toNat :=
            Nat.mul_le_mul_right _ hplo
  · rename_i hcond
    exact Nat.le_of_not_lt hcond

/-- For a quotient `p / q` with `10 * p < 2 ^ 52`, the tenths shown by
`toFixed(1)` for the double quotient are a nearest integer to `10 * p / q`. -/
theorem nearestTenths_divToDouble (p q : Nat) (hp : 0 < p) (hq : 0 < q)
    (hb : 10 * p < 2 ^ 52) :
    2 * (nearestTenths (divToDouble p q).1 (divToDouble p q).2 * q) ≤ 20 * p + q ∧
    20 * p ≤ 2 * (nearestTenths (divToDouble p q).1 (divToDouble p q).2 * q) + q := by
  have hnorm := doubleExponent_normalised p q hp hq
  unfold divToDouble
  simp only []
  generalize doubleExponent p q = e at hnorm
  have hneg : ¬ (0 : Int) ≤ e := by
    intro h0
    simp only [scaledFraction, h0, if_true] at hnorm
    have h1 : 1 ≤ q * 2 ^ e.toNat := Nat.mul_pos hq (by positivity)
    have h2 : 2 ^ 52 * 1 ≤ 2 ^ 52 * (q * 2 ^ e.toNat) := Nat.mul_le_mul_left _ h1
    omega
  simp only [scaledFraction, hneg, if_false] at hnorm ⊢
  simp only [nearestTenths, hneg, if_false]
  generalize hK : 2 ^ (-e).toNat = K at hnorm ⊢
  have hKpos : 0 < K := by rw [← hK]; positivity
  obtain ⟨hr1, hr2⟩ := roundHalfEven_bounds (p * K) q hq
  generalize roundHalfEven (p * K) q = m at hr1 hr2 ⊢
  have h2K : 2 ^ ((-e).toNat + 1) = 2 * K := by rw [pow_succ, hK, Nat.mul_comm]
  rw [h2K]
  -- the spacing of doubles is finer than the spacing of halves of tenths
  have h10 : 10 * q < K := by
    by_contra hcon
    have hle : K ≤ 10 * q := Nat.le_of_not_lt hcon
    have ha : p * K ≤ p * (10 * q) := Nat.mul_le_mul_left _ hle
    have hb2 : 10 * p * q < 2 ^ 52 * q := Nat.mul_lt_mul_of_pos_right hb hq
    have hc : p * (10 * q) = 10 * p * q := by ring
    omega
  have hdiv1 : (20 * m + K) / (2 * K) * (2 * K) ≤ 20 * m + K := Nat.div_mul_le_self _ _
  have hdiv2 : 20 * m + K < ((20 * m + K) / (2 * K) + 1) * (2 * K) := by
    have := Nat.div_add_mod (20 * m + K) (2 * K)
    have hm := Nat.mod_lt (20 * m + K) (show 0 < 2 * K by omega)
    rw [Nat.add_mul, Nat.one_mul, Nat.mul_comm ((20 * m + K) / (2 * K)) (2 * K)]
    omega
  generalize (20 * m + K) / (2 * K) = n at hdiv1 hdiv2 ⊢
  constructor
  · by_contra hcon
    have hgt : 20 * p + q + 1 ≤ 2 * (n * q) := by omega
    have e1 : (20 * p + q + 1) * K ≤ 2 * (n * q) * K := Nat.mul_le_mul_right _ hgt
    have e2 : n * (2 * K) * q ≤ (20 * m + K) * q := Nat.mul_le_mul_right _ hdiv1
    have e3 : (20 * p + q + 1) * K = 20 * (p * K) + q * K + K := by ring
    have e4 : 2 * (n * q) * K = n * (2 * K) * q := by ring
    have e5 : (20 * m + K) * q = 20 * (m * q) + q * K := by ring
    omega
  · by_contra hcon
    have hgt : 2 * (n * q) + q + 1 ≤ 20 * p := by omega
    have e1 : (2 * (n * q) + q + 1) * K ≤ 20 * p * K := Nat.mul_le_mul_right _ hgt
    have e2 : (20 * m + K) * q < (n + 1) * (2 * K) * q := Nat.mul_lt_mul_of_pos_right hdiv2 hq
    have e3 : (2 * (n * q) + q + 1) * K = 2 * (n * q * K) + q * K + K := by ring
    have e4 : (n + 1) * (2 * K) * q = 2 * (n * q * K) + 2 * (q * K) := by ring
    have e5 : (20 * m + K) * q = 20 * (m * q) + q * K := by ring
    have e6 : 20 * p * K = 20 * (p * K) := by ring
    omega

/-- The value shown for an average is within one twentieth of the exact
quotient: `|tenths / 10 - total / count| ≤ 1 / 20`. -/
theorem toFixed1_nearest (totalPositions : Int) (finishedRaces : Nat)
    (hf : 0 < finishedRaces) (hb : 10 * totalPositions.natAbs < 2 ^ 52) :
    2 * (parseFloatTenths (toFixed1 totalPositions finishedRaces) * finishedRaces) ≤
        20 * totalPositions + finishedRaces ∧
    20 * totalPositions ≤
        2 * (parseFloatTenths (toFixed1 totalPositions finishedRaces) * finishedRaces) +
          finishedRaces := by
  unfold toFixed1
  by_cases h0 : totalPositions = 0
  · simp [h0, parseFloatTenths]
  · simp only [h0, if_false]
    obtain ⟨h1, h2⟩ := nearestTenths_divToDouble totalPositions.natAbs finishedRaces
      (by omega) hf hb
    generalize nearestTenths (divToDouble totalPositions.natAbs finishedRaces).1
      (divToDouble totalPositions.natAbs finishedRaces).2 = n at h1 h2
    have c1 : ((n * finishedRaces : Nat) : Int) = (n : Int) * (finishedRaces : Int) := by
      push_cast; rfl
    by_cases hneg : totalPositions < 0
    · simp only [hneg, decide_True, parseFloatTenths, if_true]
      have hn : (totalPositions.natAbs : Int) = -totalPositions := by omega
      have e1 : -(n : Int) * (finishedRaces : Int) = -((n : Int) * (finishedRaces : Int)) := by
        ring
      rw [e1]
      omega
    · simp only [hneg, decide_False, parseFloatTenths, Bool.false_eq_true, if_false]
      have hn : (totalPositions.natAbs : Int) = totalPositions := by omega
      omega

/-- C15 (as the code behaves): for a driver with at least one numeric feature
finish, `averagePosition` is the string `toFixed(1)` gives for the double
quotient of the sum of the numeric feature finishes by their number; for sums
of magnitude below `2 ^ 52 / 10` its value is a tenth nearest to the exact
quotient, `|averagePosition - sum / count| ≤ 1 / 20`.  The call returns
whenever each `calculateRacePoints` call returns. -/
theorem averagePosition_nearest_tenth (st : State) (driverId : String)
    (hne : numericFeatureFinishes st driverId ≠ [])
    (hb : 10 * (numericFeatureFinishes st driverId).sum.natAbs < 2 ^ 52)
    (hret : ∀ p ∈ racesWithResult st driverId,
      returned (calculateRacePoints p.2 p.1.pointsSystem) = true) :
    ∃ stats, calculateDriverStats st driverId = .ok stats ∧
      stats.averagePosition =
        toFixed1 (numericFeatureFinishes st driverId).sum
          (numericFeatureFinishes st driverId).length ∧
      2 * (parseFloatTenths stats.averagePosition *
          ((numericFeatureFinishes st driverId).length : Int)) ≤
        20 * (numericFeatureFinishes st driverId).sum +
          ((numericFeatureFinishes st driverId).length : Int) ∧
      20 * (numericFeatureFinishes st driverId).sum ≤
        2 * (parseFloatTenths stats.averagePosition *
            ((numericFeatureFinishes st driverId).length : Int)) +
          ((numericFeatureFinishes st driverId).length : Int) := by
  obtain ⟨stats, hs⟩ := calculateDriverStats_returns_of_calls st driverId hret
  have havg := calculateDriverStats_averagePosition st driverId stats hs
  simp only [hne, if_false] at havg
  refine ⟨stats, hs, havg, ?_⟩
  rw [havg]
  exact toFixed1_nearest _ _ (List.length_pos.mpr hne) hb

/-- C15 as stated fails: Ana's finishes sum to `29` in `20` races, `1.45`
exactly, which rounds to `1.5`, and her `averagePosition` is `1.4`; Bo's sum
to `5` in `4` races, `1.25` exactly, and his `averagePosition` is `1.3`: one
half goes down and the other up. -/
theorem averagePosition_rounding_counterexample :
    (numericFeatureFinishes seasonState "d1").sum = 29 ∧
    (numericFeatureFinishes seasonState "d1").length = 20 ∧
    specRoundedTenths 29 20 = 15 ∧
    Except.map DriverStats.averagePosition (calculateDriverStats seasonState "d1") =
      .ok (AvgPos.fixed false 14) ∧
    (numericFeatureFinishes seasonState "d2").sum = 5 ∧
    (numericFeatureFinishes seasonState "d2").length = 4 ∧
    Except.map DriverStats.averagePosition (calculateDriverStats seasonState "d2") =
      .ok (AvgPos.fixed false 13) := by
  decide

/-- Ana's average over the season is shown within one twentieth of `29 / 20`. -/
theorem averagePosition_nearest_tenth_witness :
    ∃ stats, calculateDriverStats seasonState "d1" = .ok stats ∧
      stats.averagePosition =
        toFixed1 (numericFeatureFinishes seasonState "d1").sum
          (numericFeatureFinishes seasonState "d1").length ∧
      2 * (parseFloatTenths stats.averagePosition *
          ((numericFeatureFinishes seasonState "d1").length : Int)) ≤
        20 * (numericFeatureFinishes seasonState "d1").sum +
          ((numericFeatureFinishes seasonState "d1").length : Int) ∧
      20 * (numericFeatureFinishes seasonState "d1").sum ≤
        2 * (parseFloatTenths stats.averagePosition *
            ((numericFeatureFinishes seasonState "d1").length : Int)) +
          ((numericFeatureFinishes seasonState "d1").length : Int) :=
  averagePosition_nearest_tenth seasonState "d1" (by decide) (by decide) (by decide)

/-! ## Counters of one driver -/

theorem isStatusToken_not_numeric (v : JsVal) (h : isStatusToken v = true) :
    truthy v = true ∧ parseInt v = none := by
  unfold isStatusToken at h
  simp only [Bool.or_eq_true, beq_iff_eq] at h
  rcases h with (h | h) | h <;> subst h <;> decide

/-- The effect of the feature block on the counters, in terms of the numeric
position. -/
theorem featureStats_counters (feature : JsVal) (acc : StatsAcc) :
    (featureStats feature acc).stats.wins =
        acc.stats.wins + (if numericPosition feature = some 1 then 1 else 0) ∧
    (featureStats feature acc).stats.podiums =
        acc.stats.podiums +
          (match numericPosition feature with
            | some p => if p ≤ 3 then 1 else 0
            | none => 0) ∧
    (featureStats feature acc).stats.dnfs =
        acc.stats.dnfs + (if isStatusToken feature = true then 1 else 0) ∧
    (featureStats feature acc).stats.poles = acc.stats.poles ∧
    (featureStats feature acc).stats.fastestLaps = acc.stats.fastestLaps ∧
    (featureStats feature acc).stats.raceResults = acc.stats.raceResults ∧
    (featureStats feature acc).stats.totalPoints = acc.stats.totalPoints := by
  unfold featureStats numericPosition
  cases ht : truthy feature with
  | false =>
    have hs : isStatusToken feature = false := by
      cases hst : isStatusToken feature with
      | false => rfl
      | true => rw [(isStatusToken_not_numeric feature hst).1] at ht; cases ht
    simp [hs]
  | true =>
    cases hp : parseInt feature with
    | none =>
      cases hst : isStatusToken feature <;> simp
    | some position =>
      have hs : isStatusToken feature = false := by
        cases hst : isStatusToken feature with
        | false => rfl
        | true => rw [(isStatusToken_not_numeric feature hst).2] at hp; cases hp
      simp only [if_true, hs, Bool.false_eq_true, if_false, Nat.add_zero, Option.some.injEq]
      refine ⟨?_, ?_, ?_⟩
      · split <;> rfl
      · split <;> rfl
      · simp

theorem recordRace_counters (race : Race) (r : RaceResult) (racePoints : Int)
    (acc : StatsAcc) :
    (recordRace race r racePoints acc).stats.wins =
        acc.stats.wins + (if isWin r = true then 1 else 0) ∧
    (recordRace race r racePoints acc).stats.podiums =
        acc.stats.podiums + (if isPodium r = true then 1 else 0) ∧
    (recordRace race r racePoints acc).stats.dnfs =
        acc.stats.dnfs + (if isRetirement r = true then 1 else 0) ∧
    (recordRace race r racePoints acc).stats.poles =
        acc.stats.poles + (if r.qualifying = JsVal.num 1 then 1 else 0) ∧
    (recordRace race r racePoints acc).stats.fastestLaps =
        acc.stats.fastestLaps + (if hasFastestLap r = true then 1 else 0) := by
  obtain ⟨h1, h2, h3, h4, h5, _, _⟩ := featureStats_counters r.feature
    { acc with stats := { acc.stats with totalPoints := acc.stats.totalPoints + racePoints } }
  unfold recordRace isWin isPodium isRetirement hasFastestLap
  simp only [] at h1 h2 h3 h4 h5 ⊢
  refine ⟨?_, ?_, ?_, ?_, ?_⟩
  · rw [h1]; simp
  · rw [h2]
    cases numericPosition r.feature <;> simp
  · rw [h3]
  · rw [h4]; split <;> rfl
  · rw [h5]; split <;> rfl

/-- A counter that every recorded race raises by one when the result meets
`P` ends at its initial value plus the number of such results. -/
theorem recordAll_count (field : DriverStats → Nat) (P : RaceResult → Bool)
    (hstep : ∀ race r racePoints acc,
      field (recordRace race r racePoints acc).stats =
        field acc.stats + (if P r = true then 1 else 0))
    (records : List (Race × RaceResult × Int)) (acc : StatsAcc) :
    field (recordAll records acc).stats =
      field acc.stats + records.countP (fun t => P t.2.1) := by
  induction records generalizing acc with
  | nil => simp [recordAll]
  | cons t rest ih =>
    have h := ih (recordRace t.1 t.2.1 t.2.2 acc)
    simp only [recordAll, List.foldl_cons] at h ⊢
    rw [h, hstep, List.countP_cons]
    omega

theorem raceRecords_countP (st : State) (driverId : String)
    (records : List (Race × RaceResult × Int))
    (h : raceRecords st.results driverId st.races = .ok records) (P : RaceResult → Bool) :
    records.countP (fun t => P t.2.1) = (racesWithResult st driverId).countP (fun p => P p.2) := by
  unfold racesWithResult
  rw [← raceRecords_pairs _ _ _ _ h, List.countP_map]
  rfl

theorem finishStats_counters (acc : StatsAcc) :
    (finishStats acc).wins = acc.stats.wins ∧ (finishStats acc).podiums = acc.stats.podiums ∧
    (finishStats acc).dnfs = acc.stats.dnfs ∧ (finishStats acc).poles = acc.stats.poles ∧
    (finishStats acc).fastestLaps = acc.stats.fastestLaps ∧
    (finishStats acc).bestFinish = acc.stats.bestFinish ∧
    (finishStats acc).worstFinish = acc.stats.worstFinish ∧
    (finishStats acc).raceResults = acc.stats.raceResults := by
  unfold finishStats
  split <;> exact ⟨rfl, rfl, rfl, rfl, rfl, rfl, rfl, rfl⟩

/-- The counters of returned stats count the results of the driver that meet
the condition of each counter. -/
theorem calculateDriverStats_counters (st : State) (driverId : String) (stats : DriverStats)
    (h : calculateDriverStats st driverId = .ok stats) :
    stats.wins = (racesWithResult st driverId).countP (fun p => isWin p.2) ∧
    stats.podiums = (racesWithResult st driverId).countP (fun p => isPodium p.2) ∧
    stats.dnfs = (racesWithResult st driverId).countP (fun p => isRetirement p.2) ∧
    stats.poles =
      (racesWithResult st driverId).countP (fun p => decide (p.2.qualifying = JsVal.num 1)) ∧
    stats.fastestLaps = (racesWithResult st driverId).countP (fun p => hasFastestLap p.2) := by
  rw [calculateDriverStats_eq] at h
  cases hr : raceRecords st.results driverId st.races with
  | error e => simp [hr] at h
  | ok records =>
    simp only [hr, Except.ok.injEq] at h
    subst h
    obtain ⟨f1, f2, f3, f4, f5, _, _, _⟩ := finishStats_counters (recordAll records initialAcc)
    rw [f1, f2, f3, f4, f5]
    refine ⟨?_, ?_, ?_, ?_, ?_⟩
    · rw [recordAll_count (fun s => s.wins) isWin
        (fun race r pts acc => (recordRace_counters race r pts acc).1),
        raceRecords_countP st driverId records hr]
      simp [initialAcc]
    · rw [recordAll_count (fun s => s.podiums) isPodium
        (fun race r pts acc => (recordRace_counters race r pts acc).2.1),
        raceRecords_countP st driverId records hr]
      simp [initialAcc]
    · rw [recordAll_count (fun s => s.dnfs) isRetirement
        (fun race r pts acc => (recordRace_counters race r pts acc).2.2.1),
        raceRecords_countP st driverId records hr]
      simp [initialAcc]
    · rw [recordAll_count (fun s => s.poles) (fun r => decide (r.qualifying = JsVal.num 1))
        (fun race r pts acc => by
          simpa using (recordRace_counters race r pts acc).2.2.2.1),
        raceRecords_countP st driverId records hr
          (fun r => decide (r.qualifying = JsVal.num 1))]
      simp [initialAcc]
    · rw [recordAll_count (fun s => s.fastestLaps) hasFastestLap
        (fun race r pts acc => (recordRace_counters race r pts acc).2.2.2.2),
        raceRecords_countP st driverId records hr]
      simp [initialAcc]

theorem addPositionPoints_not_numeric (pos : JsVal) (arr : PointsSystem → Option (List Int))
    (pointsSystem : Option PointsSystem) (points : Int) (h : numericPosition pos = none) :
    addPositionPoints pos arr pointsSystem points = .ok points := by
  unfold numericPosition at h
  unfold addPositionPoints
  cases ht : truthy pos with
  | false => simp
  | true =>
    rw [ht] at h
    simp only [if_true] at h
    simp [h]

theorem addFastestLap_not_numeric (flag : Bool) (pos : JsVal)
    (pointsSystem : Option PointsSystem) (points : Int) (h : numericPosition pos = none) :
    addFastestLap flag pos pointsSystem points = .ok points := by
  unfold numericPosition at h
  unfold addFastestLap parseIntLe10
  cases ht : truthy pos with
  | false => simp
  | true =>
    rw [ht] at h
    simp only [if_true] at h
    simp [h]

/-- A feature value that is not numeric scores like an absent one. -/
theorem calculateRacePoints_feature_not_numeric (r : RaceResult)
    (pointsSystem : Option PointsSystem) (h : numericPosition r.feature = none) :
    calculateRacePoints r pointsSystem =
      calculateRacePoints { r with feature := JsVal.absent } pointsSystem := by
  have ha : numericPosition JsVal.absent = none := rfl
  unfold calculateRacePoints
  simp only [addPositionPoints_not_numeric r.feature _ _ _ h,
    addFastestLap_not_numeric _ r.feature _ _ h,
    addPositionPoints_not_numeric JsVal.absent _ _ _ ha,
    addFastestLap_not_numeric _ JsVal.absent _ _ ha]
  rfl

theorem featureStats_ignored (v : JsVal) (acc : StatsAcc) (hn : numericPosition v = none)
    (hs : isStatusToken v = false) : featureStats v acc = acc := by
  unfold numericPosition at hn
  unfold featureStats
  cases ht : truthy v with
  | false => simp
  | true =>
    rw [ht] at hn
    simp only [if_true] at hn
    simp [hn, hs]

/-- C16 as stated fails: the feature values `1st` and `2 DNF` are text, neither
numbers nor status tokens, yet they are not treated as absent: `parseInt`
reads the leading number, so Ana scores the 25 points of a win, with a win, a
podium and the average position `1.0`, and Bo scores 18 points with a podium,
the average position `2.0` and no DNF. -/
theorem dnfs_text_counterexample :
    isStatusToken (JsVal.str "1st") = false ∧ isStatusToken (JsVal.str "2 DNF") = false ∧
    (calculateDriverStats
        (raceState [("d1", plainResult JsVal.absent (JsVal.str "1st")),
                    ("d2", plainResult JsVal.absent (JsVal.str "2 DNF"))]) "d1").map
      (fun s : DriverStats => (s.totalPoints, s.wins, s.podiums, s.dnfs, s.averagePosition)) =
      .ok (25, 1, 1, 0, AvgPos.fixed false 10) ∧
    (calculateDriverStats
        (raceState [("d1", plainResult JsVal.absent (JsVal.str "1st")),
                    ("d2", plainResult JsVal.absent (JsVal.str "2 DNF"))]) "d2").map
      (fun s : DriverStats => (s.totalPoints, s.wins, s.podiums, s.dnfs, s.averagePosition)) =
      .ok (18, 0, 1, 0, AvgPos.fixed false 20) ∧
    (calculateDriverStats
        (raceState [("d1", plainResult JsVal.absent JsVal.absent)]) "d1").map
      (fun s : DriverStats => (s.totalPoints, s.wins, s.podiums, s.dnfs, s.averagePosition)) =
      .ok (0, 0, 0, 0, AvgPos.zero) := by
  exact ⟨by decide, by decide, by decide, by decide, by decide⟩

/-- C16 (amended): `dnfs` is the number of the driver's results whose feature
position is one of the status tokens `DNF`, `DSQ`, `DNS`; a feature value that
is not such a token and from which `parseInt` reads no number (the empty
string, text without a leading number) is treated as absent: the result
scores what it scores with an absent feature position, and the feature block
changes neither the sum and count behind `averagePosition` nor `dnfs`.  A
value from which `parseInt` reads a number, such as the text `1st` or
`2 DNF`, is no status token and counts as a finish in that position.  A
result with feature `DNF`, qualifying `5` and no sprint position earns `0`
points, adds `1` to `dnfs` and leaves the count of finishes as it is.  The
call returns whenever each `calculateRacePoints` call returns. -/
theorem dnfs_count_status_tokens (st : State) (driverId : String) :
    (∀ stats, calculateDriverStats st driverId = .ok stats →
      stats.dnfs = (racesWithResult st driverId).countP (fun p => isRetirement p.2)) ∧
    (∀ r : RaceResult, isRetirement r = true ↔
      r.feature = JsVal.str "DNF" ∨ r.feature = JsVal.str "DSQ" ∨
        r.feature = JsVal.str "DNS") ∧
    (∀ v, numericPosition v = none → isStatusToken v = false →
      (∀ acc, featureStats v acc = acc) ∧
      (∀ (r : RaceResult) pointsSystem, r.feature = v →
        calculateRacePoints r pointsSystem =
          calculateRacePoints { r with feature := JsVal.absent } pointsSystem)) ∧
    (numericPosition (JsVal.str "") = none ∧ isStatusToken (JsVal.str "") = false ∧
      numericPosition (JsVal.str "retired") = none ∧
      isStatusToken (JsVal.str "retired") = false) ∧
    (∀ v position, numericPosition v = some position →
      isStatusToken v = false ∧
      ∀ acc, (featureStats v acc).finishedRaces = acc.finishedRaces + 1 ∧
        (featureStats v acc).totalPositions = acc.totalPositions + position ∧
        (featureStats v acc).stats.dnfs = acc.stats.dnfs ∧
        (featureStats v acc).stats.wins =
          acc.stats.wins + (if position = 1 then 1 else 0) ∧
        (featureStats v acc).stats.podiums =
          acc.stats.podiums + (if position ≤ 3 then 1 else 0)) ∧
    (numericPosition (JsVal.str "1st") = some 1 ∧
      numericPosition (JsVal.str "2 DNF") = some 2) ∧
    (∀ (r : RaceResult) (race : Race) (acc : StatsAcc) pointsSystem,
      r.feature = JsVal.str "DNF" → r.qualifying = JsVal.num 5 → r.sprint = JsVal.absent →
      calculateRacePoints r pointsSystem = .ok 0 ∧
      (recordRace race r 0 acc).stats.dnfs = acc.stats.dnfs + 1 ∧
      (recordRace race r 0 acc).finishedRaces = acc.finishedRaces ∧
      (recordRace race r 0 acc).totalPositions = acc.totalPositions) ∧
    ((∀ p ∈ racesWithResult st driverId,
        returned (calculateRacePoints p.2 p.1.pointsSystem) = true) →
      ∃ stats, calculateDriverStats st driverId = .ok stats) := by
  refine ⟨fun stats h => (calculateDriverStats_counters st driverId stats h).2.2.1,
    fun r => ?_, fun v hn hs => ⟨fun acc => featureStats_ignored v acc hn hs,
      fun r ps hv => calculateRacePoints_feature_not_numeric r ps (by rw [hv]; exact hn)⟩,
    by decide, fun v position hv => ?_, by decide, fun r race acc ps hf hq hs => ?_,
    calculateDriverStats_returns_of_calls st driverId⟩
  · simp [isRetirement, isStatusToken, or_assoc]
  · have hs : isStatusToken v = false := by
      cases hst : isStatusToken v with
      | false => rfl
      | true =>
        obtain ⟨ht, hp⟩ := isStatusToken_not_numeric v hst
        unfold numericPosition at hv
        rw [ht, if_pos rfl, hp] at hv
        cases hv
    refine ⟨hs, fun acc => ?_⟩
    obtain ⟨c1, c2, _⟩ := featureStats_counts v acc
    obtain ⟨k1, k2, k3, _⟩ := featureStats_counters v acc
    rw [c1, c2, k1, k2, k3, hv, hs]
    simp
  · have hn : numericPosition r.feature = none := by rw [hf]; decide
    have hst : isRetirement r = true := by simp [isRetirement, isStatusToken, hf]
    have hq1 : r.qualifying ≠ JsVal.num 1 := by rw [hq]; decide
    have ha : numericPosition r.sprint = none := by rw [hs]; rfl
    refine ⟨?_, ?_, ?_, ?_⟩
    · unfold calculateRacePoints
      simp only [addPole, hq1, if_false, bind, Except.bind,
        addPositionPoints_not_numeric r.sprint _ _ _ ha,
        addFastestLap_not_numeric _ r.sprint _ _ ha,
        addPositionPoints_not_numeric r.feature _ _ _ hn,
        addFastestLap_not_numeric _ r.feature _ _ hn]
    · rw [(recordRace_counters race r 0 acc).2.2.1, hst]
      rfl
    · rw [(recordRace_counts race r 0 acc).2.1, hn]
      rfl
    · rw [(recordRace_counts race r 0 acc).1, hn]
      simp

/-- Cy's only result in the sample championship is a retirement, and the
theorem counts it; the text `retired` is ignored by the feature block, and
the text `1st` counts as a finish in first place. -/
theorem dnfs_count_status_tokens_witness :
    (∃ stats, calculateDriverStats sampleState "d3" = .ok stats ∧ stats.dnfs = 1) ∧
    featureStats (JsVal.str "retired") initialAcc = initialAcc ∧
    (featureStats (JsVal.str "1st") initialAcc).finishedRaces = initialAcc.finishedRaces + 1 ∧
    (featureStats (JsVal.str "1st") initialAcc).stats.wins =
      initialAcc.stats.wins + (if (1 : Int) = 1 then 1 else 0) := by
  obtain ⟨stats, h⟩ := (dnfs_count_status_tokens sampleState "d3").2.2.2.2.2.2.2 (by decide)
  refine ⟨⟨stats, h, ?_⟩, ?_, ?_, ?_⟩
  · rw [(dnfs_count_status_tokens sampleState "d3").1 stats h]
    decide
  · exact ((dnfs_count_status_tokens sampleState "d3").2.2.1 (JsVal.str "retired")
      (by decide) (by decide)).1 initialAcc
  · exact (((dnfs_count_status_tokens sampleState "d3").2.2.2.2.1 (JsVal.str "1st") 1
      (by decide)).2 initialAcc).1
  · exact (((dnfs_count_status_tokens sampleState "d3").2.2.2.2.1 (JsVal.str "1st") 1
      (by decide)).2 initialAcc).2.2.2.1

/-- C17: `wins` is the number of the driver's results whose feature position is
numeric and equal to `1`, and `podiums` the number whose feature position is
numeric and at most `3`.  The call returns whenever each `calculateRacePoints`
call returns. -/
theorem wins_podiums_count (st : State) (driverId : String) :
    (∀ stats, calculateDriverStats st driverId = .ok stats →
      stats.wins =
        (racesWithResult st driverId).countP
          (fun p => decide (numericPosition p.2.feature = some 1)) ∧
      stats.podiums =
        (racesWithResult st driverId).countP
          (fun p =>
            match numericPosition p.2.feature with
            | some position => decide (position ≤ 3)
            | none => false)) ∧
    ((∀ p ∈ racesWithResult st driverId,
        returned (calculateRacePoints p.2 p.1.pointsSystem) = true) →
      ∃ stats, calculateDriverStats st driverId = .ok stats) := by
  refine ⟨fun stats h => ?_, calculateDriverStats_returns_of_calls st driverId⟩
  obtain ⟨h1, h2, _⟩ := calculateDriverStats_counters st driverId stats h
  exact ⟨h1, h2⟩

/-- Bo wins both races of the sample championship. -/
theorem wins_podiums_count_witness :
    ∃ stats, calculateDriverStats sampleState "d2" = .ok stats ∧
      stats.wins = 2 ∧ stats.podiums = 2 := by
  obtain ⟨stats, h⟩ := (wins_podiums_count sampleState "d2").2 (by decide)
  obtain ⟨h1, h2⟩ := (wins_podiums_count sampleState "d2").1 stats h
  refine ⟨stats, h, ?_, ?_⟩
  · rw [h1]; decide
  · rw [h2]; decide

/-- C19: `fastestLaps` is the number of the driver's results in which at least
one of the sprint and feature fastest-lap flags is set, a result with both
flags counting once, so it is at most the number of races in which the driver
has a result.  The call returns whenever each `calculateRacePoints` call
returns. -/
theorem fastestLaps_count (st : State) (driverId : String) :
    (∀ stats, calculateDriverStats st driverId = .ok stats →
      stats.fastestLaps =
        (racesWithResult st driverId).countP (fun p => p.2.featureFL || p.2.sprintFL) ∧
      stats.fastestLaps ≤ (racesWithResult st driverId).length) ∧
    (∀ (race : Race) (r : RaceResult) (racePoints : Int) (acc : StatsAcc),
      r.featureFL = true → r.sprintFL = true →
      (recordRace race r racePoints acc).stats.fastestLaps = acc.stats.fastestLaps + 1) ∧
    ((∀ p ∈ racesWithResult st driverId,
        returned (calculateRacePoints p.2 p.1.pointsSystem) = true) →
      ∃ stats, calculateDriverStats st driverId = .ok stats) := by
  refine ⟨fun stats h => ?_, fun race r racePoints acc hf hs => ?_,
    calculateDriverStats_returns_of_calls st driverId⟩
  · have h5 := (calculateDriverStats_counters st driverId stats h).2.2.2.2
    refine ⟨h5, ?_⟩
    rw [h5]
    exact List.countP_le_length _
  · rw [(recordRace_counters race r racePoints acc).2.2.2.2]
    simp [hasFastestLap, hf]

/-- Bo holds both fastest laps of the first race of the sample championship
and none in the second: the counter is `1`. -/
theorem fastestLaps_count_witness :
    ∃ stats, calculateDriverStats sampleState "d2" = .ok stats ∧ stats.fastestLaps = 1 := by
  obtain ⟨stats, h⟩ := (fastestLaps_count sampleState "d2").2.2 (by decide)
  refine ⟨stats, h, ?_⟩
  rw [((fastestLaps_count sampleState "d2").1 stats h).1]
  decide

/-! ## Best and worst finish -/

theorem featureStats_finishes (feature : JsVal) (acc : StatsAcc) :
    (featureStats feature acc).stats.bestFinish =
        (match numericPosition feature with
          | some position =>
            some (match acc.stats.bestFinish with
              | none => position
              | some b => if position < b then position else b)
          | none => acc.stats.bestFinish) ∧
    (featureStats feature acc).stats.worstFinish =
        (match numericPosition feature with
          | some position =>
            some (match acc.stats.worstFinish with
              | none => position
              | some w => if w < position then position else w)
          | none => acc.stats.worstFinish) := by
  unfold featureStats numericPosition
  cases ht : truthy feature with
  | false => simp
  | true =>
    cases hp : parseInt feature with
    | none =>
      simp only [if_true]
      split <;> exact ⟨rfl, rfl⟩
    | some position =>
      simp only [if_true]
      constructor
      · cases acc.stats.bestFinish with
        | none => rfl
        | some b => simp only []; split <;> rfl
      · cases acc.stats.worstFinish with
        | none => rfl
        | some w => simp only []; split <;> rfl

theorem recordRace_finishes (race : Race) (r : RaceResult) (racePoints : Int)
    (acc : StatsAcc) :
    (recordRace race r racePoints acc).stats.bestFinish =
        (match numericPosition r.feature with
          | some position =>
            some (match acc.stats.bestFinish with
              | none => position
              | some b => if position < b then position else b)
          | none => acc.stats.bestFinish) ∧
    (recordRace race r racePoints acc).stats.worstFinish =
        (match numericPosition r.feature with
          | some position =>
            some (match acc.stats.worstFinish with
              | none => position
              | some w => if w < position then position else w)
          | none => acc.stats.worstFinish) :=
  featureStats_finishes r.feature
    { acc with stats := { acc.stats with totalPoints := acc.stats.totalPoints + racePoints } }

theorem FinishBounds_step (best worst : Option Int) (finishes : List Int) (position : Int) :
    FinishBounds best worst finishes →
    FinishBounds
      (some (match best with
        | none => position
        | some b => if position < b then position else b))
      (some (match worst with
        | none => position
        | some w => if w < position then position else w))
      (finishes ++ [position]) := by
  intro h
  refine ⟨fun hnil => by simp at hnil, fun _ => ?_⟩
  by_cases hf : finishes = []
  · obtain ⟨hb, hw⟩ := h.1 hf
    subst hf hb hw
    exact ⟨position, position, rfl, rfl, by simp, by simp, fun p hp => by
      simp at hp; omega⟩
  · obtain ⟨b, w, hb, hw, hbm, hwm, hall⟩ := h.2 hf
    subst hb hw
    refine ⟨_, _, rfl, rfl, ?_, ?_, fun p hp => ?_⟩
    · simp only []
      split
      · simp
      · simp [hbm]
    · simp only []
      split
      · simp
      · simp [hwm]
    · simp only []
      rcases List.mem_append.mp hp with hp | hp
      · obtain ⟨h1, h2⟩ := hall p hp
        constructor
        · split <;> omega
        · split <;> omega
      · simp only [List.mem_singleton] at hp
        subst hp
        have hbw := hall b hbm
        constructor
        · split <;> omega
        · split <;> omega

theorem recordAll_finishes (records : List (Race × RaceResult × Int)) (acc : StatsAcc)
    (seen : List Int) (h : FinishBounds acc.stats.bestFinish acc.stats.worstFinish seen) :
    FinishBounds (recordAll records acc).stats.bestFinish
      (recordAll records acc).stats.worstFinish
      (seen ++ records.filterMap fun t => numericPosition t.2.1.feature) := by
  induction records generalizing acc seen with
  | nil => simpa [recordAll] using h
  | cons t rest ih =>
    obtain ⟨g1, g2⟩ := recordRace_finishes t.1 t.2.1 t.2.2 acc
    simp only [recordAll, List.foldl_cons, List.filterMap_cons]
    cases hn : numericPosition t.2.1.feature with
    | none =>
      rw [hn] at g1 g2
      have h' : FinishBounds (recordRace t.1 t.2.1 t.2.2 acc).stats.bestFinish
          (recordRace t.1 t.2.1 t.2.2 acc).stats.worstFinish seen := by
        rw [g1, g2]; exact h
      exact ih _ seen h'
    | some position =>
      rw [hn] at g1 g2
      have h' : FinishBounds (recordRace t.1 t.2.1 t.2.2 acc).stats.bestFinish
          (recordRace t.1 t.2.1 t.2.2 acc).stats.worstFinish (seen ++ [position]) := by
        rw [g1, g2]; exact FinishBounds_step _ _ _ _ h
      have := ih _ (seen ++ [position]) h'
      simpa [recordAll] using this

/-- C18: `bestFinish` is the minimum and `worstFinish` the maximum of the
driver's numeric feature finishing positions over all races, and both are
`null` when the driver has no numeric feature finish.  The call returns
whenever each `calculateRacePoints` call returns. -/
theorem bestFinish_worstFinish_bounds (st : State) (driverId : String) :
    (∀ stats, calculateDriverStats st driverId = .ok stats →
      (numericFeatureFinishes st driverId = [] →
        stats.bestFinish = none ∧ stats.worstFinish = none) ∧
      (numericFeatureFinishes st driverId ≠ [] →
        ∃ b w, stats.bestFinish = some b ∧ stats.worstFinish = some w ∧
          b ∈ numericFeatureFinishes st driverId ∧ w ∈ numericFeatureFinishes st driverId ∧
          ∀ p ∈ numericFeatureFinishes st driverId, b ≤ p ∧ p ≤ w)) ∧
    ((∀ p ∈ racesWithResult st driverId,
        returned (calculateRacePoints p.2 p.1.pointsSystem) = true) →
      ∃ stats, calculateDriverStats st driverId = .ok stats) := by
  refine ⟨fun stats h => ?_, calculateDriverStats_returns_of_calls st driverId⟩
  rw [calculateDriverStats_eq] at h
  cases hr : raceRecords st.results driverId st.races with
  | error e => simp [hr] at h
  | ok records =>
    simp only [hr, Except.ok.injEq] at h
    subst h
    obtain ⟨_, _, _, _, _, f6, f7, _⟩ := finishStats_counters (recordAll records initialAcc)
    have hinit : FinishBounds initialAcc.stats.bestFinish initialAcc.stats.worstFinish [] :=
      ⟨fun _ => ⟨rfl, rfl⟩, fun hne => absurd rfl hne⟩
    have hb := recordAll_finishes records initialAcc [] hinit
    rw [List.nil_append, raceRecords_numericFinishes st driverId records hr] at hb
    rw [f6, f7]
    exact hb

/-- Ana finishes third and second in the sample championship: best `2`,
worst `3`. -/
theorem bestFinish_worstFinish_bounds_witness :
    ∃ stats b w, calculateDriverStats sampleState "d1" = .ok stats ∧
      stats.bestFinish = some b ∧ stats.worstFinish = some w ∧
      b ∈ numericFeatureFinishes sampleState "d1" ∧
      w ∈ numericFeatureFinishes sampleState "d1" ∧
      ∀ p ∈ numericFeatureFinishes sampleState "d1", b ≤ p ∧ p ≤ w := by
  obtain ⟨stats, h⟩ := (bestFinish_worstFinish_bounds sampleState "d1").2 (by decide)
  obtain ⟨b, w, hb, hw, hrest⟩ :=
    ((bestFinish_worstFinish_bounds sampleState "d1").1 stats h).2 (by decide)
  exact ⟨stats, b, w, h, hb, hw, hrest⟩

/-! ## Races without a result -/

theorem raceRecords_skip (results : List (String × List (String × RaceResult)))
    (driverId : String) (race : Race) (pre post : List Race)
    (h : lookupResult results race.id driverId = none) :
    raceRecords results driverId (pre ++ race :: post) =
      raceRecords results driverId (pre ++ post) := by
  induction pre with
  | nil => simp [raceRecords, h]
  | cons first rest ih =>
    have ih' : raceRecords results driverId (rest.append (race :: post)) =
        raceRecords results driverId (rest.append post) := ih
    simp only [List.cons_append, raceRecords, ih']

theorem lookupResult_of_readsNothing (results : List (String × List (String × RaceResult)))
    (raceId driverId : String) (h : readsNothing results raceId driverId = true) :
    lookupResult results raceId driverId = none := by
  unfold readsNothing at h
  unfold lookupResult
  cases hm : results.lookup raceId with
  | none => rfl
  | some m =>
    simp only [hm, Bool.and_eq_true, Option.isNone_iff_eq_none, Bool.not_eq_true'] at h
    simp only [h.1, h.2, Bool.false_eq_true, if_false]

/-- C20 as stated fails: the driver id `constructor` has no result entry in
the second race of the sample championship, yet the race is not skipped: with
the race in the list `raceResults` has two elements, without it one. -/
theorem calculateDriverStats_skips_race_counterexample :
    (sampleState.results.lookup "r2").bind (fun m => m.lookup "constructor") = none ∧
    (calculateDriverStats sampleState "constructor").map (fun s => s.raceResults.length) =
      .ok 2 ∧
    (calculateDriverStats { sampleState with races := sampleState.races.take 1 }
        "constructor").map (fun s => s.raceResults.length) = .ok 1 := by
  decide

/-- C20 (amended): a race for which `results[race.id]?.[driverId]` reads
nothing is skipped by `calculateDriverStats`: with such a race inserted
anywhere in the race list, or removed from it, the call returns the same
stats, equal in every field (or raises in both cases).  A driver id that
names an inherited property of the race's mapping, without an entry of its
own, reads a value without result fields, and the race is not skipped. -/
theorem calculateDriverStats_skips_race (currentChampionship : Option Championship)
    (results : List (String × List (String × RaceResult))) (driverId : String) (race : Race)
    (pre post : List Race) :
    (readsNothing results race.id driverId = true →
      calculateDriverStats
          { currentChampionship := currentChampionship, races := pre ++ race :: post,
            results := results } driverId =
        calculateDriverStats
          { currentChampionship := currentChampionship, races := pre ++ post,
            results := results } driverId) ∧
    (∀ m, results.lookup race.id = some m → m.lookup driverId = none →
      inheritedKeys.contains driverId = true →
      lookupResult results race.id driverId = some inheritedValue ∧
      (race, inheritedValue) ∈
        racesWithResult
          { currentChampionship := currentChampionship, races := pre ++ race :: post,
            results := results } driverId) := by
  refine ⟨fun h => ?_, fun m hm hd hk => ?_⟩
  · rw [calculateDriverStats_eq, calculateDriverStats_eq]
    simp only [raceRecords_skip results driverId race pre post
      (lookupResult_of_readsNothing results race.id driverId h)]
  · have hl : lookupResult results race.id driverId = some inheritedValue := by
      simp only [lookupResult, hm, hd, hk, if_true]
    refine ⟨hl, ?_⟩
    unfold racesWithResult
    simp only [List.mem_filterMap]
    exact ⟨race, by simp, by simp [hl]⟩

/-- Cy has no result in the second race of the sample championship: without
that race his stats are the same. -/
theorem calculateDriverStats_skips_race_witness :
    readsNothing sampleState.results "r2" "d3" = true ∧
    calculateDriverStats
        { currentChampionship := sampleState.currentChampionship,
          races :=
            [{ id := "r1", name := "Australia (Melbourne)",
               pointsSystem := some defaultPointsSystem }] ++
              { id := "r2", name := "Monaco (Monaco)",
                pointsSystem := some defaultPointsSystem } :: [],
          results := sampleState.results } "d3" =
      calculateDriverStats
        { currentChampionship := sampleState.currentChampionship,
          races :=
            [{ id := "r1", name := "Australia (Melbourne)",
               pointsSystem := some defaultPointsSystem }] ++ [],
          results := sampleState.results } "d3" :=
  ⟨by decide,
    (calculateDriverStats_skips_race sampleState.currentChampionship sampleState.results "d3"
      { id := "r2", name := "Monaco (Monaco)", pointsSystem := some defaultPointsSystem }
      [{ id := "r1", name := "Australia (Melbourne)", pointsSystem := some defaultPointsSystem }]
      []).1 (by decide)⟩

/-! ## More theorems at sample data -/

/-- Xavi and Yuri both retire and are equal on all four keys: Xavi, first in
the driver list, stays ahead of Yuri. -/
theorem generateStandings_stable_witness :
    ∃ standings s1 s2 p1 p2, generateStandings equalState = .ok standings ∧
      List.Sublist
        [{ driver := { id := "x", name := "Xavi" }, stats := s1, position := p1 },
         { driver := { id := "y", name := "Yuri" }, stats := s2, position := p2 }]
        standings ∧ p1 < p2 := by
  obtain ⟨standings, h⟩ := (generateStandings_stable equalState).2 (by decide)
  obtain ⟨s1, hs1⟩ := calculateDriverStats_returns equalState (by decide) "x"
  obtain ⟨s2, hs2⟩ := calculateDriverStats_returns equalState (by decide) "y"
  have k1 : Except.map (fun s : DriverStats =>
      (s.totalPoints, s.wins, s.podiums, s.averagePosition))
      (calculateDriverStats equalState "x") = .ok (0, 0, 0, AvgPos.zero) := by decide
  have k2 : Except.map (fun s : DriverStats =>
      (s.totalPoints, s.wins, s.podiums, s.averagePosition))
      (calculateDriverStats equalState "y") = .ok (0, 0, 0, AvgPos.zero) := by decide
  rw [hs1] at k1
  rw [hs2] at k2
  simp only [Except.map, Except.ok.injEq, Prod.mk.injEq] at k1 k2
  obtain ⟨p1, p2, hsub, hlt⟩ := (generateStandings_stable equalState).1 standings h
    { id := "x", name := "Xavi" } { id := "y", name := "Yuri" } s1 s2
    (List.Sublist.refl _) hs1 hs2 (by rw [k1.1, k2.1]) (by rw [k1.2.1, k2.2.1])
    (by rw [k1.2.2.1, k2.2.2.1]) (by rw [k1.2.2.2, k2.2.2.2])
  exact ⟨standings, s1, s2, p1, p2, h, hsub, hlt⟩

/-- A flagged ninth place in a sprint with eight scoring places meets the
bonus condition although the position scores nothing. -/
theorem fastestLap_bonus_iff_witness :
    fastestLapAwarded true (JsVal.num 9) = true ∧
      specPositionComponent (JsVal.num 9) [15, 12, 10, 8, 6, 4, 2, 1] = 0 :=
  fastestLap_bonus_iff.2.2.2 (JsVal.num 9) 9 [15, 12, 10, 8, 6, 4, 2, 1] (by decide)
    (by decide) (by decide)

/-! ## Race analysis: retirements and perfect weekend -/

theorem positionChanges_others (driver : Driver) (result : RaceResult)
    (analysis : RaceAnalysis) :
    (positionChanges driver result analysis).winner = analysis.winner ∧
    (positionChanges driver result analysis).polePosition = analysis.polePosition ∧
    (positionChanges driver result analysis).dnfs = analysis.dnfs ∧
    (positionChanges driver result analysis).perfectWeekend = analysis.perfectWeekend := by
  unfold positionChanges
  split
  · simp only []
    split <;> split <;> exact ⟨rfl, rfl, rfl, rfl⟩
  · exact ⟨rfl, rfl, rfl, rfl⟩

theorem analyzeEntry_others (driver : Driver) (result : RaceResult)
    (analysis : RaceAnalysis) :
    (analyzeEntry driver result analysis).winner =
        (if decide (result.feature = JsVal.num 1) = true then some driver
          else analysis.winner) ∧
    (analyzeEntry driver result analysis).polePosition =
        (if decide (result.qualifying = JsVal.num 1) = true then some driver
          else analysis.polePosition) ∧
    (analyzeEntry driver result analysis).dnfs =
        (if isStatusToken result.feature = true then analysis.dnfs ++ [driver]
          else analysis.dnfs) ∧
    (analyzeEntry driver result analysis).perfectWeekend = analysis.perfectWeekend := by
  unfold analyzeEntry
  simp only []
  by_cases h1 : result.feature = JsVal.num 1 <;>
    by_cases h2 : result.qualifying = JsVal.num 1 <;>
    cases h3 : result.featureFL <;>
    cases h4 : isStatusToken result.feature <;>
    simp [h1, h2, positionChanges_others]

/-- A field that every entry meeting `P` overwrites with its driver ends as
the driver of the last such entry. -/
theorem analyzeKnown_last_match (field : RaceAnalysis → Option Driver)
    (P : RaceResult → Bool)
    (hstep : ∀ d r a, field (analyzeEntry d r a) = if P r = true then some d else field a)
    (entries : List (Driver × RaceResult)) (analysis : RaceAnalysis) :
    field (analyzeKnown entries analysis) =
      match (entries.filter fun p => P p.2).getLast? with
      | some p => some p.1
      | none => field analysis := by
  induction entries generalizing analysis with
  | nil => rfl
  | cons p rest ih =>
    have h := ih (analyzeEntry p.1 p.2 analysis)
    simp only [analyzeKnown, List.foldl_cons] at h ⊢
    rw [h, hstep]
    cases hp : P p.2 with
    | false => simp [List.filter_cons, hp]
    | true =>
      simp only [List.filter_cons, hp, if_true]
      cases hrest : List.filter (fun p => P p.2) rest with
      | nil => simp
      | cons q more =>
        have hne : (q :: more).getLast? = some ((q :: more).getLast (by simp)) :=
          List.getLast?_eq_getLast _ _
        rw [List.getLast?_cons_cons, hne]

theorem analyzeKnown_dnfs (entries : List (Driver × RaceResult)) (analysis : RaceAnalysis) :
    (analyzeKnown entries analysis).dnfs =
      analysis.dnfs ++ (entries.filter fun p => isStatusToken p.2.feature).map fun p => p.1 := by
  induction entries generalizing analysis with
  | nil => simp [analyzeKnown]
  | cons p rest ih =>
    have h := ih (analyzeEntry p.1 p.2 analysis)
    simp only [analyzeKnown, List.foldl_cons] at h ⊢
    rw [h, (analyzeEntry_others p.1 p.2 analysis).2.2.1]
    cases hp : isStatusToken p.2.feature <;> simp [List.filter_cons, hp]

theorem analyzeKnown_perfectWeekend (entries : List (Driver × RaceResult))
    (analysis : RaceAnalysis) :
    (analyzeKnown entries analysis).perfectWeekend = analysis.perfectWeekend := by
  induction entries generalizing analysis with
  | nil => rfl
  | cons p rest ih =>
    have h := ih (analyzeEntry p.1 p.2 analysis)
    simp only [analyzeKnown, List.foldl_cons] at h ⊢
    rw [h, (analyzeEntry_others p.1 p.2 analysis).2.2.2]

theorem perfectWeekendStep_others (analysis : RaceAnalysis) :
    (perfectWeekendStep analysis).winner = analysis.winner ∧
    (perfectWeekendStep analysis).polePosition = analysis.polePosition ∧
    (perfectWeekendStep analysis).dnfs = analysis.dnfs := by
  unfold perfectWeekendStep
  split
  · split <;> exact ⟨rfl, rfl, rfl⟩
  · exact ⟨rfl, rfl, rfl⟩

/-- The driver of a known entry is the one the driver list gives for its own id. -/
theorem knownEntries_canonical (st : State) (results : List (String × RaceResult))
    (p : Driver × RaceResult) (h : p ∈ knownEntries st results) :
    (championshipDrivers st).find? (fun d => d.id == p.1.id) = some p.1 := by
  simp only [knownEntries, List.mem_filterMap, Option.map_eq_some'] at h
  obtain ⟨q, _, d, hfind, rfl⟩ := h
  have hid : (d.id == q.1) = true :=
    @List.find?_some Driver (fun d => d.id == q.1) d (championshipDrivers st) hfind
  have heq : d.id = q.1 := by simpa using hid
  show (championshipDrivers st).find? (fun x => x.id == d.id) = some d
  rw [heq]
  exact hfind

theorem knownEntries_ids_sublist (st : State) (results : List (String × RaceResult)) :
    List.Sublist ((knownEntries st results).map fun p => p.1.id) (results.map fun p => p.1) := by
  induction results with
  | nil => simp [knownEntries]
  | cons q rest ih =>
    simp only [knownEntries, List.filterMap_cons, List.map_cons] at ih ⊢
    cases hfind : (championshipDrivers st).find? (fun d => d.id == q.1) with
    | none => simpa [hfind] using List.Sublist.cons _ ih
    | some d =>
      have hid : (d.id == q.1) = true :=
        @List.find?_some Driver (fun d => d.id == q.1) d (championshipDrivers st) hfind
      have heq : d.id = q.1 := by simpa using hid
      simp only [Option.map_some', List.map_cons, heq]
      exact List.Sublist.cons₂ _ ih

/-- C21 (as the code behaves): the `dnfs` list holds the drivers of the entries
whose driver is in the championship's driver list and whose feature position
is one of the status tokens `DNF`, `DSQ`, `DNS`, in the mapping's iteration
order; each such driver is listed once, the keys of a mapping being distinct. -/
theorem dnfs_in_iteration_order (st : State) (raceId : String) :
    (∀ analysis, analyzeRace st raceId = .ok (some analysis) →
      ∃ results, st.results.lookup raceId = some results ∧
        analysis.dnfs =
          ((knownEntries st results).filter fun p => isStatusToken p.2.feature).map
            (fun p => p.1) ∧
        ((results.map fun p => p.1).Nodup → analysis.dnfs.Nodup)) ∧
    (∀ race results, st.races.find? (fun r => r.id == raceId) = some race →
      st.results.lookup raceId = some results → driverListMissing st = false →
      ∃ analysis, analyzeRace st raceId = .ok (some analysis)) := by
  refine ⟨fun analysis h => ?_, fun race results hr hl hm => analyzeRace_returns st raceId race
    results hr hl hm⟩
  obtain ⟨results, hl, rfl⟩ := analyzeRace_shape st raceId analysis h
  have hd : (perfectWeekendStep (analyzeKnown (knownEntries st results) initialAnalysis)).dnfs =
      ((knownEntries st results).filter fun p => isStatusToken p.2.feature).map
        (fun p => p.1) := by
    rw [(perfectWeekendStep_others _).2.2, analyzeKnown_dnfs]
    simp [initialAnalysis]
  refine ⟨results, hl, hd, fun hnd => ?_⟩
  rw [hd]
  have h1 : List.Sublist
      ((((knownEntries st results).filter fun p => isStatusToken p.2.feature).map
        (fun p => p.1)).map fun d => d.id)
      ((knownEntries st results).map fun p => p.1.id) := by
    rw [List.map_map]
    exact (List.filter_sublist _).map _
  exact List.Nodup.of_map _ ((hnd.sublist (knownEntries_ids_sublist st results)).sublist h1)

/-- C21 as stated fails: Bo is entered before Ana in the mapping and both
retire; the `dnfs` list is Bo, Ana, not in ascending id order. -/
theorem dnfs_order_counterexample :
    Except.map (Option.map RaceAnalysis.dnfs)
      (analyzeRace (raceState [("d2", retiredResult 4 "DNF"), ("d1", retiredResult 2 "DNS")])
        "r1") =
      .ok (some [{ id := "d2", name := "Bo" }, { id := "d1", name := "Ana" }]) := by
  decide

/-- With Bo and Ana both retired an analysis is returned, and its `dnfs` list
holds the two drivers in the order of the mapping, each once. -/
theorem dnfs_in_iteration_order_witness :
    ∃ analysis,
      analyzeRace (raceState [("d2", retiredResult 4 "DNF"), ("d1", retiredResult 2 "DNS")])
        "r1" = .ok (some analysis) ∧
      analysis.dnfs =
        ((knownEntries
            (raceState [("d2", retiredResult 4 "DNF"), ("d1", retiredResult 2 "DNS")])
            [("d2", retiredResult 4 "DNF"), ("d1", retiredResult 2 "DNS")]).filter
          fun p => isStatusToken p.2.feature).map (fun p => p.1) ∧
      analysis.dnfs.Nodup := by
  obtain ⟨analysis, h⟩ :=
    (dnfs_in_iteration_order
        (raceState [("d2", retiredResult 4 "DNF"), ("d1", retiredResult 2 "DNS")]) "r1").2
      { id := "r1", name := "Spa", pointsSystem := some defaultPointsSystem }
      [("d2", retiredResult 4 "DNF"), ("d1", retiredResult 2 "DNS")]
      (by decide) (by decide) (by decide)
  obtain ⟨results, hl, hd, hn⟩ :=
    (dnfs_in_iteration_order
        (raceState [("d2", retiredResult 4 "DNF"), ("d1", retiredResult 2 "DNS")]) "r1").1
      analysis h
  have hres : results = [("d2", retiredResult 4 "DNF"), ("d1", retiredResult 2 "DNS")] :=
    Option.some.inj (hl.symm.trans (by decide))
  subst hres
  exact ⟨analysis, h, hd, hn (by decide)⟩

/-- A driver reported by the loop in a field that entries overwrite is the
one the driver list gives for its own id. -/
theorem analyzeKnown_reported_canonical (st : State) (results : List (String × RaceResult))
    (field : RaceAnalysis → Option Driver) (P : RaceResult → Bool)
    (hstep : ∀ d r a, field (analyzeEntry d r a) = if P r = true then some d else field a)
    (hinit : field initialAnalysis = none) (d : Driver)
    (h : field (analyzeKnown (knownEntries st results) initialAnalysis) = some d) :
    (championshipDrivers st).find? (fun x => x.id == d.id) = some d := by
  rw [analyzeKnown_last_match field P hstep, hinit] at h
  cases hlast : ((knownEntries st results).filter fun p => P p.2).getLast? with
  | none => simp [hlast] at h
  | some p =>
    simp only [hlast, Option.some.injEq] at h
    subst h
    have hmem : p ∈ (knownEntries st results).filter fun p => P p.2 :=
      List.mem_of_getLast?_eq_some hlast
    exact knownEntries_canonical st results p (List.mem_filter.mp hmem).1

theorem perfectWeekendStep_iff (analysis : RaceAnalysis)
    (hnone : analysis.perfectWeekend = none)
    (hcanon : ∀ a b : Driver,
      (analysis.polePosition = some a ∨ analysis.winner = some a ∨
        analysis.fastestLap = some a) →
      (analysis.polePosition = some b ∨ analysis.winner = some b ∨
        analysis.fastestLap = some b) → a.id = b.id → a = b)
    (d : Driver) :
    (perfectWeekendStep analysis).perfectWeekend = some d ↔
      analysis.polePosition = some d ∧ analysis.winner = some d ∧
        analysis.fastestLap = some d := by
  unfold perfectWeekendStep
  cases hp : analysis.polePosition with
  | none => simp [hnone]
  | some pole =>
    cases hw : analysis.winner with
    | none => simp [hnone]
    | some winner =>
      cases hf : analysis.fastestLap with
      | none => simp [hnone]
      | some fastest =>
        simp only []
        by_cases hid : pole.id = winner.id ∧ winner.id = fastest.id
        · have e1 : pole = winner :=
            hcanon pole winner (Or.inl hp) (Or.inr (Or.inl hw)) hid.1
          have e2 : winner = fastest :=
            hcanon winner fastest (Or.inr (Or.inl hw)) (Or.inr (Or.inr hf)) hid.2
          simp only [hid, and_self, if_true, Option.some.injEq]
          rw [e1, ← e2]
          simp
        · simp only [hid, if_false, hnone, Option.some.injEq]
          constructor
          · intro h; cases h
          · rintro ⟨rfl, rfl, rfl⟩
            exact absurd ⟨rfl, rfl⟩ hid

theorem analyzeKnown_only_match (field : RaceAnalysis → Option Driver)
    (P : RaceResult → Bool)
    (hstep : ∀ d r a, field (analyzeEntry d r a) = if P r = true then some d else field a)
    (pre post : List (Driver × RaceResult)) (x : Driver) (r : RaceResult)
    (analysis : RaceAnalysis) (hr : P r = true)
    (hpre : ∀ p ∈ pre, P p.2 = false) (hpost : ∀ p ∈ post, P p.2 = false) :
    field (analyzeKnown (pre ++ (x, r) :: post) analysis) = some x := by
  rw [analyzeKnown_last_match field P hstep]
  have h1 : pre.filter (fun p => P p.2) = [] :=
    List.filter_eq_nil_iff.mpr fun p hp => by simp [hpre p hp]
  have h2 : post.filter (fun p => P p.2) = [] :=
    List.filter_eq_nil_iff.mpr fun p hp => by simp [hpost p hp]
  simp [List.filter_append, List.filter_cons, h1, h2, hr]

/-- C22: `analyzeRace` sets `perfectWeekend` to a driver if and only if that
driver is at once the reported `polePosition`, the reported `winner` and the
reported `fastestLap` driver, and leaves it absent otherwise; a driver with
qualifying `1`, feature `1` and the feature fastest lap, while no other known
entry holds pole, win or fastest lap, is the `perfectWeekend` driver. -/
theorem perfectWeekend_iff (st : State) (raceId : String) :
    (∀ analysis, analyzeRace st raceId = .ok (some analysis) →
      ∀ d, analysis.perfectWeekend = some d ↔
        analysis.polePosition = some d ∧ analysis.winner = some d ∧
          analysis.fastestLap = some d) ∧
    (∀ analysis results pre post (x : Driver) (r : RaceResult),
      analyzeRace st raceId = .ok (some analysis) →
      st.results.lookup raceId = some results →
      knownEntries st results = pre ++ (x, r) :: post →
      r.qualifying = JsVal.num 1 → r.feature = JsVal.num 1 → r.featureFL = true →
      (∀ p ∈ pre ++ post,
        p.2.qualifying ≠ JsVal.num 1 ∧ p.2.feature ≠ JsVal.num 1 ∧ p.2.featureFL = false) →
      analysis.perfectWeekend = some x) ∧
    (∀ race results, st.races.find? (fun r => r.id == raceId) = some race →
      st.results.lookup raceId = some results → driverListMissing st = false →
      ∃ analysis, analyzeRace st raceId = .ok (some analysis)) := by
  have hw : ∀ d r a, (analyzeEntry d r a).winner =
      if (fun r : RaceResult => decide (r.feature = JsVal.num 1)) r = true then some d
      else a.winner := fun d r a => (analyzeEntry_others d r a).1
  have hp : ∀ d r a, (analyzeEntry d r a).polePosition =
      if (fun r : RaceResult => decide (r.qualifying = JsVal.num 1)) r = true then some d
      else a.polePosition := fun d r a => (analyzeEntry_others d r a).2.1
  have hf : ∀ d r a, (analyzeEntry d r a).fastestLap =
      if (fun r : RaceResult => r.featureFL) r = true then some d else a.fastestLap :=
    fun d r a => analyzeEntry_fastestLap d r a
  have hiff : ∀ analysis, analyzeRace st raceId = .ok (some analysis) →
      ∀ d, analysis.perfectWeekend = some d ↔
        analysis.polePosition = some d ∧ analysis.winner = some d ∧
          analysis.fastestLap = some d := by
    intro analysis h d
    obtain ⟨results, _, rfl⟩ := analyzeRace_shape st raceId analysis h
    rw [(perfectWeekendStep_others _).1, (perfectWeekendStep_others _).2.1,
      (perfectWeekendStep_fields _).1]
    apply perfectWeekendStep_iff
    · rw [analyzeKnown_perfectWeekend]
      rfl
    · intro a b ha hb hid
      have ca : (championshipDrivers st).find? (fun x => x.id == a.id) = some a := by
        rcases ha with ha | ha | ha
        · exact analyzeKnown_reported_canonical st results _ _ hp rfl a ha
        · exact analyzeKnown_reported_canonical st results _ _ hw rfl a ha
        · exact analyzeKnown_reported_canonical st results _ _ hf rfl a ha
      have cb : (championshipDrivers st).find? (fun x => x.id == b.id) = some b := by
        rcases hb with hb | hb | hb
        · exact analyzeKnown_reported_canonical st results _ _ hp rfl b hb
        · exact analyzeKnown_reported_canonical st results _ _ hw rfl b hb
        · exact analyzeKnown_reported_canonical st results _ _ hf rfl b hb
      rw [hid, cb] at ca
      exact (Option.some.inj ca).symm
  refine ⟨hiff, fun analysis results pre post x r h hl hK hq hfe hfl hothers => ?_,
    fun race results hr hl hm => analyzeRace_returns st raceId race results hr hl hm⟩
  rw [hiff analysis h x]
  obtain ⟨results2, hl2, rfl⟩ := analyzeRace_shape st raceId analysis h
  rw [hl] at hl2
  cases hl2
  rw [(perfectWeekendStep_others _).1, (perfectWeekendStep_others _).2.1,
    (perfectWeekendStep_fields _).1, hK]
  have hpre : ∀ p ∈ pre, p.2.qualifying ≠ JsVal.num 1 ∧ p.2.feature ≠ JsVal.num 1 ∧
      p.2.featureFL = false := fun p hp => hothers p (List.mem_append_left _ hp)
  have hpost : ∀ p ∈ post, p.2.qualifying ≠ JsVal.num 1 ∧ p.2.feature ≠ JsVal.num 1 ∧
      p.2.featureFL = false := fun p hp => hothers p (List.mem_append_right _ hp)
  refine ⟨?_, ?_, ?_⟩
  · exact analyzeKnown_only_match _ _ hp pre post x r _ (by simp [hq])
      (fun p h1 => by simp [(hpre p h1).1]) (fun p h1 => by simp [(hpost p h1).1])
  · exact analyzeKnown_only_match _ _ hw pre post x r _ (by simp [hfe])
      (fun p h1 => by simp [(hpre p h1).2.1]) (fun p h1 => by simp [(hpost p h1).2.1])
  · exact analyzeKnown_only_match _ _ hf pre post x r _ hfl
      (fun p h1 => (hpre p h1).2.2) (fun p h1 => (hpost p h1).2.2)

/-- Ana takes pole, the win and the fastest lap while Bo finishes second:
Ana has the perfect weekend. -/
theorem perfectWeekend_iff_witness :
    ∃ analysis,
      analyzeRace (raceState [("d1", featureResult 1 1 true), ("d2", featureResult 2 2 false)])
        "r1" = .ok (some analysis) ∧
      analysis.perfectWeekend = some { id := "d1", name := "Ana" } := by
  obtain ⟨analysis, h⟩ := (perfectWeekend_iff
      (raceState [("d1", featureResult 1 1 true), ("d2", featureResult 2 2 false)]) "r1").2.2
    { id := "r1", name := "Spa", pointsSystem := some defaultPointsSystem }
    [("d1", featureResult 1 1 true), ("d2", featureResult 2 2 false)]
    (by decide) (by decide) (by decide)
  refine ⟨analysis, h, ?_⟩
  exact (perfectWeekend_iff
      (raceState [("d1", featureResult 1 1 true), ("d2", featureResult 2 2 false)]) "r1").2.1
    analysis [("d1", featureResult 1 1 true), ("d2", featureResult 2 2 false)]
    [] [({ id := "d2", name := "Bo" }, featureResult 2 2 false)]
    { id := "d1", name := "Ana" } (featureResult 1 1 true) h (by decide) (by decide)
    (by decide) (by decide) (by decide) (by decide)

/-- C23 fails on the code: the race exists and has a result mapping with one
entry, the championship has no driver list, and `analyzeRace` raises a
`TypeError` where the claim has it return an analysis. -/
theorem analyzeRace_raises_without_driver_list :
    analyzeRace noDriverListState "r1" = .error JsError.typeError ∧
    generateStandings noDriverListState = .ok [] := by
  decide

/-! ## CSV export -/

theorem lineBreaks_append (a b : String) : lineBreaks (a ++ b) = lineBreaks a + lineBreaks b := by
  simp [lineBreaks, String.data_append, List.count_append]

theorem digitChar_ne_newline (n : Nat) : Nat.digitChar (n % 10) ≠ '\n' := by
  have hlt : n % 10 < 10 := Nat.mod_lt _ (by decide)
  generalize n % 10 = k at hlt
  interval_cases k <;> decide

theorem toDigitsCore_no_newline (fuel n : Nat) (ds : List Char)
    (h : '\n' ∉ ds) : '\n' ∉ Nat.toDigitsCore 10 fuel n ds := by
  induction fuel generalizing n ds with
  | zero => simpa [Nat.toDigitsCore] using h
  | succ fuel ih =>
    have hcons : '\n' ∉ Nat.digitChar (n % 10) :: ds := by
      intro hmem
      rcases List.mem_cons.mp hmem with h1 | h1
      · exact digitChar_ne_newline _ h1.symm
      · exact h h1
    simp only [Nat.toDigitsCore]
    split
    · exact hcons
    · exact ih _ _ hcons

theorem lineBreaks_natToString (n : Nat) : lineBreaks (toString n) = 0 := by
  have h : '\n' ∉ Nat.toDigits 10 n := toDigitsCore_no_newline (n + 1) n [] (by simp)
  have hd : (toString n).data = Nat.toDigits 10 n := rfl
  unfold lineBreaks
  rw [hd]
  exact List.count_eq_zero.mpr h

theorem lineBreaks_numberToString (n : Int) : lineBreaks (numberToString n) = 0 := by
  unfold numberToString
  split
  · rw [lineBreaks_append, lineBreaks_natToString]
    rfl
  · exact lineBreaks_natToString _

theorem lineBreaks_avgPosToString (a : AvgPos) : lineBreaks (avgPosToString a) = 0 := by
  cases a with
  | zero => rfl
  | fixed neg tenths =>
    simp only [avgPosToString, lineBreaks_append, lineBreaks_natToString]
    cases neg <;> rfl

theorem lineBreaks_joinWith (separator : String) (l : List String) :
    lineBreaks (joinWith separator l) =
      (l.map lineBreaks).sum + (l.length - 1) * lineBreaks separator := by
  induction l with
  | nil => simp [joinWith, lineBreaks]
  | cons x rest ih =>
    cases rest with
    | nil => simp [joinWith]
    | cons y more =>
      simp only [joinWith, lineBreaks_append, ih, List.map_cons, List.sum_cons,
        List.length_cons]
      have : (more.length + 1 + 1 - 1) = (more.length + 1 - 1) + 1 := by omega
      rw [this, Nat.add_mul]
      omega

theorem lineBreaks_csvRow (e : StandingsEntry) :
    lineBreaks (joinWith "," (csvRow e)) = lineBreaks e.driver.name := by
  have hc : lineBreaks "," = 0 := by decide
  rw [lineBreaks_joinWith, hc]
  simp [csvRow, lineBreaks_numberToString, lineBreaks_avgPosToString]

theorem splitAt_ne_nil (c : Char) (l : List Char) : splitAt c l ≠ [] := by
  cases l with
  | nil => simp [splitAt]
  | cons x rest =>
    simp only [splitAt]
    split
    · simp
    · split <;> simp

theorem splitAt_length (c : Char) (l : List Char) : (splitAt c l).length = l.count c + 1 := by
  induction l with
  | nil => simp [splitAt]
  | cons x rest ih =>
    simp only [splitAt]
    by_cases hx : x = c
    · subst hx
      simp [ih]
    · rw [if_neg hx, List.count_cons_of_ne (fun h => hx h.symm), ← ih]
      cases hs : splitAt c rest with
      | nil => exact absurd hs (splitAt_ne_nil c rest)
      | cons piece pieces => simp

theorem splitAt_of_not_mem (c : Char) (l : List Char) (h : c ∉ l) : splitAt c l = [l] := by
  induction l with
  | nil => simp [splitAt]
  | cons x rest ih =>
    have hx : x ≠ c := fun e => h (by simp [e])
    have hrest : c ∉ rest := fun e => h (List.mem_cons_of_mem _ e)
    simp [splitAt, hx, ih hrest]

theorem splitAt_append (c : Char) (a b : List Char) (h : c ∉ a) :
    splitAt c (a ++ c :: b) = a :: splitAt c b := by
  induction a with
  | nil => simp [splitAt]
  | cons x rest ih =>
    have hx : x ≠ c := fun e => h (by simp [e])
    have hrest : c ∉ rest := fun e => h (List.mem_cons_of_mem _ e)
    simp [splitAt, hx, ih hrest]

theorem lineCount_eq (s : String) : lineCount s = lineBreaks s + 1 := by
  simp [lineCount, textLines, lineBreaks, splitAt_length]

theorem not_mem_of_lineBreaks (s : String) (h : lineBreaks s = 0) : '\n' ∉ s.data :=
  List.count_eq_zero.mp h

theorem textLines_joinWith (x : String) (rest : List String)
    (h : ∀ line ∈ x :: rest, lineBreaks line = 0) :
    textLines (joinWith "\n" (x :: rest)) = x :: rest := by
  induction rest generalizing x with
  | nil =>
    have hx := not_mem_of_lineBreaks x (h x (by simp))
    simp [textLines, joinWith, splitAt_of_not_mem _ _ hx]
  | cons y more ih =>
    have hx := not_mem_of_lineBreaks x (h x (by simp))
    have hrest : ∀ line ∈ y :: more, lineBreaks line = 0 :=
      fun line hl => h line (List.mem_cons_of_mem _ hl)
    have ih' := ih y hrest
    have hdata : (joinWith "\n" (x :: y :: more)).data =
        x.data ++ '\n' :: (joinWith "\n" (y :: more)).data := by
      simp [joinWith, String.data_append]
    unfold textLines at ih' ⊢
    rw [hdata, splitAt_append _ _ _ hx, List.map_cons, ih']

/-- The lines of the CSV text: the header, one per entry, and one more for
every line break inside a driver name. -/
theorem lineCount_csvContent (standings : List StandingsEntry) :
    lineCount (csvContent standings) =
      standings.length + 1 + (standings.map fun e => lineBreaks e.driver.name).sum := by
  have hn : lineBreaks "\n" = 1 := by decide
  have hh : lineBreaks (joinWith "," csvHeaders) = 0 := by decide
  rw [lineCount_eq]
  unfold csvContent
  rw [lineBreaks_joinWith, hn]
  simp only [List.map_cons, List.sum_cons, List.length_cons, List.length_map, hh, List.map_map]
  have hrows : (List.map (lineBreaks ∘ joinWith "," ∘ csvRow) standings) =
      standings.map fun e => lineBreaks e.driver.name := by
    apply List.map_congr_left
    intro e _
    exact lineBreaks_csvRow e
  rw [hrows]
  omega


theorem exportStandings_eq (st : State) (standings : List StandingsEntry)
    (h : generateStandings st = .ok standings) :
    exportStandings st = .ok (csvContent standings) := by
  simp [exportStandings, h]

theorem joinWith_csvHeaders : joinWith "," csvHeaders = csvHeaderLine := by
  decide

/-- C24 fails as stated: the only driver of the championship has a line break
in the name, the standings have one entry, and the CSV text has three lines,
not two. -/
theorem exportStandings_lines_counterexample :
    (generateStandings brokenNameState).map List.length = .ok 1 ∧
    (exportStandings brokenNameState).map lineCount = .ok 3 := by
  decide

/-- C24 (amended): the CSV text of a standings list is the header line and one
comma-joined row per entry, in the order of the list, joined by line breaks;
its number of lines is the number of entries plus one plus the number of line
breaks inside driver names.  When no driver name holds a line break the lines
of the text are the fixed header followed by the rows in ranked order, exactly
`standings.length + 1` of them; and this is the text `exportStandings` builds
whenever `generateStandings` returns the list. -/
theorem exportStandings_lines (standings : List StandingsEntry) :
    csvContent standings =
      joinWith "\n" (csvHeaderLine :: standings.map fun e => joinWith "," (csvRow e)) ∧
    lineCount (csvContent standings) =
      standings.length + 1 + (standings.map fun e => lineBreaks e.driver.name).sum ∧
    ((∀ e ∈ standings, lineBreaks e.driver.name = 0) →
      textLines (csvContent standings) =
        csvHeaderLine :: standings.map (fun e => joinWith "," (csvRow e)) ∧
      lineCount (csvContent standings) = standings.length + 1) ∧
    (∀ st, generateStandings st = .ok standings →
      exportStandings st = .ok (csvContent standings)) := by
  have hshape : csvContent standings =
      joinWith "\n" (csvHeaderLine :: standings.map fun e => joinWith "," (csvRow e)) := by
    simp [csvContent, joinWith_csvHeaders, List.map_map, Function.comp_def]
  refine ⟨hshape, lineCount_csvContent standings, ?_, fun st h => exportStandings_eq st standings h⟩
  intro hnames
  have hlines : textLines (csvContent standings) =
      csvHeaderLine :: standings.map (fun e => joinWith "," (csvRow e)) := by
    rw [hshape]
    apply textLines_joinWith
    intro line hline
    rcases List.mem_cons.mp hline with h1 | h1
    · subst h1
      decide
    · obtain ⟨e, he, rfl⟩ := List.mem_map.mp h1
      rw [lineBreaks_csvRow]
      exact hnames e he
  refine ⟨hlines, ?_⟩
  unfold lineCount
  rw [hlines]
  simp

/-- The amended C24 on the standings of the tie example: two entries, three
lines. -/
theorem exportStandings_lines_witness :
    (∀ e ∈ tieStandings, lineBreaks e.driver.name = 0) ∧
    textLines (csvContent tieStandings) =
      csvHeaderLine :: tieStandings.map (fun e => joinWith "," (csvRow e)) ∧
    lineCount (csvContent tieStandings) = tieStandings.length + 1 :=
  ⟨by decide, (exportStandings_lines tieStandings).2.2.1 (by decide)⟩


/-! ## Invariants of the statistics -/

theorem calculateDriverStats_finishBounds (st : State) (driverId : String) (stats : DriverStats)
    (h : calculateDriverStats st driverId = .ok stats) :
    FinishBounds stats.bestFinish stats.worstFinish (numericFeatureFinishes st driverId) := by
  rw [calculateDriverStats_eq] at h
  cases hr : raceRecords st.results driverId st.races with
  | error e => simp [hr] at h
  | ok records =>
    simp only [hr, Except.ok.injEq] at h
    subst h
    obtain ⟨_, _, _, _, _, f6, f7, _⟩ := finishStats_counters (recordAll records initialAcc)
    have hinit : FinishBounds initialAcc.stats.bestFinish initialAcc.stats.worstFinish [] :=
      ⟨fun _ => ⟨rfl, rfl⟩, fun hne => absurd rfl hne⟩
    have hb := recordAll_finishes records initialAcc [] hinit
    rw [List.nil_append, raceRecords_numericFinishes st driverId records hr] at hb
    rw [f6, f7]
    exact hb

theorem isPodium_of_isWin (r : RaceResult) (h : isWin r = true) : isPodium r = true := by
  unfold isWin at h
  unfold isPodium
  rw [of_decide_eq_true h]
  decide

theorem numeric_of_isPodium (r : RaceResult) (h : isPodium r = true) :
    (numericPosition r.feature).isSome = true := by
  unfold isPodium at h
  cases hn : numericPosition r.feature with
  | none => simp [hn] at h
  | some p => rfl

theorem not_numeric_of_isRetirement (r : RaceResult) (h : isRetirement r = true) :
    (numericPosition r.feature).isSome = false := by
  unfold isRetirement isStatusToken at h
  simp only [Bool.or_eq_true, beq_iff_eq] at h
  rcases h with (h | h) | h <;> rw [h] <;> decide

theorem length_filterMap_eq_countP {α β : Type} (f : α → Option β) (l : List α) :
    (l.filterMap f).length = l.countP (fun a => (f a).isSome) := by
  induction l with
  | nil => rfl
  | cons a rest ih =>
    cases ha : f a with
    | none => simp [List.filterMap_cons, ha, ih]
    | some b => simp [List.filterMap_cons, ha, ih]

theorem countP_add_le_length {α : Type} (P Q : α → Bool) (l : List α)
    (h : ∀ a ∈ l, Q a = true → P a = false) :
    l.countP P + l.countP Q ≤ l.length := by
  induction l with
  | nil => simp
  | cons a rest ih =>
    have ih' := ih fun x hx => h x (List.mem_cons_of_mem _ hx)
    have ha := h a (List.mem_cons_self _ _)
    simp only [List.countP_cons, List.length_cons]
    cases hq : Q a with
    | false =>
      cases hp : P a <;> simp <;> omega
    | true =>
      rw [ha hq]
      simp
      omega

theorem numericFeatureFinishes_length (st : State) (driverId : String) :
    (numericFeatureFinishes st driverId).length =
      (racesWithResult st driverId).countP (fun p => (numericPosition p.2.feature).isSome) :=
  length_filterMap_eq_countP _ _

/-- C25: the stats `calculateDriverStats` returns satisfy
`wins ≤ podiums ≤ numeric feature finishes ≤ races with a result`, the
numeric feature finishes plus `dnfs` are at most the races with a result, and
when `bestFinish` is not `null` then `worstFinish` is not `null` either and
`bestFinish ≤ worstFinish`.  The call returns whenever each
`calculateRacePoints` call returns. -/
theorem stats_invariants (st : State) (driverId : String) :
    (∀ stats, calculateDriverStats st driverId = .ok stats →
      stats.wins ≤ stats.podiums ∧
      stats.podiums ≤ (numericFeatureFinishes st driverId).length ∧
      (numericFeatureFinishes st driverId).length ≤ (racesWithResult st driverId).length ∧
      (numericFeatureFinishes st driverId).length + stats.dnfs ≤
        (racesWithResult st driverId).length ∧
      ∀ b, stats.bestFinish = some b → ∃ w, stats.worstFinish = some w ∧ b ≤ w) ∧
    ((∀ p ∈ racesWithResult st driverId,
        returned (calculateRacePoints p.2 p.1.pointsSystem) = true) →
      ∃ stats, calculateDriverStats st driverId = .ok stats) := by
  refine ⟨fun stats h => ?_, calculateDriverStats_returns_of_calls st driverId⟩
  obtain ⟨hw, hp, hd, _, _⟩ := calculateDriverStats_counters st driverId stats h
  have hbounds := calculateDriverStats_finishBounds st driverId stats h
  rw [hw, hp, hd, numericFeatureFinishes_length]
  refine ⟨?_, ?_, ?_, ?_, ?_⟩
  · exact List.countP_mono_left fun p _ hp => isPodium_of_isWin p.2 hp
  · exact List.countP_mono_left fun p _ hp => numeric_of_isPodium p.2 hp
  · exact List.countP_le_length _
  · exact countP_add_le_length _ _ _ fun p _ hq => not_numeric_of_isRetirement p.2 hq
  · intro b hb
    by_cases hf : numericFeatureFinishes st driverId = []
    · rw [(hbounds.1 hf).1] at hb
      exact absurd hb (by simp)
    · obtain ⟨b0, w, hb0, hw0, hbm, _, hall⟩ := hbounds.2 hf
      rw [hb0] at hb
      have hbb : b0 = b := Option.some.inj hb
      subst hbb
      exact ⟨w, hw0, (hall b0 hbm).2⟩

/-- Ana in the sample championship: the invariants hold on the stats the call
returns. -/
theorem stats_invariants_witness :
    ∃ stats, calculateDriverStats sampleState "d1" = .ok stats ∧
      stats.wins ≤ stats.podiums ∧
      stats.podiums ≤ (numericFeatureFinishes sampleState "d1").length ∧
      (numericFeatureFinishes sampleState "d1").length ≤
        (racesWithResult sampleState "d1").length ∧
      (numericFeatureFinishes sampleState "d1").length + stats.dnfs ≤
        (racesWithResult sampleState "d1").length ∧
      ∀ b, stats.bestFinish = some b → ∃ w, stats.worstFinish = some w ∧ b ≤ w := by
  obtain ⟨stats, h⟩ := (stats_invariants sampleState "d1").2 (by decide)
  exact ⟨stats, h, (stats_invariants sampleState "d1").1 stats h⟩


/-! ## Standings: a permutation of the driver list -/

theorem generateStandings_drivers_perm (st : State) (standings : List StandingsEntry)
    (h : generateStandings st = .ok standings) :
    List.Perm (standings.map fun e => e.driver) (championshipDrivers st) := by
  obtain ⟨entries, hm, rfl⟩ := generateStandings_shape st standings h
  have he := mapDrivers_eq_map st _ entries hm
  rw [setPositionsFrom_driver]
  have hsorted : List.Perm (sortWith compareStandings entries) entries :=
    List.perm_insertionSort _ entries
  have hdrivers : entries.map (fun e => e.driver) = championshipDrivers st := by
    rw [he, List.map_map]
    exact List.map_id _
  rw [← hdrivers]
  exact hsorted.map _

theorem generateStandings_without_drivers (st : State)
    (h : st.currentChampionship = none ∨ driverListMissing st = true) :
    generateStandings st = .ok [] := by
  unfold generateStandings
  unfold driverListMissing at h
  cases hc : st.currentChampionship with
  | none => rfl
  | some championship =>
    rw [hc] at h
    cases hd : championship.drivers with
    | none => simp only [hd]
    | some drivers => simp [hd] at h

/-- C26: the list `generateStandings` returns is a permutation of the
championship's driver list: its drivers (id and name) are the input drivers
in some order, each as often as in the input, so the lengths agree, and each
entry carries the stats `calculateDriverStats` returns for its driver's id.
Without a current championship, or when it has no driver list, the result is
the empty list; the call returns whenever every race has a complete points
system. -/
theorem generateStandings_permutation (st : State) :
    (∀ standings, generateStandings st = .ok standings →
      List.Perm (standings.map fun e => e.driver) (championshipDrivers st) ∧
      standings.length = (championshipDrivers st).length ∧
      (∀ d, (standings.map fun e => e.driver).count d = (championshipDrivers st).count d) ∧
      (∀ e ∈ standings, calculateDriverStats st e.driver.id = .ok e.stats)) ∧
    ((st.currentChampionship = none ∨ driverListMissing st = true) →
      generateStandings st = .ok []) ∧
    (pointsSystemsComplete st = true → ∃ standings, generateStandings st = .ok standings) := by
  refine ⟨fun standings h => ?_, generateStandings_without_drivers st,
    generateStandings_returns st⟩
  have hperm := generateStandings_drivers_perm st standings h
  refine ⟨hperm, ?_, fun d => hperm.count_eq d,
    fun e he => (generateStandings_mem st standings h e he).2⟩
  have hlen := hperm.length_eq
  rwa [List.length_map] at hlen

/-- The sample championship: the standings hold its three drivers, each once,
with their stats; and the championship without a driver list gives the empty
list. -/
theorem generateStandings_permutation_witness :
    (∃ standings, generateStandings sampleState = .ok standings ∧
      List.Perm (standings.map fun e => e.driver) (championshipDrivers sampleState) ∧
      standings.length = (championshipDrivers sampleState).length ∧
      (∀ d, (standings.map fun e => e.driver).count d =
        (championshipDrivers sampleState).count d) ∧
      (∀ e ∈ standings, calculateDriverStats sampleState e.driver.id = .ok e.stats)) ∧
    generateStandings noDriverListState = .ok [] := by
  obtain ⟨standings, h⟩ := (generateStandings_permutation sampleState).2.2 (by decide)
  exact ⟨⟨standings, h, (generateStandings_permutation sampleState).1 standings h⟩,
    (generateStandings_permutation noDriverListState).2.1 (Or.inr (by decide))⟩


/-! ## Race analysis: absent and present results -/

theorem analyzeRace_absent (st : State) (raceId : String)
    (h : st.races.find? (fun r => r.id == raceId) = none ∨ st.results.lookup raceId = none) :
    analyzeRace st raceId = .ok none := by
  unfold analyzeRace
  rcases h with h | h
  · rw [h]
  · rw [h]
    cases st.races.find? (fun r => r.id == raceId) <;> rfl

theorem analyzeRace_empty_mapping (st : State) (raceId : String) (race : Race)
    (hr : st.races.find? (fun r => r.id == raceId) = some race)
    (hl : st.results.lookup raceId = some []) :
    analyzeRace st raceId = .ok (some (perfectWeekendStep initialAnalysis)) := by
  simp only [analyzeRace, hr, hl, forEachEntry]


/-! ## Standings: the drivers in cascade order -/

theorem mem_setPositionsFrom_of_mem (index : Nat) (l : List StandingsEntry)
    (e0 : StandingsEntry) (h : e0 ∈ l) :
    ∃ p, { e0 with position := p } ∈ setPositionsFrom index l := by
  induction l generalizing index with
  | nil => simp at h
  | cons x rest ih =>
    rcases List.mem_cons.mp h with rfl | h
    · exact ⟨index + 1, by simp [setPositionsFrom]⟩
    · obtain ⟨p, hp⟩ := ih (index + 1) h
      exact ⟨p, by simp only [setPositionsFrom]; exact List.mem_cons_of_mem _ hp⟩

/-- Every driver of the championship has an entry in a returned standings
list, with the stats `calculateDriverStats` returns for the driver's id. -/
theorem generateStandings_has_entry (st : State) (standings : List StandingsEntry)
    (h : generateStandings st = .ok standings) (d : Driver) (hd : d ∈ championshipDrivers st)
    (s : DriverStats) (hs : calculateDriverStats st d.id = .ok s) :
    ∃ p, { driver := d, stats := s, position := p } ∈ standings := by
  obtain ⟨entries, hm, rfl⟩ := generateStandings_shape st standings h
  have hmap := mapDrivers_eq_map st _ entries hm
  have he : entryOf st d = { driver := d, stats := s, position := 0 } := by
    simp [entryOf, hs]
  have h1 : ({ driver := d, stats := s, position := 0 } : StandingsEntry) ∈ entries := by
    rw [hmap, ← he]
    exact List.mem_map_of_mem _ hd
  have h2 : ({ driver := d, stats := s, position := 0 } : StandingsEntry) ∈
      sortWith compareStandings entries := (List.mem_insertionSort _).mpr h1
  exact mem_setPositionsFrom_of_mem 0 _ _ h2

/-- C9: the list returned by `generateStandings` holds the drivers of the
championship, each with the stats `calculateDriverStats` returns for it,
ordered by the four-level cascade: of two adjacent entries, and of any earlier
and later entry, the earlier has more `totalPoints`, or equal points and more
wins, or those equal and more podiums, or those equal and an `averagePosition`
numerically at most the later one, and the earlier has the smaller position.
Two drivers tied on `totalPoints = 40` and `wins = 2` with podiums `3` and `2`
both have an entry, and the `podiums = 3` driver is ranked above.  The list is
returned whenever every race has a complete points system. -/
theorem generateStandings_cascade (st : State) :
    (∀ standings, generateStandings st = .ok standings →
      List.Perm (standings.map fun e => e.driver) (championshipDrivers st) ∧
      (∀ e ∈ standings, calculateDriverStats st e.driver.id = .ok e.stats) ∧
      standings.Chain' (fun a b => cascade a.stats b.stats) ∧
      standings.Pairwise (fun a b => cascade a.stats b.stats ∧ a.position < b.position) ∧
      (∀ a ∈ standings, ∀ b ∈ standings,
        a.stats.totalPoints = 40 → b.stats.totalPoints = 40 →
        a.stats.wins = 2 → b.stats.wins = 2 →
        a.stats.podiums = 3 → b.stats.podiums = 2 → a.position < b.position) ∧
      (∀ d1 ∈ championshipDrivers st, ∀ d2 ∈ championshipDrivers st, ∀ s1 s2,
        calculateDriverStats st d1.id = .ok s1 → calculateDriverStats st d2.id = .ok s2 →
        s1.totalPoints = 40 → s2.totalPoints = 40 → s1.wins = 2 → s2.wins = 2 →
        s1.podiums = 3 → s2.podiums = 2 →
        ∃ p1 p2,
          ({ driver := d1, stats := s1, position := p1 } : StandingsEntry) ∈ standings ∧
          ({ driver := d2, stats := s2, position := p2 } : StandingsEntry) ∈ standings ∧
          p1 < p2)) ∧
    (pointsSystemsComplete st = true → ∃ standings, generateStandings st = .ok standings) := by
  refine ⟨fun standings h => ?_, generateStandings_returns st⟩
  have hexample : ∀ a ∈ standings, ∀ b ∈ standings,
      a.stats.totalPoints = 40 → b.stats.totalPoints = 40 →
      a.stats.wins = 2 → b.stats.wins = 2 →
      a.stats.podiums = 3 → b.stats.podiums = 2 → a.position < b.position := by
    intro a ha b hb hta htb hwa hwb hpa hpb
    have hne : a ≠ b := by
      intro hab
      rw [hab, hpb] at hpa
      omega
    rcases generateStandings_compare st standings h a b ha hb hne with hc | hc
    · exact hc.2
    · exfalso
      have := hc.1
      unfold cascade at this
      omega
  refine ⟨generateStandings_drivers_perm st standings h,
    fun e he => (generateStandings_mem st standings h e he).2,
    ((generateStandings_pairwise st standings h).imp fun {a b} hab => hab.1).chain',
    generateStandings_pairwise st standings h, hexample, ?_⟩
  intro d1 hd1 d2 hd2 s1 s2 hs1 hs2 ht1 ht2 hw1 hw2 hp1 hp2
  obtain ⟨p1, hm1⟩ := generateStandings_has_entry st standings h d1 hd1 s1 hs1
  obtain ⟨p2, hm2⟩ := generateStandings_has_entry st standings h d2 hd2 s2 hs2
  exact ⟨p1, p2, hm1, hm2, hexample _ hm1 _ hm2 ht1 ht2 hw1 hw2 hp1 hp2⟩

/-- Bo and Ana tie on 40 points and two wins, Ana with three podiums and Bo
with two: both have an entry in the standings, Ana above Bo although Bo comes
first in the driver list, and the list is in cascade order. -/
theorem generateStandings_cascade_witness :
    ∃ standings s1 s2 p1 p2, generateStandings podiumTieState = .ok standings ∧
      s1.totalPoints = 40 ∧ s2.totalPoints = 40 ∧ s1.wins = 2 ∧ s2.wins = 2 ∧
      s1.podiums = 3 ∧ s2.podiums = 2 ∧
      ({ driver := { id := "a", name := "Ana" }, stats := s1, position := p1 } :
        StandingsEntry) ∈ standings ∧
      ({ driver := { id := "b", name := "Bo" }, stats := s2, position := p2 } :
        StandingsEntry) ∈ standings ∧
      p1 < p2 ∧
      standings.Chain' (fun a b => cascade a.stats b.stats) ∧
      standings.length = 2 := by
  obtain ⟨standings, h⟩ := (generateStandings_cascade podiumTieState).2 (by decide)
  obtain ⟨s1, hs1⟩ := calculateDriverStats_returns podiumTieState (by decide) "a"
  obtain ⟨s2, hs2⟩ := calculateDriverStats_returns podiumTieState (by decide) "b"
  have k1 : Except.map (fun s : DriverStats => (s.totalPoints, s.wins, s.podiums))
      (calculateDriverStats podiumTieState "a") = .ok (40, 2, 3) := by decide
  have k2 : Except.map (fun s : DriverStats => (s.totalPoints, s.wins, s.podiums))
      (calculateDriverStats podiumTieState "b") = .ok (40, 2, 2) := by decide
  rw [hs1] at k1
  rw [hs2] at k2
  simp only [Except.map, Except.ok.injEq, Prod.mk.injEq] at k1 k2
  obtain ⟨hperm, _, hchain, _, _, hex⟩ := (generateStandings_cascade podiumTieState).1 standings h
  obtain ⟨p1, p2, hm1, hm2, hlt⟩ := hex { id := "a", name := "Ana" } (by decide)
    { id := "b", name := "Bo" } (by decide) s1 s2 hs1 hs2 k1.1 k2.1 k1.2.1 k2.2.1 k1.2.2 k2.2.2
  have hlen : standings.length = 2 := by
    have := hperm.length_eq
    rw [List.length_map] at this
    rw [this]
    decide
  exact ⟨standings, s1, s2, p1, p2, h, k1.1, k2.1, k1.2.1, k2.2.1, k1.2.2, k2.2.2, hm1, hm2,
    hlt, hchain, hlen⟩

end F2Tabela
